import Mathlib

/-!
# Buffer cache and request protocol of the record store

A shallow embedding of the RAM cache that sits between the store server and the
slot file `myDBtable.dat` (`mycache/libmycache.c`), of the dispatch loop of the
server (`test_store_server/main.c`, `mystore_srv/libmystore_srv.c`) and of the
client calls (`mystore_cli/libmystore_cli.c`), followed by theorems about them.

Conventions of the embedding:

* C `int` values are `Int`, reduced with `toI32` where the C code converts or
  overflows; `unsigned int` values are `Nat`, produced with `toU32`.
* `-1` returned by a search function is `none`; a found position `i` is `some i`.
* The flags of `CacheDirty`, which the code only ever sets to 0 or 1, are `Bool`.
* The slot file is a list of whole buckets: element `k` is the bucket stored at
  byte offset `k * sizeof(MYBUCKET_BUCKET_t)`; a hole of a sparse file is a
  zero-filled bucket.  `lseek` fails exactly on a negative offset, `read`
  transfers a whole bucket when the slot lies inside the file and nothing at or
  after the end of the file, `write` always transfers the whole bucket.
* `rand()` is a parameter `rnd` of the operations that may call `searchAny`.
* An access outside an array (undefined behaviour) makes an operation `none`.
* Field `log` is ghost state: the system calls issued on the file so far.
* The values returned by `close`, `msgsnd` and `msgrcv`, and the message that
  `msgrcv` delivers, are parameters of the functions that make these calls.
* A signal that interrupts the `msgrcv` of the server runs `s_handler` before
  `msgrcv` returns -1 with `errno` set to `EINTR`.
* Where several processes act, the message queue is the list of its messages in
  the order of their `msgsnd`, and the steps of the processes are interleaved;
  `msgrcv` with a positive type selects the first message of that type and
  fails with `E2BIG` when its text is longer than the buffer.  The lengths and
  the layout of the two message structures are those of a platform where `long`
  takes 8 bytes and `int` 4, lowest byte first.
-/

namespace MyCache

/-- Record of the table, `MYRECORD_RECORD_t` in `myrecord.h`. -/
structure MYRECORD_RECORD_t where
  registerid : Nat
  age : Int
  gender : Int
  name : List Nat
deriving DecidableEq, Repr

/-- Bucket of the cache and of the file, `MYBUCKET_BUCKET_t` in `mybucket.h`:
the bytes of one record and the number of the record, `0` meaning empty. -/
structure MYBUCKET_BUCKET_t where
  record : MYRECORD_RECORD_t
  id : Nat
deriving DecidableEq, Repr

/-- System calls on the descriptor `dbFile`, as recorded in the ghost log. -/
inductive SysCall where
  | lseek (offset : Int)
  | read (slot : Nat) (nbytes : Nat)
  | write (slot : Nat) (bucket : MYBUCKET_BUCKET_t)
deriving DecidableEq, Repr

/-- The private variables of `libmycache.c`: `CacheEntries`, `CacheDirty`, the
content of the file behind `dbFile`, and the ghost log of system calls. -/
structure Cache where
  CacheEntries : List MYBUCKET_BUCKET_t
  CacheDirty : List Bool
  dbFile : List MYBUCKET_BUCKET_t
  log : List SysCall
deriving DecidableEq, Repr

/-- Size of the cache in buckets, `MYC_NUMENTRIES` in `mycache.h`. -/
def MYC_NUMENTRIES : Nat := 64

/-- Value of `sizeof(MYBUCKET_BUCKET_t)`: 28 bytes of record and 4 of id. -/
def sizeofBucket : Nat := 32

/-- Conversion of an integer value to C `unsigned int` (32 bits). -/
def toU32 (x : Int) : Nat := (x % 4294967296).toNat

/-- Conversion of an integer value to C `int` (32 bits, wrapping). -/
def toI32 (x : Int) : Int :=
  if x % 4294967296 < 2147483648 then x % 4294967296 else x % 4294967296 - 4294967296

/-- An all-zero record, as `calloc` and a hole of the file give it. -/
def zeroRecord : MYRECORD_RECORD_t := ⟨0, 0, 0, List.replicate 16 0⟩

/-- An all-zero bucket. -/
def zeroBucket : MYBUCKET_BUCKET_t := ⟨zeroRecord, 0⟩

/-- The loop `for (int i = start; i < start + n; i++) if (p i) return i; return -1;`. -/
def forFind (p : Nat → Bool) : Nat → Nat → Option Nat
  | 0, _ => none
  | n + 1, i => if p i then some i else forFind p n (i + 1)

/-- Bucket `CacheEntries[i]`. -/
def entryAt (c : Cache) (i : Nat) : MYBUCKET_BUCKET_t := c.CacheEntries.getD i zeroBucket

/-- Flag `CacheDirty[i]`. -/
def dirtyAt (c : Cache) (i : Nat) : Bool := c.CacheDirty.getD i false

/-- Search for an unused entry, else for a clean one (`searchUnusedOrClean`). -/
def searchUnusedOrClean (c : Cache) : Option Nat :=
  match forFind (fun i => decide (0 = (entryAt c i).id)) c.CacheEntries.length 0 with
  | some i => some i
  | none => forFind (fun i => decide (dirtyAt c i = false)) c.CacheEntries.length 0

/-- A random entry of the cache (`searchAny`); `rnd` is the value of `rand()`. -/
def searchAny (c : Cache) (rnd : Nat) : Nat := rnd % c.CacheEntries.length

/-- Search for the entry already associated with `fileIndex` (`searchRecord`). -/
def searchRecord (c : Cache) (fileIndex : Int) : Option Nat :=
  forFind (fun i => decide (toU32 fileIndex = (entryAt c i).id)) c.CacheEntries.length 0

/-- Result of `lseek(dbFile, offset, SEEK_SET)` on a regular file. -/
def lseek (offset : Int) : Int := if offset < 0 then -1 else offset

/-- Content of the file after `write` of one bucket at slot `k`: the file grows,
with a zero-filled hole, when the slot lies at or after its end. -/
def fileWrite (file : List MYBUCKET_BUCKET_t) (k : Nat) (b : MYBUCKET_BUCKET_t) :
    List MYBUCKET_BUCKET_t :=
  if k < file.length then file.set k b
  else file ++ List.replicate (k - file.length) zeroBucket ++ [b]

/-- Byte offset of the slot of record number `id`, as `readEntry` and
`writeEntry` compute it: `int fileIndex = id; int offset = fileIndex *
sizeof(MYBUCKET_BUCKET_t);` (the product is made in `size_t` and truncated to
`int`). -/
def byteOffset (id : Nat) : Int := toI32 (toI32 id * sizeofBucket)

/-- Slot of the file that starts at byte `offset`. -/
def slotAt (offset : Int) : Nat := (offset / sizeofBucket).toNat

/-- Read one entry from the file into the cache (`readEntry`). -/
def readEntry (c : Cache) (cacheIndex : Nat) : Int × Cache :=
  let offset : Int := byteOffset (entryAt c cacheIndex).id
  if lseek offset ≠ offset then
    (-1, { c with log := c.log ++ [SysCall.lseek offset] })
  else
    let slot : Nat := slotAt offset
    let nbytes : Nat := if slot < c.dbFile.length then sizeofBucket else 0
    let entries := if slot < c.dbFile.length
      then c.CacheEntries.set cacheIndex (c.dbFile.getD slot zeroBucket)
      else c.CacheEntries
    let res : Int := if nbytes ≠ sizeofBucket then 1 else 0
    let c1 : Cache := { c with CacheEntries := entries,
                               log := c.log ++ [SysCall.lseek offset, SysCall.read slot nbytes] }
    if res = -1 then (-1, c1)
    else (0, { c1 with CacheDirty := c.CacheDirty.set cacheIndex false })

/-- Write one entry of the cache to the file (`writeEntry`). -/
def writeEntry (c : Cache) (cacheIndex : Nat) : Int × Cache :=
  let offset : Int := byteOffset (entryAt c cacheIndex).id
  if lseek offset ≠ offset then
    (-1, { c with log := c.log ++ [SysCall.lseek offset] })
  else
    let slot : Nat := slotAt offset
    let nbytes : Nat := sizeofBucket
    let res : Int := if nbytes ≠ sizeofBucket then 1 else 0
    let c1 : Cache := { c with dbFile := fileWrite c.dbFile slot (entryAt c cacheIndex),
                               log := c.log ++ [SysCall.lseek offset,
                                                SysCall.write slot (entryAt c cacheIndex)] }
    if res = -1 then (-1, c1)
    else (0, { c1 with CacheDirty := c.CacheDirty.set cacheIndex false })

/-- Initialise the cache over the file `file` (`MYC_initCache`, when `calloc`
and `open` succeed): zeroed tables, the file as it is on disk. -/
def MYC_initCache (file : List MYBUCKET_BUCKET_t) : Cache :=
  { CacheEntries := List.replicate MYC_NUMENTRIES zeroBucket,
    CacheDirty := List.replicate MYC_NUMENTRIES false,
    dbFile := file,
    log := [] }

/-- Force the entry holding `fileIndex` to the file (`MYC_flushEntry`).  When no
entry holds `fileIndex` the code reads `CacheDirty[-1]`: the result is `none`. -/
def MYC_flushEntry (c : Cache) (fileIndex : Int) : Option (Int × Cache) :=
  match searchRecord c fileIndex with
  | none => none
  | some cacheIndex =>
    if dirtyAt c cacheIndex then
      if (writeEntry c cacheIndex).1 = -1 then some (-1, (writeEntry c cacheIndex).2)
      else some (0, (writeEntry c cacheIndex).2)
    else some (0, c)

/-- Loop of `MYC_flushAll` from position `cacheIndex` over `n` positions. -/
def flushAllLoop : Nat → Nat → Cache → Int × Cache
  | 0, _, c => (0, c)
  | n + 1, cacheIndex, c =>
    if dirtyAt c cacheIndex then
      if (writeEntry c cacheIndex).1 = -1 then (-1, (writeEntry c cacheIndex).2)
      else flushAllLoop n (cacheIndex + 1) (writeEntry c cacheIndex).2
    else flushAllLoop n (cacheIndex + 1) c

/-- Flush every dirty entry of the cache (`MYC_flushAll`). -/
def MYC_flushAll (c : Cache) : Int × Cache := flushAllLoop c.CacheEntries.length 0 c

/-- Assignment `CacheEntries[cacheIndex].id = fileIndex`. -/
def setId (c : Cache) (cacheIndex : Nat) (fileIndex : Int) : Cache :=
  { c with CacheEntries :=
      c.CacheEntries.set cacheIndex { entryAt c cacheIndex with id := toU32 fileIndex } }

/-- Lines 350 to 367 of `MYC_readEntry`: give the chosen entry the new id, load
it from the file and copy its record out. -/
def loadInto (c : Cache) (cacheIndex : Nat) (fileIndex : Int) (record : MYRECORD_RECORD_t) :
    Int × MYRECORD_RECORD_t × Cache :=
  if (readEntry (setId c cacheIndex fileIndex) cacheIndex).1 = -1 then
    (-1, record, (readEntry (setId c cacheIndex fileIndex) cacheIndex).2)
  else
    (0, (entryAt (readEntry (setId c cacheIndex fileIndex) cacheIndex).2 cacheIndex).record,
      (readEntry (setId c cacheIndex fileIndex) cacheIndex).2)

/-- Copy the record at `fileIndex` out of the cache, reading it from the file
first when it is not in the cache (`MYC_readEntry`).  The result is the status,
the caller's record after the call, and the new state. -/
def MYC_readEntry (c : Cache) (fileIndex : Int) (record : MYRECORD_RECORD_t) (rnd : Nat) :
    Option (Int × MYRECORD_RECORD_t × Cache) :=
  match searchRecord c fileIndex with
  | some cacheIndex => some (0, (entryAt c cacheIndex).record, c)
  | none =>
    match searchUnusedOrClean c with
    | some cacheIndex => some (loadInto c cacheIndex fileIndex record)
    | none =>
      match MYC_flushEntry c (toI32 (entryAt c (searchAny c rnd)).id) with
      | none => none
      | some (status, c1) =>
        if status = -1 then some (-1, record, c1)
        else some (loadInto c1 (searchAny c rnd) fileIndex record)

/-- Lines 409 to 418 of `MYC_writeEntry`: copy the record into the chosen
entry, mark it dirty, set its id. -/
def storeInto (c : Cache) (cacheIndex : Nat) (fileIndex : Int) (record : MYRECORD_RECORD_t) :
    Cache :=
  { c with CacheEntries := c.CacheEntries.set cacheIndex ⟨record, toU32 fileIndex⟩,
           CacheDirty := c.CacheDirty.set cacheIndex true }

/-- Copy a record into the cache, to be written to the file later
(`MYC_writeEntry`). -/
def MYC_writeEntry (c : Cache) (fileIndex : Int) (record : MYRECORD_RECORD_t) (rnd : Nat) :
    Int × Cache :=
  match searchRecord c fileIndex with
  | some cacheIndex => (0, storeInto c cacheIndex fileIndex record)
  | none =>
    match searchUnusedOrClean c with
    | some cacheIndex => (0, storeInto (setId c cacheIndex fileIndex) cacheIndex fileIndex record)
    | none =>
      if (writeEntry c (searchAny c rnd)).1 = -1 then (-1, (writeEntry c (searchAny c rnd)).2)
      else (0, storeInto (setId (writeEntry c (searchAny c rnd)).2 (searchAny c rnd) fileIndex)
                 (searchAny c rnd) fileIndex record)

/-- One call of the public interface of the cache. -/
inductive Op where
  | read (fileIndex : Int) (rnd : Nat)
  | write (fileIndex : Int) (record : MYRECORD_RECORD_t) (rnd : Nat)
  | flush (fileIndex : Int)
  | flushAll
deriving DecidableEq, Repr

/-- Status and state after one call; `none` when the call is undefined. -/
def step (c : Cache) : Op → Option (Int × Cache)
  | Op.read fileIndex rnd =>
    match MYC_readEntry c fileIndex zeroRecord rnd with
    | none => none
    | some (status, _, c1) => some (status, c1)
  | Op.write fileIndex record rnd => some (MYC_writeEntry c fileIndex record rnd)
  | Op.flush fileIndex => MYC_flushEntry c fileIndex
  | Op.flushAll => some (MYC_flushAll c)

/-- State after a sequence of calls, whatever their statuses. -/
def runAll (c : Cache) : List Op → Option Cache
  | [] => some c
  | op :: ops =>
    match step c op with
    | none => none
    | some (_, c1) => runAll c1 ops

/-- State after a sequence of calls that all return status 0. -/
def runOk (c : Cache) : List Op → Option Cache
  | [] => some c
  | op :: ops =>
    match step c op with
    | none => none
    | some (status, c1) => if status = 0 then runOk c1 ops else none

/-- Well-formed tables: both arrays have the same, positive, number of cells and
every id is a value of `unsigned int`. -/
def WF (c : Cache) : Prop :=
  c.CacheDirty.length = c.CacheEntries.length ∧ 0 < c.CacheEntries.length ∧
    ∀ k, k < c.CacheEntries.length → (entryAt c k).id < 4294967296

/-- Valid index: at least 1, and `i * sizeof(MYBUCKET_BUCKET_t)` fits `int`. -/
def ValidIndex (i : Int) : Prop := 1 ≤ i ∧ i * sizeofBucket ≤ 2147483647

/-- Every id of the table is 0 or a valid index. -/
def IdsValid (c : Cache) : Prop :=
  ∀ k, k < c.CacheEntries.length → (entryAt c k).id < 67108864

/-- At most one entry of the table holds any given non-zero id. -/
def UniqueIds (c : Cache) : Prop :=
  ∀ j, j < c.CacheEntries.length → ∀ k, k < c.CacheEntries.length →
    (entryAt c j).id = (entryAt c k).id → (entryAt c j).id ≠ 0 → j = k

/-- Every slot of the file holds a bucket that carries the number of the slot,
or a bucket with id 0 (as in a zero-filled hole). -/
def FileOK (file : List MYBUCKET_BUCKET_t) : Prop :=
  ∀ k, k < file.length → (file.getD k zeroBucket).id = k ∨ (file.getD k zeroBucket).id = 0

/-- The states of a cache that was only ever used with valid indices over a
file written through the cache. -/
def Inv (c : Cache) : Prop :=
  c.CacheDirty.length = c.CacheEntries.length ∧ 0 < c.CacheEntries.length ∧
    IdsValid c ∧ UniqueIds c ∧ FileOK c.dbFile

/-- The store maps index `i` to record `r`: every entry holding `i` contains
`r`, and `r` is in the file at slot `i` unless a dirty entry holds `i`. -/
def Holds (c : Cache) (i : Nat) (r : MYRECORD_RECORD_t) : Prop :=
  (∀ k, k < c.CacheEntries.length → (entryAt c k).id = i → (entryAt c k).record = r) ∧
    (c.dbFile[i]? = some ⟨r, i⟩ ∨
      ∃ k, k < c.CacheEntries.length ∧ (entryAt c k).id = i ∧ dirtyAt c k = true)

/-- The call passes a valid index (`MYC_flushAll` passes none). -/
def ValidOp : Op → Prop
  | Op.read fileIndex _ => ValidIndex fileIndex
  | Op.write fileIndex _ _ => ValidIndex fileIndex
  | Op.flush fileIndex => ValidIndex fileIndex
  | Op.flushAll => True

/-- The call is a read or a write of a valid index other than `i`. -/
def OtherIndexOp (i : Int) : Op → Prop
  | Op.read fileIndex _ => ValidIndex fileIndex ∧ fileIndex ≠ i
  | Op.write fileIndex _ _ => ValidIndex fileIndex ∧ fileIndex ≠ i
  | Op.flush _ => False
  | Op.flushAll => False

/-- A record with register number `n`, for examples. -/
def recordOf (n : Nat) : MYRECORD_RECORD_t := ⟨n, n, -1, List.replicate 16 0⟩

/-- The calls `MYC_writeEntry(a, recordOf a)`, ..., `MYC_writeEntry(a + n - 1, ...)`. -/
def writeRange (a n : Nat) : List Op :=
  (List.range n).map (fun k => Op.write (Int.ofNat (a + k)) (recordOf (a + k)) 0)

instance (c : Cache) : Decidable (WF c) := by unfold WF; infer_instance

instance (i : Int) : Decidable (ValidIndex i) := by unfold ValidIndex; infer_instance

/-- State after a sequence of successful calls, for examples (the initial
state when the sequence is not successful). -/
def stateAfter (c : Cache) (ops : List Op) : Cache := (runOk c ops).getD c

/-- Status and record of `MYC_readEntry`, without the state. -/
def readResult (c : Cache) (fileIndex : Int) (rnd : Nat) : Option (Int × MYRECORD_RECORD_t) :=
  (MYC_readEntry c fileIndex zeroRecord rnd).map (fun x => (x.1, x.2.1))

instance (op : Op) : Decidable (ValidOp op) := by
  cases op <;> unfold ValidOp <;> infer_instance

instance (i : Int) (op : Op) : Decidable (OtherIndexOp i op) := by
  cases op <;> unfold OtherIndexOp <;> infer_instance

/-- The table after writes of the indices 1..64 on a fresh cache over an empty
file (see `allDirtyState_reached`): every entry is dirty and none has id 0. -/
def allDirtyState : Cache :=
  ⟨(List.range 64).map (fun k => ⟨recordOf (k + 1), k + 1⟩), List.replicate 64 true, [], []⟩

/-- The table after a write of the index 2^27+1 and writes of the indices 1..63
on a fresh cache over an empty file (see `aliasState_reached`). -/
def aliasState : Cache :=
  ⟨⟨recordOf 7, 134217729⟩ :: (List.range 63).map (fun k => ⟨recordOf (k + 1), k + 1⟩),
    List.replicate 64 true, [], []⟩

/-- The state after a further write of the index 64 in `aliasState`, with the
entry of index 1 as victim. -/
def aliasState2 : Cache := (MYC_writeEntry aliasState 64 (recordOf 64) 1).2

/-- No entry holding an id other than `n` has the byte offset of slot `n`. -/
def NoAlias (c : Cache) (n : Nat) : Prop :=
  ∀ k, k < c.CacheEntries.length → (entryAt c k).id ≠ n →
    slotAt (byteOffset (entryAt c k).id) ≠ n

/-- Close the cache (`MYC_closeCache`): flush all dirty entries, the status of
`MYC_flushAll` being dropped, free both tables and close the file.  `closeRet`
is the value returned by `close(dbFile)`. -/
def MYC_closeCache (c : Cache) (closeRet : Int) : Int × Cache :=
  if closeRet = -1 then
    (-1, { (MYC_flushAll c).2 with CacheEntries := [], CacheDirty := [] })
  else
    (0, { (MYC_flushAll c).2 with CacheEntries := [], CacheDirty := [] })

/-- Status that the transfer part of `readEntry` and of `writeEntry` reaches
from the value `ret` returned by `read` or `write`: `res = (ret !=
sizeof(MYBUCKET_BUCKET_t))`, the loop `while (res == -1 && errno == EINTR)`
ends, and `if (res == -1) return -1;` is followed by the clearing of the dirty
flag and `return 0`. -/
def transferStatus (ret : Int) : Int :=
  let res : Int := if ret ≠ sizeofBucket then 1 else 0
  if res = -1 then -1 else 0

/-- Message tag of the requests to the server, `MYSAPMT_REQUEST` in `messages.h`. -/
def MYSAPMT_REQUEST : Int := 1

/-- Operation code of a read, `MYSCOP_READ` in `messages.h`. -/
def MYSCOP_READ : Int := 0

/-- Operation code of a write, `MYSCOP_WRITE` in `messages.h`. -/
def MYSCOP_WRITE : Int := 1

/-- Request of a client, `request_message_t` in `messages.h`. -/
structure request_message_t where
  mtype : Int
  requested_op : Int
  return_to : Int
  data : MYRECORD_RECORD_t
  index : Int
deriving DecidableEq, Repr

/-- Answer of the server, `answer_message_t` in `messages.h`. -/
structure answer_message_t where
  mtype : Int
  status : Int
  data : MYRECORD_RECORD_t
deriving DecidableEq, Repr

/-- Receive a request (`STORS_readrequest`): `rcvRet` is the value returned by
`msgrcv`, `eintr` tells whether `errno` is `EINTR`. -/
def STORS_readrequest (rcvRet : Int) (eintr : Bool) : Int :=
  if rcvRet = -1 then (if eintr then -2 else -1) else 0

/-- Send an answer (`STORS_sendanswer`): `sndRet` is the value returned by
`msgsnd`. -/
def STORS_sendanswer (sndRet : Int) : Int := if sndRet = -1 then -1 else 0

/-- Lines 218 to 253 of `main` in `test_store_server/main.c`: address the answer
to the client of the request and decode the operation.  `answer0` is the
variable `answer` as the iteration finds it. -/
def dispatch (c : Cache) (req : request_message_t) (answer0 : answer_message_t) (rnd : Nat) :
    Option (answer_message_t × Cache) :=
  if req.requested_op = MYSCOP_READ then
    match MYC_readEntry c req.index answer0.data rnd with
    | none => none
    | some (status, data, c1) => some (⟨req.return_to, status, data⟩, c1)
  else if req.requested_op = MYSCOP_WRITE then
    some (⟨req.return_to, (MYC_writeEntry c req.index req.data rnd).1, answer0.data⟩,
      (MYC_writeEntry c req.index req.data rnd).2)
  else
    some (⟨req.return_to, -1, answer0.data⟩, c)

/-- State of the server loop: the cache, the answers sent so far, that is those
that `msgsnd` accepted (ghost), and whether the loop is still running. -/
structure Server where
  cache : Cache
  sent : List answer_message_t
  running : Bool
deriving DecidableEq, Repr

/-- One iteration of the loop of `main` in `test_store_server/main.c`, from the
call of `STORS_readrequest` on: `req` is the request that `msgrcv` delivers
when it succeeds.  The answer built by the iteration is given to `msgsnd` once;
it joins the answers sent when `msgsnd` accepts it, and on a failure of
`msgsnd` the loop is left. -/
def serverIteration (s : Server) (rcvRet : Int) (eintr : Bool) (req : request_message_t)
    (answer0 : answer_message_t) (rnd : Nat) (sndRet : Int) : Option Server :=
  if STORS_readrequest rcvRet eintr = -2 then some s
  else if STORS_readrequest rcvRet eintr = -1 then some { s with running := false }
  else
    match dispatch s.cache req answer0 rnd with
    | none => none
    | some (answer, c1) =>
      if STORS_sendanswer sndRet ≠ 0 then some ⟨c1, s.sent, false⟩
      else some ⟨c1, s.sent ++ [answer], true⟩

/-- Read a record through the server (`STORC_read`): `pid` is the identity of
the client, `sndRet` and `rcvRet` the values returned by `msgsnd` and `msgrcv`,
`answer` the message that `msgrcv` delivers, `request0` the variable `request`
as the call finds it.  The result is the status, the caller's record after the
call and the request handed to `msgsnd`. -/
def STORC_read (fileIndex : Int) (record : MYRECORD_RECORD_t) (pid : Int)
    (request0 : request_message_t) (sndRet rcvRet : Int) (answer : answer_message_t) :
    Int × MYRECORD_RECORD_t × request_message_t :=
  let request : request_message_t :=
    ⟨MYSAPMT_REQUEST, MYSCOP_READ, pid, request0.data, fileIndex⟩
  if sndRet = -1 then (-1, record, request)
  else if rcvRet = -1 then (-1, record, request)
  else if answer.status = 0 then (answer.status, answer.data, request)
  else (answer.status, record, request)

/-- Write a record through the server (`STORC_write`), with the parameters of
`STORC_read`. -/
def STORC_write (fileIndex : Int) (record : MYRECORD_RECORD_t) (pid : Int)
    (sndRet rcvRet : Int) (answer : answer_message_t) : Int × request_message_t :=
  let request : request_message_t := ⟨MYSAPMT_REQUEST, MYSCOP_WRITE, pid, record, fileIndex⟩
  if sndRet = -1 then (-1, request)
  else if rcvRet = -1 then (-1, request)
  else (answer.status, request)

/-- The end of `main` in `test_store_server/main.c`, run once the loop is left:
`STORS_close()`, whose failure is only logged, then `MYC_closeCache()`, which
flushes the cache, with `exit(1)` when it fails; the result is the exit code of
the server and the final state of the cache. -/
def serverShutdown (s : Server) (closeRet : Int) : Int × Cache :=
  if (MYC_closeCache s.cache closeRet).1 ≠ 0 then (1, (MYC_closeCache s.cache closeRet).2)
  else (0, (MYC_closeCache s.cache closeRet).2)

/-- The signals of `s_handler` in `test_store_server/main.c`; `other` stands for
its `default` case. -/
inductive Signal where
  | SIGINT
  | SIGTERM
  | SIGUSR1
  | SIGUSR2
  | SIGALRM
  | other
deriving DecidableEq, Repr

/-- The four flags that `s_handler` sets and the loop of `main` tests. -/
structure Flags where
  prog_end_requested : Bool
  sigusr1_requested : Bool
  sigusr2_reuqested : Bool
  alarm_requested : Bool
deriving DecidableEq, Repr

/-- The signal handler `s_handler`, as far as the flags go. -/
def s_handler (f : Flags) : Signal → Flags
  | Signal.SIGINT => { f with prog_end_requested := true }
  | Signal.SIGTERM => { f with prog_end_requested := true }
  | Signal.SIGUSR1 => { f with sigusr1_requested := true }
  | Signal.SIGUSR2 => { f with sigusr2_reuqested := true }
  | Signal.SIGALRM => { f with alarm_requested := true }
  | Signal.other => f

/-- The loop of `main` with its flags; `server.running` is false once the loop
has been left, by `break` or because its test failed. -/
structure ServerLoop where
  server : Server
  flags : Flags
deriving DecidableEq, Repr

/-- What the `msgrcv` of `STORS_readrequest` does in one pass of the loop:
either a signal is delivered while it waits, `s_handler` runs and `msgrcv`
returns -1 with `errno` set to `EINTR` (the variable `req` keeps the content
`req0`), or it returns `rcvRet` with another `errno` and, when `rcvRet` is not
-1, the request `req`. -/
inductive Wait where
  | interrupted (sig : Signal) (req0 : request_message_t)
  | returned (rcvRet : Int) (req : request_message_t)
deriving DecidableEq, Repr

/-- One pass of `while (!prog_end_requested) { ... }` of `main` in
`test_store_server/main.c`: the test of the loop; then the three blocks on the
flags, of which the one on `alarm_requested` flushes the cache (the other two
only write to the log); then the rest of the body, `serverIteration`.  Signals
delivered outside the wait of `msgrcv` are not part of a pass. -/
def loopPass (l : ServerLoop) (w : Wait) (answer0 : answer_message_t) (rnd : Nat)
    (sndRet : Int) : Option ServerLoop :=
  if l.server.running = false then some l
  else if l.flags.prog_end_requested = true then
    some { l with server := { l.server with running := false } }
  else
    let cache1 : Cache :=
      if l.flags.alarm_requested = true then (MYC_flushAll l.server.cache).2 else l.server.cache
    let flags1 : Flags := ⟨l.flags.prog_end_requested, false, false, false⟩
    match w with
    | Wait.interrupted sig req0 =>
      (serverIteration { l.server with cache := cache1 } (-1) true req0 answer0 rnd sndRet).map
        (fun s1 => ⟨s1, s_handler flags1 sig⟩)
    | Wait.returned rcvRet req =>
      (serverIteration { l.server with cache := cache1 } rcvRet false req answer0 rnd sndRet).map
        (fun s1 => ⟨s1, flags1⟩)

/-- The next pass of the loop arrives at the wait of `STORS_readrequest`: the
loop has not been left and its test holds. -/
def reachesWait (l : ServerLoop) : Bool :=
  l.server.running && !l.flags.prog_end_requested

/-- Length of the text of a request, `sizeof (request_message_t)`: it is what
`STORC_read` and `STORC_write` pass to `msgsnd` and `STORS_readrequest` to
`msgrcv` (a `long` takes 8 bytes and is aligned on 8). -/
def sizeofRequest : Nat := 56

/-- Length of the text of an answer, `sizeof (answer_message_t)`: it is what
`STORS_sendanswer` passes to `msgsnd` and the clients to `msgrcv`. -/
def sizeofAnswer : Nat := 40

/-- A message of the queue.  The second component of an answer is a ghost: the
client for whose request the server built the answer, `none` when the message
the server had received was not a request. -/
inductive Message where
  | request (r : request_message_t)
  | answer (a : answer_message_t) (builtFor : Option Int)
deriving DecidableEq, Repr

/-- The type `mtype` of a message of the queue. -/
def tagOf : Message → Int
  | Message.request r => r.mtype
  | Message.answer a _ => a.mtype

/-- The length of the text of a message of the queue. -/
def textLength : Message → Nat
  | Message.request _ => sizeofRequest
  | Message.answer _ _ => sizeofAnswer

/-- Outcome of `msgrcv`: it waits, it fails with `E2BIG`, or it takes a message
out of the queue. -/
inductive Received where
  | blocked
  | tooBig
  | message (m : Message) (rest : List Message)
deriving DecidableEq, Repr

/-- The call `msgrcv (message_queue, buf, msgsz, msgtyp, 0)` with a positive
`msgtyp` on the queue `q`: the first message of type `msgtyp` is selected; it
is taken out of the queue unless its text is longer than `msgsz`, in which case
the call fails with `E2BIG` and the queue is unchanged; when no message has
that type the call waits. -/
def msgrcv : List Message → Nat → Int → Received
  | [], _, _ => Received.blocked
  | m :: q, msgsz, msgtyp =>
    if tagOf m = msgtyp then
      if msgsz < textLength m then Received.tooBig else Received.message m q
    else
      match msgrcv q msgsz msgtyp with
      | Received.message m1 rest => Received.message m1 (m :: rest)
      | Received.blocked => Received.blocked
      | Received.tooBig => Received.tooBig

/-- Conversion to `long` (64 bits). -/
def toI64 (x : Int) : Int :=
  if x % 18446744073709551616 < 9223372036854775808 then x % 18446744073709551616
  else x % 18446744073709551616 - 18446744073709551616

/-- The `unsigned int` stored in four successive bytes, lowest byte first. -/
def le32 (bs : List Nat) : Nat :=
  bs.getD 0 0 % 256 + 256 * (bs.getD 1 0 % 256) + 65536 * (bs.getD 2 0 % 256)
    + 16777216 * (bs.getD 3 0 % 256)

/-- Content of the variable `req` of the server after `msgrcv` has copied the
text of an answer into it.  With the declarations of `messages.h` the fields
of `request_message_t` lie at the bytes 0 (`mtype`), 8 (`requested_op`), 16
(`return_to`), 24 (`data`: `registerid` 24, `age` 28, `gender` 32, `name` 36)
and 52 (`index`), those of `answer_message_t` at 0 (`mtype`), 8 (`status`) and
12 (`data`: `registerid` 12, `age` 16, `gender` 20, `name` 24), and the text of
an answer has 40 bytes, which go to the bytes 8 to 47.  So `requested_op` is
the status of the answer, `return_to` is made of `age` and `gender` of its
record, and the bytes from 48 on, with `index`, keep what `req` held, `req0`;
`tail` stands for the 8 bytes of the text that follow the answer. -/
def asRequest (a : answer_message_t) (tail : List Nat) (req0 : request_message_t) :
    request_message_t :=
  { mtype := a.mtype,
    requested_op := a.status,
    return_to := toI64 ((toU32 a.data.age : Int) + 4294967296 * (toU32 a.data.gender : Int)),
    data :=
      { registerid := le32 (a.data.name.take 4),
        age := toI32 (le32 ((a.data.name.drop 4).take 4)),
        gender := toI32 (le32 ((a.data.name.drop 8).take 4)),
        name := (a.data.name.drop 12).take 4 ++ tail.take 8 ++ (req0.data.name.drop 12).take 4 },
    index := req0.index }

/-- A call of the client library; `request0` is the variable `request` as
`STORC_read` finds it. -/
inductive Call where
  | read (fileIndex : Int) (request0 : request_message_t)
  | write (fileIndex : Int) (record : MYRECORD_RECORD_t)
deriving DecidableEq, Repr

/-- The request that the call gives to `msgsnd`, for the client `pid`. -/
def requestOf (pid : Int) : Call → request_message_t
  | Call.read fileIndex request0 =>
    (STORC_read fileIndex zeroRecord pid request0 0 0 ⟨0, 0, zeroRecord⟩).2.2
  | Call.write fileIndex record =>
    (STORC_write fileIndex record pid 0 0 ⟨0, 0, zeroRecord⟩).2

/-- The steps of the processes that share the queue: the `msgsnd` of a call of
the client `pid`, when it succeeds; one pass of the server from `msgrcv` to
`msgsnd`, with the parameters of `serverIteration` and of `asRequest`; and the
`msgrcv` of the client `pid`. -/
inductive Event where
  | send (pid : Int) (call : Call)
  | serve (req0 : request_message_t) (tail : List Nat) (answer0 : answer_message_t)
      (rnd : Nat) (sndRet : Int)
  | receive (pid : Int)
deriving DecidableEq, Repr

/-- The queue, the server, and the messages that the clients have taken out of
the queue, each with the client that took it (ghost). -/
structure System where
  queue : List Message
  server : Server
  consumed : List (Int × Message)
deriving DecidableEq, Repr

/-- What the server finds in `req` once `msgrcv` has delivered the message. -/
def requestRead (m : Message) (tail : List Nat) (req0 : request_message_t) :
    request_message_t :=
  match m with
  | Message.request r => r
  | Message.answer a _ => asRequest a tail req0

/-- The client whose request the message is, if it is one. -/
def senderOf : Message → Option Int
  | Message.request r => some r.return_to
  | Message.answer _ _ => none

/-- One step of the system.  A step that would wait leaves the state as it
is. -/
def systemStep (sys : System) : Event → Option System
  | Event.send pid call =>
    some { sys with queue := sys.queue ++ [Message.request (requestOf pid call)] }
  | Event.serve req0 tail answer0 rnd sndRet =>
    if sys.server.running = false then some sys
    else
      match msgrcv sys.queue sizeofRequest MYSAPMT_REQUEST with
      | Received.blocked => some sys
      | Received.tooBig =>
        (serverIteration sys.server (-1) false req0 answer0 rnd sndRet).map
          (fun s1 => { sys with server := s1 })
      | Received.message m rest =>
        (serverIteration sys.server (Int.ofNat (textLength m)) false (requestRead m tail req0)
            answer0 rnd sndRet).map
          (fun s1 =>
            { queue := rest ++ (s1.sent.drop sys.server.sent.length).map
                (fun a => Message.answer a (senderOf m)),
              server := s1,
              consumed := sys.consumed })
  | Event.receive pid =>
    match msgrcv sys.queue sizeofAnswer pid with
    | Received.message m rest =>
      some { sys with queue := rest, consumed := sys.consumed ++ [(pid, m)] }
    | Received.blocked => some sys
    | Received.tooBig => some sys

/-- The state after a sequence of steps, in the order of the list. -/
def runSystem (sys : System) : List Event → Option System
  | [] => some sys
  | e :: es =>
    match systemStep sys e with
    | none => none
    | some sys1 => runSystem sys1 es

/-- An identity that a client of the queue can have without meeting the type of
the requests: a process id, which is positive, other than `MYSAPMT_REQUEST`. -/
def ClientId (pid : Int) : Prop := 0 < pid ∧ pid ≠ MYSAPMT_REQUEST

/-- The clients of the step have such an identity. -/
def ClientStep : Event → Prop
  | Event.send pid _ => ClientId pid
  | Event.serve _ _ _ _ _ => True
  | Event.receive pid => ClientId pid

instance (pid : Int) : Decidable (ClientId pid) := by unfold ClientId; infer_instance

instance (e : Event) : Decidable (ClientStep e) := by
  cases e <;> unfold ClientStep <;> infer_instance

/-- Every message of the queue is a request of a client, of the type of the
requests, or an answer built for the request of the client whose identity is
its type. -/
def QueueOk (q : List Message) : Prop :=
  ∀ m, m ∈ q →
    (∃ r, m = Message.request r ∧ r.mtype = MYSAPMT_REQUEST ∧ ClientId r.return_to) ∨
    (∃ a, m = Message.answer a (some a.mtype) ∧ ClientId a.mtype)

/-- Every message taken by a client is an answer built for a request of that
client. -/
def ConsumedOk (l : List (Int × Message)) : Prop :=
  ∀ x, x ∈ l → ∃ a, x.2 = Message.answer a (some x.1) ∧ a.mtype = x.1

/-- Well-formed tables over a file all of whose ids are values of `unsigned
int`. -/
def WFAll (c : Cache) : Prop :=
  WF c ∧ ∀ k, (c.dbFile.getD k zeroBucket).id < 4294967296

/-! ## Theorems -/

theorem forFind_some_iff (p : Nat → Bool) (n s k : Nat) :
    forFind p n s = some k ↔
      s ≤ k ∧ k < s + n ∧ p k = true ∧ ∀ j, s ≤ j → j < k → p j = false := by
  induction n generalizing s with
  | zero => simp [forFind]; intro h1 h2; omega
  | succ n ih =>
    unfold forFind
    cases hp : p s with
    | true =>
      simp only [if_true, Option.some.injEq]
      constructor
      · rintro rfl
        exact ⟨le_refl _, by omega, hp, fun j h1 h2 => by omega⟩
      · rintro ⟨h1, _, _, h4⟩
        by_contra hne
        have := h4 s (le_refl _) (by omega)
        simp [hp] at this
    | false =>
      simp only [Bool.false_eq_true, if_false, ih]
      constructor
      · rintro ⟨h1, h2, h3, h4⟩
        refine ⟨by omega, by omega, h3, fun j hj1 hj2 => ?_⟩
        by_cases hjs : j = s
        · subst hjs; exact hp
        · exact h4 j (by omega) hj2
      · rintro ⟨h1, h2, h3, h4⟩
        have hne : s ≠ k := by
          rintro rfl
          rw [h3] at hp; cases hp
        exact ⟨by omega, by omega, h3, fun j hj1 hj2 => h4 j (by omega) hj2⟩

theorem forFind_none_iff (p : Nat → Bool) (n s : Nat) :
    forFind p n s = none ↔ ∀ j, s ≤ j → j < s + n → p j = false := by
  induction n generalizing s with
  | zero => simp [forFind]; intro j h1 h2; omega
  | succ n ih =>
    unfold forFind
    cases hp : p s with
    | true =>
      simp only [if_true]
      constructor
      · intro h; cases h
      · intro h
        have := h s (le_refl _) (by omega)
        rw [hp] at this; cases this
    | false =>
      simp only [Bool.false_eq_true, if_false, ih]
      constructor
      · intro h j hj1 hj2
        by_cases hjs : j = s
        · subst hjs; exact hp
        · exact h j (by omega) (by omega)
      · intro h j hj1 hj2
        exact h j (by omega) (by omega)

theorem getD_set_self {α : Type} (l : List α) (k : Nat) (b d : α) (hk : k < l.length) :
    (l.set k b).getD k d = b := by
  simp [List.getD_eq_getElem?_getD, List.getElem?_set, hk]

theorem getD_set_other {α : Type} (l : List α) (k j : Nat) (b d : α) (hjk : j ≠ k) :
    (l.set k b).getD j d = l.getD j d := by
  simp [List.getD_eq_getElem?_getD, List.getElem?_set, Ne.symm hjk]

theorem byteOffset_ne (id : Nat) : byteOffset id ≠ -1 := by
  unfold byteOffset toI32 sizeofBucket
  push_cast
  split <;> split <;> omega

theorem lseek_ne_iff (id : Nat) : lseek (byteOffset id) ≠ byteOffset id ↔ byteOffset id < 0 := by
  have hne := byteOffset_ne id
  unfold lseek
  by_cases h : byteOffset id < 0
  · simp only [h, if_true, iff_true]; omega
  · simp only [h, if_false, iff_false]; simp

theorem writeEntry_fail (c : Cache) (k : Nat) (h : byteOffset (entryAt c k).id < 0) :
    writeEntry c k =
      (-1, { c with log := c.log ++ [SysCall.lseek (byteOffset (entryAt c k).id)] }) := by
  have h' := (lseek_ne_iff _).2 h
  simp only [writeEntry]
  exact if_pos h'

theorem writeEntry_ok (c : Cache) (k : Nat) (h : 0 ≤ byteOffset (entryAt c k).id) :
    writeEntry c k =
      (0, { c with
              dbFile := fileWrite c.dbFile (slotAt (byteOffset (entryAt c k).id)) (entryAt c k),
              log := c.log ++ [SysCall.lseek (byteOffset (entryAt c k).id),
                SysCall.write (slotAt (byteOffset (entryAt c k).id)) (entryAt c k)],
              CacheDirty := c.CacheDirty.set k false }) := by
  have h' : ¬ lseek (byteOffset (entryAt c k).id) ≠ byteOffset (entryAt c k).id := by
    rw [lseek_ne_iff]; omega
  simp only [writeEntry]
  rw [if_neg h']
  simp

theorem readEntry_fail (c : Cache) (k : Nat) (h : byteOffset (entryAt c k).id < 0) :
    readEntry c k =
      (-1, { c with log := c.log ++ [SysCall.lseek (byteOffset (entryAt c k).id)] }) := by
  have h' := (lseek_ne_iff _).2 h
  simp only [readEntry]
  exact if_pos h'

theorem readEntry_in (c : Cache) (k : Nat) (h : 0 ≤ byteOffset (entryAt c k).id)
    (hin : slotAt (byteOffset (entryAt c k).id) < c.dbFile.length) :
    readEntry c k =
      (0, { c with
              CacheEntries := c.CacheEntries.set k
                (c.dbFile.getD (slotAt (byteOffset (entryAt c k).id)) zeroBucket),
              log := c.log ++ [SysCall.lseek (byteOffset (entryAt c k).id),
                SysCall.read (slotAt (byteOffset (entryAt c k).id)) sizeofBucket],
              CacheDirty := c.CacheDirty.set k false }) := by
  have h' : ¬ lseek (byteOffset (entryAt c k).id) ≠ byteOffset (entryAt c k).id := by
    rw [lseek_ne_iff]; omega
  simp only [readEntry]
  rw [if_neg h']
  simp [hin]

theorem readEntry_eof (c : Cache) (k : Nat) (h : 0 ≤ byteOffset (entryAt c k).id)
    (hout : c.dbFile.length ≤ slotAt (byteOffset (entryAt c k).id)) :
    readEntry c k =
      (0, { c with
              log := c.log ++ [SysCall.lseek (byteOffset (entryAt c k).id),
                SysCall.read (slotAt (byteOffset (entryAt c k).id)) 0],
              CacheDirty := c.CacheDirty.set k false }) := by
  have h' : ¬ lseek (byteOffset (entryAt c k).id) ≠ byteOffset (entryAt c k).id := by
    rw [lseek_ne_iff]; omega
  have hin : ¬ slotAt (byteOffset (entryAt c k).id) < c.dbFile.length := by omega
  simp only [readEntry]
  rw [if_neg h']
  simp [hin, sizeofBucket]

theorem byteOffset_valid (id : Nat) (h : id < 67108864) : byteOffset id = 32 * id := by
  unfold byteOffset toI32 sizeofBucket
  have h1 : ((id : Int)) % 4294967296 = id := by omega
  simp only [h1]
  have h2 : (id : Int) < 2147483648 := by omega
  simp only [h2, if_true]
  push_cast
  have h3 : ((id : Int) * 32) % 4294967296 = id * 32 := by omega
  simp only [h3]
  split <;> omega

theorem slotAt_valid (id : Nat) : slotAt (32 * (id : Int)) = id := by
  unfold slotAt sizeofBucket
  push_cast
  have : (32 * (id : Int)) / 32 = id := by omega
  rw [this]; simp

theorem toU32_valid (i : Int) (h0 : 0 ≤ i) (h1 : i < 4294967296) : (toU32 i : Int) = i := by
  unfold toU32
  have : i % 4294967296 = i := by omega
  rw [this]; omega

theorem searchRecord_some_iff (c : Cache) (i : Int) (k : Nat) :
    searchRecord c i = some k ↔
      k < c.CacheEntries.length ∧ (entryAt c k).id = toU32 i ∧
        ∀ j, j < k → (entryAt c j).id ≠ toU32 i := by
  unfold searchRecord
  rw [forFind_some_iff]
  simp only [Nat.zero_le, true_and, Nat.zero_add, decide_eq_true_eq, decide_eq_false_iff_not,
    true_implies]
  constructor
  · rintro ⟨h1, h2, h3⟩
    exact ⟨h1, h2.symm, fun j hj h => h3 j hj h.symm⟩
  · rintro ⟨h1, h2, h3⟩
    exact ⟨h1, h2.symm, fun j hj h => h3 j hj h.symm⟩

theorem searchRecord_none_iff (c : Cache) (i : Int) :
    searchRecord c i = none ↔
      ∀ j, j < c.CacheEntries.length → (entryAt c j).id ≠ toU32 i := by
  unfold searchRecord
  rw [forFind_none_iff]
  simp only [Nat.zero_le, Nat.zero_add, decide_eq_false_iff_not, true_implies]
  constructor
  · intro h j hj e; exact h j hj e.symm
  · intro h j hj e; exact h j hj e.symm

theorem searchUnusedOrClean_lt (c : Cache) (k : Nat) (h : searchUnusedOrClean c = some k) :
    k < c.CacheEntries.length := by
  unfold searchUnusedOrClean at h
  split at h
  · rename_i i hi
    cases h
    have := (forFind_some_iff _ _ _ _).1 hi
    omega
  · have := (forFind_some_iff _ _ _ _).1 h
    omega

theorem searchAny_lt (c : Cache) (rnd : Nat) (h : 0 < c.CacheEntries.length) :
    searchAny c rnd < c.CacheEntries.length := Nat.mod_lt _ h

theorem entryAt_storeInto_self (c : Cache) (k : Nat) (i : Int) (r : MYRECORD_RECORD_t)
    (hk : k < c.CacheEntries.length) : entryAt (storeInto c k i r) k = ⟨r, toU32 i⟩ := by
  simp only [entryAt, storeInto]
  exact getD_set_self _ _ _ _ hk

theorem entryAt_storeInto_other (c : Cache) (k j : Nat) (i : Int) (r : MYRECORD_RECORD_t)
    (hjk : j ≠ k) : entryAt (storeInto c k i r) j = entryAt c j := by
  simp only [entryAt, storeInto]
  exact getD_set_other _ _ _ _ _ hjk

theorem entryAt_setId_self (c : Cache) (k : Nat) (i : Int)
    (hk : k < c.CacheEntries.length) :
    entryAt (setId c k i) k = { entryAt c k with id := toU32 i } := by
  simp only [entryAt, setId]
  exact getD_set_self _ _ _ _ hk

theorem entryAt_setId_other (c : Cache) (k j : Nat) (i : Int) (hjk : j ≠ k) :
    entryAt (setId c k i) j = entryAt c j := by
  simp only [entryAt, setId]
  exact getD_set_other _ _ _ _ _ hjk

theorem length_storeInto (c : Cache) (k : Nat) (i : Int) (r : MYRECORD_RECORD_t) :
    (storeInto c k i r).CacheEntries.length = c.CacheEntries.length := by
  simp [storeInto]

theorem length_setId (c : Cache) (k : Nat) (i : Int) :
    (setId c k i).CacheEntries.length = c.CacheEntries.length := by
  simp [setId]

theorem writeEntry_entries (c : Cache) (k : Nat) :
    (writeEntry c k).2.CacheEntries = c.CacheEntries := by
  by_cases h : byteOffset (entryAt c k).id < 0
  · rw [writeEntry_fail c k h]
  · rw [writeEntry_ok c k (by omega)]

theorem writeEntry_status (c : Cache) (k : Nat) :
    (writeEntry c k).1 = if byteOffset (entryAt c k).id < 0 then -1 else 0 := by
  by_cases h : byteOffset (entryAt c k).id < 0
  · rw [writeEntry_fail c k h, if_pos h]
  · rw [writeEntry_ok c k (by omega), if_neg h]

/-- After a record was stored at position `k` for index `i`, and no position
below `k` holds `i`, the search for `i` finds `k`. -/
theorem searchRecord_storeInto (c : Cache) (k : Nat) (i : Int) (r : MYRECORD_RECORD_t)
    (hk : k < c.CacheEntries.length)
    (hlow : ∀ j, j < k → (entryAt c j).id ≠ toU32 i) :
    searchRecord (storeInto c k i r) i = some k := by
  rw [searchRecord_some_iff, length_storeInto, entryAt_storeInto_self c k i r hk]
  refine ⟨hk, rfl, fun j hj => ?_⟩
  rw [entryAt_storeInto_other c k j i r (by omega)]
  exact hlow j hj

theorem storeInto_setId (c : Cache) (k : Nat) (i j : Int) (r : MYRECORD_RECORD_t) :
    storeInto (setId c k j) k i r = storeInto c k i r := by
  simp [storeInto, setId]

theorem searchUnusedOrClean_some_iff (c : Cache) (k : Nat) :
    searchUnusedOrClean c = some k ↔
      (k < c.CacheEntries.length ∧ (entryAt c k).id = 0 ∧ ∀ j, j < k → (entryAt c j).id ≠ 0) ∨
      ((∀ j, j < c.CacheEntries.length → (entryAt c j).id ≠ 0) ∧
        k < c.CacheEntries.length ∧ dirtyAt c k = false ∧ ∀ j, j < k → dirtyAt c j = true) := by
  unfold searchUnusedOrClean
  cases h1 : forFind (fun i => decide (0 = (entryAt c i).id)) c.CacheEntries.length 0 with
  | some m =>
    have hm := (forFind_some_iff _ _ _ _).1 h1
    simp only [Nat.zero_le, true_and, Nat.zero_add, decide_eq_true_eq, decide_eq_false_iff_not,
      true_implies] at hm
    simp only [Option.some.injEq]
    constructor
    · rintro rfl
      exact Or.inl ⟨hm.1, hm.2.1.symm, fun j hj e => hm.2.2 j hj e.symm⟩
    · rintro (⟨h1, h2, h3⟩ | ⟨h1, _⟩)
      · rcases Nat.lt_trichotomy m k with h | h | h
        · exact absurd hm.2.1.symm (h3 m h)
        · exact h
        · exact absurd h2.symm (hm.2.2 k h)
      · exact absurd hm.2.1.symm (h1 m hm.1)
  | none =>
    have hn := (forFind_none_iff _ _ _).1 h1
    simp only [Nat.zero_le, Nat.zero_add, decide_eq_false_iff_not, true_implies] at hn
    simp only
    rw [forFind_some_iff]
    simp only [Nat.zero_le, true_and, Nat.zero_add, decide_eq_true_eq, decide_eq_false_iff_not,
      true_implies, Bool.not_eq_false]
    constructor
    · rintro ⟨h1, h2, h3⟩
      exact Or.inr ⟨fun j hj e => hn j hj e.symm, h1, h2, h3⟩
    · rintro (⟨h1, h2, _⟩ | ⟨_, h1, h2, h3⟩)
      · exact absurd h2.symm (hn k h1)
      · exact ⟨h1, h2, h3⟩

theorem searchUnusedOrClean_none_iff (c : Cache) :
    searchUnusedOrClean c = none ↔
      ∀ j, j < c.CacheEntries.length → (entryAt c j).id ≠ 0 ∧ dirtyAt c j = true := by
  unfold searchUnusedOrClean
  cases h1 : forFind (fun i => decide (0 = (entryAt c i).id)) c.CacheEntries.length 0 with
  | some m =>
    have hm := (forFind_some_iff _ _ _ _).1 h1
    simp only [Nat.zero_le, true_and, Nat.zero_add, decide_eq_true_eq, decide_eq_false_iff_not,
      true_implies] at hm
    constructor
    · intro h; cases h
    · intro h
      exact absurd hm.2.1.symm (h m hm.1).1
  | none =>
    have hn := (forFind_none_iff _ _ _).1 h1
    simp only [Nat.zero_le, Nat.zero_add, decide_eq_false_iff_not, true_implies] at hn
    simp only
    rw [forFind_none_iff]
    simp only [Nat.zero_le, Nat.zero_add, decide_eq_false_iff_not, true_implies,
      Bool.not_eq_false]
    constructor
    · intro h j hj
      exact ⟨fun e => hn j hj e.symm, h j hj⟩
    · intro h j hj
      exact (h j hj).2

theorem length_fileWrite (f : List MYBUCKET_BUCKET_t) (k : Nat) (b : MYBUCKET_BUCKET_t) :
    (fileWrite f k b).length = max f.length (k + 1) := by
  unfold fileWrite
  split
  · simp; omega
  · simp; omega

theorem fileWrite_get_self (f : List MYBUCKET_BUCKET_t) (k : Nat) (b : MYBUCKET_BUCKET_t) :
    (fileWrite f k b)[k]? = some b := by
  unfold fileWrite
  split
  · rename_i h
    simp [List.getElem?_set, h]
  · rename_i h
    rw [List.getElem?_append_right (by simp; omega)]
    have e : k - (f ++ List.replicate (k - f.length) zeroBucket).length = 0 := by
      simp; omega
    rw [e]
    rfl

theorem fileWrite_get_other (f : List MYBUCKET_BUCKET_t) (k j : Nat) (b : MYBUCKET_BUCKET_t)
    (hjk : j ≠ k) :
    (fileWrite f k b)[j]? = f[j]? ∨
      (f.length ≤ j ∧ j < k ∧ (fileWrite f k b)[j]? = some zeroBucket) := by
  unfold fileWrite
  split
  · left
    simp [List.getElem?_set, Ne.symm hjk]
  · rename_i h
    by_cases hj : j < f.length
    · left
      rw [List.append_assoc, List.getElem?_append_left hj]
    · by_cases hj2 : j < k
      · right
        refine ⟨by omega, hj2, ?_⟩
        rw [List.getElem?_append_left (by simp; omega)]
        rw [List.getElem?_append_right (by omega)]
        rw [List.getElem?_replicate]
        rw [if_pos (by omega)]
      · left
        rw [List.getElem?_eq_none (by simp; omega), List.getElem?_eq_none (by omega)]

theorem fileWrite_get_keep (f : List MYBUCKET_BUCKET_t) (k j : Nat) (b x : MYBUCKET_BUCKET_t)
    (hjk : j ≠ k) (h : f[j]? = some x) : (fileWrite f k b)[j]? = some x := by
  rcases fileWrite_get_other f k j b hjk with h1 | ⟨h1, _, _⟩
  · rw [h1, h]
  · rw [List.getElem?_eq_none h1] at h; cases h

theorem getD_of_get (f : List MYBUCKET_BUCKET_t) (j : Nat) (x : MYBUCKET_BUCKET_t)
    (h : f[j]? = some x) : f.getD j zeroBucket = x := by
  simp [List.getD_eq_getElem?_getD, h]

theorem fileWrite_getD (f : List MYBUCKET_BUCKET_t) (k j : Nat) (b : MYBUCKET_BUCKET_t) :
    (fileWrite f k b).getD j zeroBucket = if j = k then b else f.getD j zeroBucket := by
  by_cases hjk : j = k
  · subst hjk
    simp [List.getD_eq_getElem?_getD, fileWrite_get_self]
  · rw [if_neg hjk]
    rcases fileWrite_get_other f k j b hjk with h1 | ⟨h1, _, h2⟩
    · simp [List.getD_eq_getElem?_getD, h1]
    · simp [List.getD_eq_getElem?_getD, h2, List.getElem?_eq_none h1]

theorem fileOK_getD (f : List MYBUCKET_BUCKET_t) (h : FileOK f) (k : Nat) :
    (f.getD k zeroBucket).id = k ∨ (f.getD k zeroBucket).id = 0 := by
  by_cases hk : k < f.length
  · exact h k hk
  · right
    simp [List.getD_eq_getElem?_getD, List.getElem?_eq_none (Nat.le_of_not_lt hk), zeroBucket]

theorem fileOK_fileWrite (f : List MYBUCKET_BUCKET_t) (k : Nat) (b : MYBUCKET_BUCKET_t)
    (h : FileOK f) (hb : b.id = k ∨ b.id = 0) : FileOK (fileWrite f k b) := by
  intro j _
  rw [fileWrite_getD]
  by_cases hjk : j = k
  · subst hjk; simpa using hb
  · rw [if_neg hjk]; exact fileOK_getD f h j

theorem fileOK_nil : FileOK [] := by
  intro k hk
  simp at hk

theorem toU32_of_valid (j : Int) (hj : ValidIndex j) :
    1 ≤ toU32 j ∧ toU32 j < 67108864 ∧ (toU32 j : Int) = j := by
  unfold ValidIndex sizeofBucket at hj
  have h := toU32_valid j (by omega) (by omega)
  refine ⟨by omega, by omega, h⟩

theorem writeEntry_valid (c : Cache) (k : Nat) (h : (entryAt c k).id < 67108864) :
    writeEntry c k =
      (0, ⟨c.CacheEntries, c.CacheDirty.set k false,
            fileWrite c.dbFile (entryAt c k).id (entryAt c k),
            c.log ++ [SysCall.lseek (32 * ((entryAt c k).id : Int)),
              SysCall.write (entryAt c k).id (entryAt c k)]⟩) := by
  have hb := byteOffset_valid _ h
  rw [writeEntry_ok c k (by rw [hb]; omega), hb, slotAt_valid]

theorem readEntry_valid_in (c : Cache) (k : Nat) (h : (entryAt c k).id < 67108864)
    (hin : (entryAt c k).id < c.dbFile.length) :
    readEntry c k =
      (0, ⟨c.CacheEntries.set k (c.dbFile.getD (entryAt c k).id zeroBucket),
            c.CacheDirty.set k false, c.dbFile,
            c.log ++ [SysCall.lseek (32 * ((entryAt c k).id : Int)),
              SysCall.read (entryAt c k).id sizeofBucket]⟩) := by
  have hb := byteOffset_valid _ h
  rw [readEntry_in c k (by rw [hb]; omega) (by rw [hb, slotAt_valid]; exact hin), hb,
    slotAt_valid]

theorem readEntry_valid_eof (c : Cache) (k : Nat) (h : (entryAt c k).id < 67108864)
    (hout : c.dbFile.length ≤ (entryAt c k).id) :
    readEntry c k =
      (0, ⟨c.CacheEntries, c.CacheDirty.set k false, c.dbFile,
            c.log ++ [SysCall.lseek (32 * ((entryAt c k).id : Int)),
              SysCall.read (entryAt c k).id 0]⟩) := by
  have hb := byteOffset_valid _ h
  rw [readEntry_eof c k (by rw [hb]; omega) (by rw [hb, slotAt_valid]; exact hout), hb,
    slotAt_valid]

theorem loadInto_valid_in (c : Cache) (k : Nat) (j : Int) (record : MYRECORD_RECORD_t)
    (hk : k < c.CacheEntries.length) (hj : ValidIndex j) (hin : toU32 j < c.dbFile.length) :
    loadInto c k j record =
      (0, (c.dbFile.getD (toU32 j) zeroBucket).record,
        ⟨c.CacheEntries.set k (c.dbFile.getD (toU32 j) zeroBucket),
          c.CacheDirty.set k false, c.dbFile,
          c.log ++ [SysCall.lseek (32 * ((toU32 j : Nat) : Int)),
            SysCall.read (toU32 j) sizeofBucket]⟩) := by
  have hv := toU32_of_valid j hj
  have hid : (entryAt (setId c k j) k).id = toU32 j := by
    rw [entryAt_setId_self c k j hk]
  have hr := readEntry_valid_in (setId c k j) k (by rw [hid]; exact hv.2.1)
    (by rw [hid]; exact hin)
  unfold loadInto
  rw [hr, hid]
  simp [setId, entryAt, getD_set_self, hk]

theorem loadInto_valid_eof (c : Cache) (k : Nat) (j : Int) (record : MYRECORD_RECORD_t)
    (hk : k < c.CacheEntries.length) (hj : ValidIndex j) (hout : c.dbFile.length ≤ toU32 j) :
    loadInto c k j record =
      (0, (entryAt c k).record,
        ⟨c.CacheEntries.set k ⟨(entryAt c k).record, toU32 j⟩,
          c.CacheDirty.set k false, c.dbFile,
          c.log ++ [SysCall.lseek (32 * ((toU32 j : Nat) : Int)),
            SysCall.read (toU32 j) 0]⟩) := by
  have hv := toU32_of_valid j hj
  have hid : (entryAt (setId c k j) k).id = toU32 j := by
    rw [entryAt_setId_self c k j hk]
  have hr := readEntry_valid_eof (setId c k j) k (by rw [hid]; exact hv.2.1)
    (by rw [hid]; exact hout)
  unfold loadInto
  rw [hr, hid]
  simp [setId, entryAt, getD_set_self, hk]

theorem toU32_toI32 (n : Nat) (h : n < 4294967296) : toU32 (toI32 n) = n := by
  unfold toU32 toI32
  split <;> omega

/-- Replacing the bucket of one position keeps the invariant when the new id is
0, the id the position had, or an id that no other position holds. -/
theorem inv_replace (c c1 : Cache) (k : Nat) (hinv : Inv c) (hk : k < c.CacheEntries.length)
    (hlenE : c1.CacheEntries.length = c.CacheEntries.length)
    (hlenD : c1.CacheDirty.length = c.CacheDirty.length)
    (hfile : FileOK c1.dbFile)
    (hother : ∀ j, j ≠ k → entryAt c1 j = entryAt c j)
    (hid : (entryAt c1 k).id < 67108864)
    (hnew : (entryAt c1 k).id = 0 ∨ (entryAt c1 k).id = (entryAt c k).id ∨
      ∀ j, j < c.CacheEntries.length → j ≠ k → (entryAt c j).id ≠ (entryAt c1 k).id) :
    Inv c1 := by
  obtain ⟨h1, h2, h3, h4, _⟩ := hinv
  refine ⟨by rw [hlenD, hlenE, h1], by rw [hlenE]; exact h2, ?_, ?_, hfile⟩
  · intro j hj
    by_cases hjk : j = k
    · subst hjk; exact hid
    · rw [hother j hjk]; exact h3 j (by rw [hlenE] at hj; exact hj)
  · intro a ha b hb hab hne
    rw [hlenE] at ha hb
    by_cases hak : a = k <;> by_cases hbk : b = k
    · rw [hak, hbk]
    · subst hak
      rw [hother b hbk] at hab
      rcases hnew with h | h | h
      · exact absurd h hne
      · rw [h] at hab hne
        exact h4 a ha b hb hab hne
      · exact absurd hab.symm (h b hb hbk)
    · subst hbk
      rw [hother a hak] at hab hne
      rcases hnew with h | h | h
      · rw [h] at hab; exact absurd hab hne
      · rw [h] at hab
        exact h4 a ha b hb hab hne
      · exact absurd hab (h a ha hak)
    · rw [hother a hak] at hab hne
      rw [hother b hbk] at hab
      exact h4 a ha b hb hab hne

/-- Replacing the bucket of one position keeps `Holds` for index `i` when the
new id is not `i` and the position did not hold the only copy of the record. -/
theorem holds_replace (c c1 : Cache) (k i : Nat) (r : MYRECORD_RECORD_t)
    (hh : Holds c i r)
    (hlenE : c1.CacheEntries.length = c.CacheEntries.length)
    (hother : ∀ j, j ≠ k → entryAt c1 j = entryAt c j ∧ dirtyAt c1 j = dirtyAt c j)
    (hfile : c.dbFile[i]? = some ⟨r, i⟩ → c1.dbFile[i]? = some ⟨r, i⟩)
    (hnew : (entryAt c1 k).id ≠ i)
    (hold : (entryAt c k).id = i → dirtyAt c k = false ∨ c1.dbFile[i]? = some ⟨r, i⟩) :
    Holds c1 i r := by
  obtain ⟨p1, p2⟩ := hh
  constructor
  · intro j hj hji
    have hjk : j ≠ k := by
      rintro rfl; exact hnew hji
    rw [(hother j hjk).1] at hji ⊢
    exact p1 j (by rw [hlenE] at hj; exact hj) hji
  · rcases p2 with hF | ⟨m, hm, hmi, hmd⟩
    · exact Or.inl (hfile hF)
    · by_cases hmk : m = k
      · subst hmk
        rcases hold hmi with h | h
        · rw [hmd] at h; cases h
        · exact Or.inl h
      · right
        refine ⟨m, by rw [hlenE]; exact hm, ?_, ?_⟩
        · rw [(hother m hmk).1]; exact hmi
        · rw [(hother m hmk).2]; exact hmd

theorem entryAt_writeEntry (c : Cache) (k j : Nat) :
    entryAt (writeEntry c k).2 j = entryAt c j := by
  simp only [entryAt, writeEntry_entries]

theorem dirtyAt_set_other (c : Cache) (ds : List Bool) (k j : Nat) (d : Bool) (hjk : j ≠ k)
    (h : ds = c.CacheDirty.set k d) : ds.getD j false = dirtyAt c j := by
  subst h
  exact getD_set_other _ _ _ _ _ hjk

/-- Writing a position with a valid id to the file keeps the invariant. -/
theorem inv_writeEntry (c : Cache) (k : Nat) (hinv : Inv c) (hk : k < c.CacheEntries.length) :
    Inv (writeEntry c k).2 ∧ (writeEntry c k).1 = 0 ∧
      (writeEntry c k).2.CacheEntries = c.CacheEntries ∧
      dirtyAt (writeEntry c k).2 k = false ∧
      (∀ j, j ≠ k → dirtyAt (writeEntry c k).2 j = dirtyAt c j) ∧
      (writeEntry c k).2.dbFile = fileWrite c.dbFile (entryAt c k).id (entryAt c k) := by
  have hid := hinv.2.2.1 k hk
  rw [writeEntry_valid c k hid]
  refine ⟨?_, rfl, rfl, ?_, ?_, rfl⟩
  · obtain ⟨h1, h2, h3, h4, h5⟩ := hinv
    refine ⟨by simp [h1], h2, h3, h4, ?_⟩
    exact fileOK_fileWrite _ _ _ h5 (Or.inl rfl)
  · simp only [dirtyAt]
    exact getD_set_self _ _ _ _ (by rw [hinv.1]; exact hk)
  · intro j hjk
    simp only [dirtyAt]
    exact getD_set_other _ _ _ _ _ hjk

/-- Writing a position with a valid id to the file keeps `Holds`. -/
theorem holds_writeEntry (c : Cache) (k i : Nat) (r : MYRECORD_RECORD_t) (hinv : Inv c)
    (hk : k < c.CacheEntries.length) (hh : Holds c i r) : Holds (writeEntry c k).2 i r := by
  obtain ⟨_, _, he, _, hdo, hf⟩ := inv_writeEntry c k hinv hk
  obtain ⟨p1, p2⟩ := hh
  constructor
  · intro j hj hji
    rw [entryAt_writeEntry] at hji ⊢
    rw [he] at hj
    exact p1 j hj hji
  · by_cases hki : (entryAt c k).id = i
    · left
      rw [hf, hki]
      have : entryAt c k = ⟨r, i⟩ := by
        have hr := p1 k hk hki
        cases hek : entryAt c k with
        | mk rec id =>
          rw [hek] at hr hki
          simp only at hr hki
          rw [hr, hki]
      rw [this]
      exact fileWrite_get_self _ _ _
    · rcases p2 with hF | ⟨m, hm, hmi, hmd⟩
      · left
        rw [hf]
        exact fileWrite_get_keep _ _ _ _ _ (fun e => hki e.symm) hF
      · right
        refine ⟨m, by rw [he]; exact hm, by rw [entryAt_writeEntry]; exact hmi, ?_⟩
        have hmk : m ≠ k := by
          rintro rfl; exact hki hmi
        rw [hdo m hmk]; exact hmd

theorem dirtyAt_storeInto_self (c : Cache) (k : Nat) (i : Int) (r : MYRECORD_RECORD_t)
    (hk : k < c.CacheDirty.length) : dirtyAt (storeInto c k i r) k = true := by
  simp only [dirtyAt, storeInto]
  exact getD_set_self _ _ _ _ hk

theorem dirtyAt_storeInto_other (c : Cache) (k j : Nat) (i : Int) (r : MYRECORD_RECORD_t)
    (hjk : j ≠ k) : dirtyAt (storeInto c k i r) j = dirtyAt c j := by
  simp only [dirtyAt, storeInto]
  exact getD_set_other _ _ _ _ _ hjk

/-- Storing a record for a valid index at a position that holds the index, or
at a reusable position when no position holds it, keeps the invariant and the
records of the other indices, and makes the store hold the new record. -/
theorem storeInto_inv_holds (c0 : Cache) (k : Nat) (j : Int) (r1 : MYRECORD_RECORD_t)
    (hinv : Inv c0) (hk : k < c0.CacheEntries.length) (hj : ValidIndex j)
    (hres : (entryAt c0 k).id = toU32 j ∨
      ∀ m, m < c0.CacheEntries.length → (entryAt c0 m).id ≠ toU32 j)
    (hfree : (entryAt c0 k).id = toU32 j ∨ (entryAt c0 k).id = 0 ∨ dirtyAt c0 k = false) :
    Inv (storeInto c0 k j r1) ∧
      (∀ i r, Holds c0 i r → i ≠ toU32 j → 1 ≤ i → Holds (storeInto c0 k j r1) i r) ∧
      Holds (storeInto c0 k j r1) (toU32 j) r1 := by
  have hv := toU32_of_valid j hj
  have hself := entryAt_storeInto_self c0 k j r1 hk
  have hinv1 : Inv (storeInto c0 k j r1) := by
    refine inv_replace c0 _ k hinv hk (length_storeInto _ _ _ _) (by simp [storeInto])
      hinv.2.2.2.2 (fun m hm => entryAt_storeInto_other c0 k m j r1 hm)
      (by rw [hself]; exact hv.2.1) ?_
    rw [hself]
    rcases hres with h | h
    · exact Or.inr (Or.inl h.symm)
    · exact Or.inr (Or.inr (fun m hm _ => h m hm))
  refine ⟨hinv1, ?_, ?_⟩
  · intro i r hh hij hi
    refine holds_replace c0 _ k i r hh (length_storeInto _ _ _ _)
      (fun m hm => ⟨entryAt_storeInto_other c0 k m j r1 hm,
        dirtyAt_storeInto_other c0 k m j r1 hm⟩)
      (fun h => h) (by rw [hself]; exact fun e => hij e.symm) ?_
    intro hki
    rcases hfree with h | h | h
    · rw [hki] at h; exact absurd h hij
    · rw [hki] at h; omega
    · exact Or.inl h
  · constructor
    · intro m hm hmi
      have hmk : m = k := by
        by_contra hne
        have hu := hinv1.2.2.2.1 m hm k (by rw [length_storeInto]; exact hk)
          (by rw [hmi, hself]) (by rw [hmi]; omega)
        exact hne hu
      rw [hmk, hself]
    · right
      exact ⟨k, by rw [length_storeInto]; exact hk, by rw [hself],
        dirtyAt_storeInto_self c0 k j r1 (by rw [hinv.1]; exact hk)⟩

/-- The three ways `MYC_writeEntry` finds its position, when every id of the
table is valid: the status is 0 and the record is stored into a state that
differs from the initial one by at most the flush of the victim. -/
theorem MYC_writeEntry_shape (c : Cache) (j : Int) (r1 : MYRECORD_RECORD_t) (rnd : Nat)
    (hinv : Inv c) :
    ∃ c0 k, MYC_writeEntry c j r1 rnd = (0, storeInto c0 k j r1) ∧ Inv c0 ∧
      k < c0.CacheEntries.length ∧
      ((entryAt c0 k).id = toU32 j ∨
        ∀ m, m < c0.CacheEntries.length → (entryAt c0 m).id ≠ toU32 j) ∧
      ((entryAt c0 k).id = toU32 j ∨ (entryAt c0 k).id = 0 ∨ dirtyAt c0 k = false) ∧
      (∀ i r, Holds c i r → Holds c0 i r) ∧
      c0.CacheEntries = c.CacheEntries := by
  unfold MYC_writeEntry
  cases hs : searchRecord c j with
  | some k =>
    have h := (searchRecord_some_iff c j k).1 hs
    exact ⟨c, k, rfl, hinv, h.1, Or.inl h.2.1, Or.inl h.2.1, fun _ _ hh => hh, rfl⟩
  | none =>
    have hnone := (searchRecord_none_iff c j).1 hs
    cases hu : searchUnusedOrClean c with
    | some k =>
      have hk := searchUnusedOrClean_lt c k hu
      refine ⟨c, k, by simp only [storeInto_setId], hinv, hk, Or.inr hnone, ?_,
        fun _ _ hh => hh, rfl⟩
      rcases (searchUnusedOrClean_some_iff c k).1 hu with h | h
      · exact Or.inr (Or.inl h.2.1)
      · exact Or.inr (Or.inr h.2.2.1)
    | none =>
      have hv := searchAny_lt c rnd hinv.2.1
      obtain ⟨hi1, hst, he, hd, _, _⟩ := inv_writeEntry c (searchAny c rnd) hinv hv
      simp only [hst, storeInto_setId]
      refine ⟨(writeEntry c (searchAny c rnd)).2, searchAny c rnd, by simp, hi1,
        by rw [he]; exact hv, Or.inr ?_, Or.inr (Or.inr hd),
        fun i r hh => holds_writeEntry c _ i r hinv hv hh, he⟩
      intro m hm
      rw [entryAt_writeEntry]
      rw [he] at hm
      exact hnone m hm

/-- With valid ids and a valid index `MYC_writeEntry` returns 0, keeps the
invariant and the records of the other indices, and the store holds the
record written. -/
theorem MYC_writeEntry_inv (c : Cache) (j : Int) (r1 : MYRECORD_RECORD_t) (rnd : Nat)
    (hinv : Inv c) (hj : ValidIndex j) :
    (MYC_writeEntry c j r1 rnd).1 = 0 ∧ Inv (MYC_writeEntry c j r1 rnd).2 ∧
      (∀ i r, Holds c i r → i ≠ toU32 j → 1 ≤ i → Holds (MYC_writeEntry c j r1 rnd).2 i r) ∧
      Holds (MYC_writeEntry c j r1 rnd).2 (toU32 j) r1 := by
  obtain ⟨c0, k, he, hinv0, hk, hres, hfree, hh0, _⟩ := MYC_writeEntry_shape c j r1 rnd hinv
  obtain ⟨a1, a2, a3⟩ := storeInto_inv_holds c0 k j r1 hinv0 hk hj hres hfree
  rw [he]
  exact ⟨rfl, a1, fun i r hh hij hi => a2 i r (hh0 i r hh) hij hi, a3⟩

/-- With valid ids, flushing the id of a dirty position writes that very
position and returns 0. -/
theorem MYC_flushEntry_victim (c : Cache) (v : Nat) (hinv : Inv c)
    (hv : v < c.CacheEntries.length) (hne : (entryAt c v).id ≠ 0)
    (hd : dirtyAt c v = true) :
    MYC_flushEntry c (toI32 (entryAt c v).id) = some (0, (writeEntry c v).2) := by
  have hid := hinv.2.2.1 v hv
  have hu : toU32 (toI32 (entryAt c v).id) = (entryAt c v).id := toU32_toI32 _ (by omega)
  have hs : searchRecord c (toI32 (entryAt c v).id) = some v := by
    rw [searchRecord_some_iff, hu]
    refine ⟨hv, rfl, fun m hm e => ?_⟩
    have := hinv.2.2.2.1 m (by omega) v hv e (by rw [e]; exact hne)
    omega
  unfold MYC_flushEntry
  rw [hs]
  simp only [hd, if_true, (inv_writeEntry c v hinv hv).2.1]
  simp

/-- Loading a valid index that no position holds into a reusable position
returns 0, keeps the invariant and the records of the other indices, and
yields the record that the file stores for the index. -/
theorem loadInto_inv_holds (c0 : Cache) (k : Nat) (j : Int) (record : MYRECORD_RECORD_t)
    (hinv : Inv c0) (hk : k < c0.CacheEntries.length) (hj : ValidIndex j)
    (hnr : ∀ m, m < c0.CacheEntries.length → (entryAt c0 m).id ≠ toU32 j)
    (hfree : (entryAt c0 k).id = 0 ∨ dirtyAt c0 k = false) :
    (loadInto c0 k j record).1 = 0 ∧ Inv (loadInto c0 k j record).2.2 ∧
      (∀ i r, Holds c0 i r → i ≠ toU32 j → 1 ≤ i → Holds (loadInto c0 k j record).2.2 i r) ∧
      (∀ r, c0.dbFile[toU32 j]? = some ⟨r, toU32 j⟩ → (loadInto c0 k j record).2.1 = r) := by
  have hv := toU32_of_valid j hj
  have hgen : ∀ (b : MYBUCKET_BUCKET_t) (l : List SysCall), (b.id = toU32 j ∨ b.id = 0) →
      Inv ⟨c0.CacheEntries.set k b, c0.CacheDirty.set k false, c0.dbFile, l⟩ ∧
      (∀ i r, Holds c0 i r → i ≠ toU32 j → 1 ≤ i →
        Holds ⟨c0.CacheEntries.set k b, c0.CacheDirty.set k false, c0.dbFile, l⟩ i r) := by
    intro b l hb
    have hself : entryAt ⟨c0.CacheEntries.set k b, c0.CacheDirty.set k false, c0.dbFile, l⟩ k
        = b := getD_set_self _ _ _ _ hk
    have hoth : ∀ m, m ≠ k →
        entryAt ⟨c0.CacheEntries.set k b, c0.CacheDirty.set k false, c0.dbFile, l⟩ m
          = entryAt c0 m := fun m hm => getD_set_other _ _ _ _ _ hm
    have hdoth : ∀ m, m ≠ k →
        dirtyAt ⟨c0.CacheEntries.set k b, c0.CacheDirty.set k false, c0.dbFile, l⟩ m
          = dirtyAt c0 m := fun m hm => getD_set_other _ _ _ _ _ hm
    constructor
    · refine inv_replace c0 _ k hinv hk (by simp) (by simp) hinv.2.2.2.2 hoth
        (by rw [hself]; rcases hb with h | h <;> omega) ?_
      rw [hself]
      rcases hb with h | h
      · exact Or.inr (Or.inr (fun m hm _ => by rw [h]; exact hnr m hm))
      · exact Or.inl h
    · intro i r hh hij hi
      refine holds_replace c0 _ k i r hh (by simp) (fun m hm => ⟨hoth m hm, hdoth m hm⟩)
        (fun h => h) (by rw [hself]; rcases hb with h | h <;> omega) ?_
      intro hki
      rcases hfree with h | h
      · omega
      · exact Or.inl h
  by_cases hin : toU32 j < c0.dbFile.length
  · rw [loadInto_valid_in c0 k j record hk hj hin]
    obtain ⟨g1, g2⟩ := hgen (c0.dbFile.getD (toU32 j) zeroBucket) _
      (fileOK_getD _ hinv.2.2.2.2 _)
    refine ⟨rfl, g1, g2, ?_⟩
    intro r hr
    simp only
    rw [getD_of_get _ _ _ hr]
  · rw [loadInto_valid_eof c0 k j record hk hj (by omega)]
    obtain ⟨g1, g2⟩ := hgen ⟨(entryAt c0 k).record, toU32 j⟩ _ (Or.inl rfl)
    refine ⟨rfl, g1, g2, ?_⟩
    intro r hr
    rw [List.getElem?_eq_none (by omega)] at hr
    cases hr

/-- The ways `MYC_readEntry` finds its position, when every id of the table
is valid: either the index is in the cache and nothing changes, or the index
is loaded into a reusable position of a state that differs from the initial
one by at most the flush of the victim. -/
theorem MYC_readEntry_shape (c : Cache) (j : Int) (record : MYRECORD_RECORD_t) (rnd : Nat)
    (hinv : Inv c) :
    (∃ k, searchRecord c j = some k ∧
      MYC_readEntry c j record rnd = some (0, (entryAt c k).record, c)) ∨
    (∃ c0 k, searchRecord c j = none ∧
      MYC_readEntry c j record rnd = some (loadInto c0 k j record) ∧ Inv c0 ∧
      k < c0.CacheEntries.length ∧
      (∀ m, m < c0.CacheEntries.length → (entryAt c0 m).id ≠ toU32 j) ∧
      ((entryAt c0 k).id = 0 ∨ dirtyAt c0 k = false) ∧
      (∀ i r, Holds c i r → Holds c0 i r) ∧
      c0.CacheEntries = c.CacheEntries) := by
  cases hs : searchRecord c j with
  | some k =>
    left
    refine ⟨k, rfl, ?_⟩
    simp only [MYC_readEntry, hs]
  | none =>
    right
    have hnone := (searchRecord_none_iff c j).1 hs
    cases hu : searchUnusedOrClean c with
    | some k =>
      have hk := searchUnusedOrClean_lt c k hu
      refine ⟨c, k, rfl, by simp only [MYC_readEntry, hs, hu], hinv, hk, hnone, ?_,
        fun _ _ hh => hh, rfl⟩
      rcases (searchUnusedOrClean_some_iff c k).1 hu with h | h
      · exact Or.inl h.2.1
      · exact Or.inr h.2.2.1
    | none =>
      have hv := searchAny_lt c rnd hinv.2.1
      have hall := (searchUnusedOrClean_none_iff c).1 hu (searchAny c rnd) hv
      obtain ⟨hi1, _, he, hd, _, _⟩ := inv_writeEntry c (searchAny c rnd) hinv hv
      have hfl := MYC_flushEntry_victim c (searchAny c rnd) hinv hv hall.1 hall.2
      refine ⟨(writeEntry c (searchAny c rnd)).2, searchAny c rnd, rfl, ?_, hi1,
        by rw [he]; exact hv, ?_, Or.inr hd,
        fun i r hh => holds_writeEntry c _ i r hinv hv hh, he⟩
      · unfold MYC_readEntry
        rw [hs]
        simp only []
        rw [hu]
        simp only []
        rw [hfl]
        simp only []
        rw [if_neg (by decide)]
      · intro m hm
        rw [entryAt_writeEntry]
        rw [he] at hm
        exact hnone m hm

/-- With valid ids and a valid index `MYC_readEntry` is defined, returns 0,
keeps the invariant and the records of all other indices. -/
theorem MYC_readEntry_inv (c : Cache) (j : Int) (record : MYRECORD_RECORD_t) (rnd : Nat)
    (hinv : Inv c) (hj : ValidIndex j) :
    ∃ rec1 c1, MYC_readEntry c j record rnd = some (0, rec1, c1) ∧ Inv c1 ∧
      (∀ i r, Holds c i r → i ≠ toU32 j → 1 ≤ i → Holds c1 i r) ∧
      (∀ r, Holds c (toU32 j) r → rec1 = r) := by
  rcases MYC_readEntry_shape c j record rnd hinv with ⟨k, hs, he⟩ | ⟨c0, k, hs, he, hinv0, hk,
    hnr, hfree, hh0, hent⟩
  · refine ⟨_, _, he, hinv, fun i r hh _ _ => hh, ?_⟩
    intro r hh
    have h := (searchRecord_some_iff c j k).1 hs
    exact hh.1 k h.1 h.2.1
  · obtain ⟨a1, a2, a3, a4⟩ := loadInto_inv_holds c0 k j record hinv0 hk hj hnr hfree
    generalize loadInto c0 k j record = x at a1 a2 a3 a4 he
    obtain ⟨st, rec1, c1⟩ := x
    simp only at a1 a2 a3 a4
    subst a1
    refine ⟨rec1, c1, he, a2, fun i r hh hij hi => a3 i r (hh0 i r hh) hij hi, ?_⟩
    intro r hh
    apply a4
    rcases (hh0 _ r hh).2 with h | ⟨m, hm, hmi, _⟩
    · exact h
    · exact absurd hmi (hnr m hm)

theorem dirtyAt_lt (c : Cache) (k : Nat) (h : dirtyAt c k = true) : k < c.CacheDirty.length := by
  by_contra hk
  simp [dirtyAt, List.getD_eq_getElem?_getD, List.getElem?_eq_none (Nat.le_of_not_lt hk)] at h

/-- With valid ids `MYC_flushEntry`, when it is defined, returns 0, keeps the
invariant, the table and every record of the store. -/
theorem MYC_flushEntry_inv (c c1 : Cache) (j st : Int) (hinv : Inv c)
    (h : MYC_flushEntry c j = some (st, c1)) :
    st = 0 ∧ Inv c1 ∧ c1.CacheEntries = c.CacheEntries ∧ (∀ i r, Holds c i r → Holds c1 i r) := by
  unfold MYC_flushEntry at h
  cases hs : searchRecord c j with
  | none => rw [hs] at h; cases h
  | some k =>
    rw [hs] at h
    have hk := ((searchRecord_some_iff c j k).1 hs).1
    obtain ⟨hi1, hst, he, _, _, _⟩ := inv_writeEntry c k hinv hk
    by_cases hd : dirtyAt c k = true
    · simp only [hd, if_true, hst] at h
      rw [if_neg (by decide)] at h
      simp only [Option.some.injEq, Prod.mk.injEq] at h
      obtain ⟨rfl, rfl⟩ := h
      exact ⟨rfl, hi1, he, fun i r hh => holds_writeEntry c k i r hinv hk hh⟩
    · simp only [hd] at h
      simp only [Bool.false_eq_true, if_false, Option.some.injEq, Prod.mk.injEq] at h
      obtain ⟨rfl, rfl⟩ := h
      exact ⟨rfl, hinv, rfl, fun i r hh => hh⟩

/-- With valid ids the loop of `MYC_flushAll` returns 0, keeps the invariant,
the table and every record of the store, and clears the flags it visits. -/
theorem flushAllLoop_inv (n : Nat) : ∀ (p : Nat) (c : Cache), Inv c →
    (flushAllLoop n p c).1 = 0 ∧ Inv (flushAllLoop n p c).2 ∧
      (flushAllLoop n p c).2.CacheEntries = c.CacheEntries ∧
      (∀ i r, Holds c i r → Holds (flushAllLoop n p c).2 i r) ∧
      (∀ m, p ≤ m → m < p + n → dirtyAt (flushAllLoop n p c).2 m = false) ∧
      (∀ m, m < p → dirtyAt (flushAllLoop n p c).2 m = dirtyAt c m) := by
  induction n with
  | zero =>
    intro p c hinv
    refine ⟨rfl, hinv, rfl, fun _ _ hh => hh, fun m h1 h2 => by omega, fun _ _ => rfl⟩
  | succ n ih =>
    intro p c hinv
    unfold flushAllLoop
    by_cases hd : dirtyAt c p = true
    · have hp : p < c.CacheEntries.length := by
        rw [← hinv.1]; exact dirtyAt_lt c p hd
      obtain ⟨hi1, hst, he, hdp, hdo, _⟩ := inv_writeEntry c p hinv hp
      simp only [hd, if_true, hst]
      rw [if_neg (by decide)]
      obtain ⟨b1, b2, b3, b4, b5, b6⟩ := ih (p + 1) (writeEntry c p).2 hi1
      refine ⟨b1, b2, by rw [b3, he], fun i r hh => b4 i r (holds_writeEntry c p i r hinv hp hh),
        ?_, ?_⟩
      · intro m h1 h2
        by_cases hmp : m = p
        · subst hmp
          rw [b6 m (by omega)]; exact hdp
        · exact b5 m (by omega) (by omega)
      · intro m hm
        rw [b6 m (by omega)]
        exact hdo m (by omega)
    · have hd0 : dirtyAt c p = false := by simpa using hd
      simp only [hd0, Bool.false_eq_true, if_false]
      obtain ⟨b1, b2, b3, b4, b5, b6⟩ := ih (p + 1) c hinv
      refine ⟨b1, b2, b3, b4, ?_, fun m hm => b6 m (by omega)⟩
      intro m h1 h2
      by_cases hmp : m = p
      · subst hmp
        rw [b6 m (by omega)]; exact hd0
      · exact b5 m (by omega) (by omega)

/-- With valid ids `MYC_flushAll` returns 0, keeps the invariant, the table and
every record of the store, and leaves no flag set. -/
theorem MYC_flushAll_inv (c : Cache) (hinv : Inv c) :
    (MYC_flushAll c).1 = 0 ∧ Inv (MYC_flushAll c).2 ∧
      (MYC_flushAll c).2.CacheEntries = c.CacheEntries ∧
      (∀ i r, Holds c i r → Holds (MYC_flushAll c).2 i r) ∧
      (∀ m, m < c.CacheEntries.length → dirtyAt (MYC_flushAll c).2 m = false) := by
  obtain ⟨b1, b2, b3, b4, b5, _⟩ := flushAllLoop_inv c.CacheEntries.length 0 c hinv
  exact ⟨b1, b2, b3, b4, fun m hm => b5 m (Nat.zero_le _) (by omega)⟩

/-- Every call with a valid index keeps the invariant and returns 0. -/
theorem step_inv (c c1 : Cache) (op : Op) (st : Int) (hinv : Inv c) (hop : ValidOp op)
    (h : step c op = some (st, c1)) : st = 0 ∧ Inv c1 := by
  cases op with
  | read j rnd =>
    obtain ⟨rec1, c2, he, hi2, _, _⟩ := MYC_readEntry_inv c j zeroRecord rnd hinv hop
    simp only [step, he, Option.some.injEq, Prod.mk.injEq] at h
    obtain ⟨rfl, rfl⟩ := h
    exact ⟨rfl, hi2⟩
  | write j r1 rnd =>
    obtain ⟨a1, a2, _, _⟩ := MYC_writeEntry_inv c j r1 rnd hinv hop
    simp only [step, Option.some.injEq] at h
    rw [h] at a1 a2
    exact ⟨a1, a2⟩
  | flush j =>
    obtain ⟨a1, a2, _, _⟩ := MYC_flushEntry_inv c c1 j st hinv h
    exact ⟨a1, a2⟩
  | flushAll =>
    obtain ⟨a1, a2, _, _⟩ := MYC_flushAll_inv c hinv
    simp only [step, Option.some.injEq] at h
    rw [h] at a1 a2
    exact ⟨a1, a2⟩

/-- Every sequence of calls with valid indices keeps the invariant. -/
theorem runAll_inv (ops : List Op) : ∀ (c c1 : Cache), Inv c → (∀ op, op ∈ ops → ValidOp op) →
    runAll c ops = some c1 → Inv c1 := by
  induction ops with
  | nil =>
    intro c c1 hinv _ h
    simp only [runAll, Option.some.injEq] at h
    rw [← h]; exact hinv
  | cons op ops ih =>
    intro c c1 hinv hops h
    unfold runAll at h
    cases hs : step c op with
    | none => rw [hs] at h; cases h
    | some res =>
      obtain ⟨st, c2⟩ := res
      rw [hs] at h
      have h2 := step_inv c c2 op st hinv (hops op (List.mem_cons_self _ _)) hs
      exact ih c2 c1 h2.2 (fun o ho => hops o (List.mem_cons_of_mem _ ho)) h

theorem inv_init (file : List MYBUCKET_BUCKET_t) (hf : FileOK file) :
    Inv (MYC_initCache file) := by
  have hz : ∀ k, entryAt (MYC_initCache file) k = zeroBucket := by
    intro k
    simp only [entryAt, MYC_initCache, List.getD_eq_getElem?_getD, List.getElem?_replicate]
    split <;> rfl
  refine ⟨by simp [MYC_initCache], by simp [MYC_initCache, MYC_NUMENTRIES], ?_, ?_, hf⟩
  · intro k _
    rw [hz]; simp [zeroBucket]
  · intro j _ k _ _ hne
    rw [hz] at hne
    exact absurd rfl hne

theorem toU32_ne_of_valid (i j : Int) (hi : ValidIndex i) (hj : ValidIndex j) (hij : j ≠ i) :
    toU32 i ≠ toU32 j := by
  have h1 := (toU32_of_valid i hi).2.2
  have h2 := (toU32_of_valid j hj).2.2
  intro e
  rw [e] at h1
  omega

/-- A read or a write of another valid index keeps the invariant and the
record that the store holds for `i`. -/
theorem step_holds (c c1 : Cache) (op : Op) (st : Int) (i : Int) (r : MYRECORD_RECORD_t)
    (hinv : Inv c) (hh : Holds c (toU32 i) r) (hi : ValidIndex i) (hop : OtherIndexOp i op)
    (h : step c op = some (st, c1)) : Inv c1 ∧ Holds c1 (toU32 i) r := by
  have hi1 := (toU32_of_valid i hi).1
  cases op with
  | read j rnd =>
    obtain ⟨rec1, c2, he, hi2, hh2, _⟩ := MYC_readEntry_inv c j zeroRecord rnd hinv hop.1
    simp only [step, he, Option.some.injEq, Prod.mk.injEq] at h
    obtain ⟨_, rfl⟩ := h
    exact ⟨hi2, hh2 _ r hh (toU32_ne_of_valid i j hi hop.1 hop.2) hi1⟩
  | write j r1 rnd =>
    obtain ⟨_, a2, a3, _⟩ := MYC_writeEntry_inv c j r1 rnd hinv hop.1
    simp only [step, Option.some.injEq] at h
    rw [h] at a2 a3
    exact ⟨a2, a3 _ r hh (toU32_ne_of_valid i j hi hop.1 hop.2) hi1⟩
  | flush j => exact absurd hop (by simp [OtherIndexOp])
  | flushAll => exact absurd hop (by simp [OtherIndexOp])

theorem runOk_holds (i : Int) (r : MYRECORD_RECORD_t) (hi : ValidIndex i) (ops : List Op) :
    ∀ (c c1 : Cache), Inv c → Holds c (toU32 i) r → (∀ op, op ∈ ops → OtherIndexOp i op) →
      runOk c ops = some c1 → Inv c1 ∧ Holds c1 (toU32 i) r := by
  induction ops with
  | nil =>
    intro c c1 hinv hh _ h
    simp only [runOk, Option.some.injEq] at h
    rw [← h]; exact ⟨hinv, hh⟩
  | cons op ops ih =>
    intro c c1 hinv hh hops h
    unfold runOk at h
    cases hs : step c op with
    | none => rw [hs] at h; cases h
    | some res =>
      obtain ⟨st, c2⟩ := res
      rw [hs] at h
      have h2 := step_holds c c2 op st i r hinv hh hi (hops op (List.mem_cons_self _ _)) hs
      by_cases hst : st = 0
      · simp only [hst, if_true] at h
        exact ih c2 c1 h2.1 h2.2 (fun o ho => hops o (List.mem_cons_of_mem _ ho)) h
      · simp only [hst, if_false] at h
        cases h

theorem runOk_runAll (ops : List Op) : ∀ (c c1 : Cache), runOk c ops = some c1 →
    runAll c ops = some c1 := by
  induction ops with
  | nil => intro c c1 h; exact h
  | cons op ops ih =>
    intro c c1 h
    unfold runOk at h
    unfold runAll
    cases hs : step c op with
    | none => rw [hs] at h; cases h
    | some res =>
      obtain ⟨st, c2⟩ := res
      rw [hs] at h
      by_cases hst : st = 0
      · simp only [hst, if_true] at h
        exact ih c2 c1 h
      · simp only [hst, if_false] at h
        cases h

theorem runOk_append (a b : List Op) : ∀ (c : Cache),
    runOk c (a ++ b) = (runOk c a).bind (fun c1 => runOk c1 b) := by
  induction a with
  | nil => intro c; rfl
  | cons op a ih =>
    intro c
    simp only [List.cons_append, runOk]
    cases hs : step c op with
    | none => rfl
    | some res =>
      obtain ⟨st, c2⟩ := res
      simp only []
      by_cases hst : st = 0
      · simp only [hst, if_true]; exact ih c2
      · simp only [hst, if_false]; rfl

/-- The state `aliasState` is reached from a fresh cache over an empty file by
the successful calls write(2^27+1, x), write(1, .), ..., write(63, .). -/
theorem aliasState_reached :
    runOk (MYC_initCache []) ([Op.write 134217729 (recordOf 7) 0] ++ writeRange 1 63)
      = some aliasState := by
  decide!

/-- C1, counterexample. From a fresh cache over an empty file, the successful
calls write(2^27+1, x), write(1, r), writes of 2..63, then writes of the other
valid indices 64 and 65 (victims: the entries of 1 and of 2^27+1), are followed
by a read(1) that returns status 0 and `x`, not `r`: the byte offset of
2^27+1 wraps around to that of slot 1. -/
theorem C1_counterexample :
    recordOf 7 ≠ recordOf 1 ∧
    (runOk (MYC_initCache [])
        (([Op.write 134217729 (recordOf 7) 0] ++ writeRange 1 63) ++
          [Op.write 64 (recordOf 64) 1, Op.write 65 (recordOf 65) 0])).bind
      (fun c => readResult c 1 2) = some (0, recordOf 7) := by
  rw [runOk_append, aliasState_reached]
  decide

/-- C1, amended. Start from a fresh cache over a file in which every slot holds
zeros or a bucket with the number of the slot; let every call before the write
pass a valid index and succeed. Then after write(i, r) for a valid `i`,
followed by any successful reads and writes of other valid indices (with any
random victims), read(i) returns status 0 and `r`. -/
theorem C1_read_after_write (file : List MYBUCKET_BUCKET_t) (hf : FileOK file)
    (pre mid : List Op) (i : Int) (r record : MYRECORD_RECORD_t) (rnd rnd2 : Nat)
    (c0 c2 : Cache) (hpre : ∀ op, op ∈ pre → ValidOp op) (hi : ValidIndex i)
    (hmid : ∀ op, op ∈ mid → OtherIndexOp i op)
    (h0 : runOk (MYC_initCache file) pre = some c0)
    (h2 : runOk (MYC_writeEntry c0 i r rnd).2 mid = some c2) :
    (MYC_writeEntry c0 i r rnd).1 = 0 ∧
      ∃ c3, MYC_readEntry c2 i record rnd2 = some (0, r, c3) := by
  have hinv0 : Inv c0 :=
    runAll_inv pre _ c0 (inv_init file hf) hpre (runOk_runAll pre _ c0 h0)
  obtain ⟨a1, a2, _, a4⟩ := MYC_writeEntry_inv c0 i r rnd hinv0 hi
  obtain ⟨b1, b2⟩ := runOk_holds i r hi mid _ c2 a2 a4 hmid h2
  obtain ⟨rec1, c3, he, _, _, hr⟩ := MYC_readEntry_inv c2 i record rnd2 b1 hi
  refine ⟨a1, c3, ?_⟩
  rw [he, hr r b2]

/-- C1, witness: write(3, r) after a write of 5, then a read of 4 and a write
of 6, on a fresh cache over an empty file. -/
theorem C1_read_after_write_witness :
    FileOK [] ∧ ValidIndex 3 ∧
    (MYC_writeEntry (stateAfter (MYC_initCache []) [Op.write 5 (recordOf 5) 0]) 3
        (recordOf 3) 0).1 = 0 ∧
    ∃ c3, MYC_readEntry
      (stateAfter (MYC_writeEntry (stateAfter (MYC_initCache []) [Op.write 5 (recordOf 5) 0]) 3
        (recordOf 3) 0).2 [Op.read 4 0, Op.write 6 (recordOf 6) 0]) 3 zeroRecord 0
      = some (0, recordOf 3, c3) :=
  ⟨fileOK_nil, by decide,
    C1_read_after_write [] fileOK_nil [Op.write 5 (recordOf 5) 0]
      [Op.read 4 0, Op.write 6 (recordOf 6) 0] 3 (recordOf 3) zeroRecord 0 0 _ _
      (by intro op hop; simp at hop; subst hop; decide) (by decide)
      (by intro op hop; simp at hop; rcases hop with rfl | rfl <;> decide)
      (by decide) (by decide)⟩

/-- C2. Cache round trip: in every state of the tables and for every index `i`
(a non-zero one in particular) and record `r`, whenever `MYC_writeEntry(i, r)`
returns 0 the `MYC_readEntry(i)` that follows returns 0 and yields `r`, and it
leaves the state as it is. -/
theorem C2_write_read_roundtrip (c c1 : Cache) (hwf : WF c) (i : Int)
    (r record : MYRECORD_RECORD_t) (rnd rnd2 : Nat)
    (hw : MYC_writeEntry c i r rnd = (0, c1)) :
    MYC_readEntry c1 i record rnd2 = some (0, r, c1) := by
  have key : ∀ (c0 : Cache) (k : Nat), k < c0.CacheEntries.length →
      (∀ j, j < k → (entryAt c0 j).id ≠ toU32 i) →
      MYC_readEntry (storeInto c0 k i r) i record rnd2 = some (0, r, storeInto c0 k i r) := by
    intro c0 k hk hlow
    unfold MYC_readEntry
    rw [searchRecord_storeInto c0 k i r hk hlow]
    simp only [entryAt_storeInto_self c0 k i r hk]
  unfold MYC_writeEntry at hw
  cases hs : searchRecord c i with
  | some k =>
    rw [hs] at hw
    simp only [Prod.mk.injEq, true_and] at hw
    subst hw
    have h := (searchRecord_some_iff c i k).1 hs
    exact key c k h.1 h.2.2
  | none =>
    rw [hs] at hw
    have hnone := (searchRecord_none_iff c i).1 hs
    cases hu : searchUnusedOrClean c with
    | some k =>
      rw [hu] at hw
      simp only [Prod.mk.injEq, true_and] at hw
      subst hw
      have hk := searchUnusedOrClean_lt c k hu
      refine key (setId c k i) k (by rw [length_setId]; exact hk) (fun j hj => ?_)
      rw [entryAt_setId_other c k j i (by omega)]
      exact hnone j (by omega)
    | none =>
      rw [hu] at hw
      simp only at hw
      have hv := searchAny_lt c rnd hwf.2.1
      split at hw
      · simp at hw
      · simp only [Prod.mk.injEq, true_and] at hw
        subst hw
        refine key _ (searchAny c rnd) (by rw [length_setId, writeEntry_entries]; exact hv)
          (fun j hj => ?_)
        rw [entryAt_setId_other _ _ j i (by omega)]
        have : entryAt (writeEntry c (searchAny c rnd)).2 j = entryAt c j := by
          simp only [entryAt, writeEntry_entries]
        rw [this]
        exact hnone j (by omega)

/-- C2, witness: write(3, r) then read(3) on a fresh cache over an empty file. -/
theorem C2_write_read_roundtrip_witness :
    WF (MYC_initCache []) ∧
    MYC_writeEntry (MYC_initCache []) 3 (recordOf 3) 0
      = (0, (MYC_writeEntry (MYC_initCache []) 3 (recordOf 3) 0).2) ∧
    MYC_readEntry (MYC_writeEntry (MYC_initCache []) 3 (recordOf 3) 0).2 3 zeroRecord 0
      = some (0, recordOf 3, (MYC_writeEntry (MYC_initCache []) 3 (recordOf 3) 0).2) :=
  ⟨by decide, by decide,
    C2_write_read_roundtrip (MYC_initCache []) _ (by decide) 3 (recordOf 3) zeroRecord 0 0
      (by decide)⟩

theorem holds_init (file : List MYBUCKET_BUCKET_t) (i : Nat) (r : MYRECORD_RECORD_t)
    (hi : 1 ≤ i) (hF : file[i]? = some ⟨r, i⟩) : Holds (MYC_initCache file) i r := by
  have hz : ∀ k, entryAt (MYC_initCache file) k = zeroBucket := by
    intro k
    simp only [entryAt, MYC_initCache, List.getD_eq_getElem?_getD, List.getElem?_replicate]
    split <;> rfl
  refine ⟨?_, Or.inl hF⟩
  intro k _ hk
  rw [hz] at hk
  simp only [zeroBucket] at hk
  omega

/-- C3, counterexample. In the state reached by write(1, y) and write(2^27+1, x),
write(1, r) and a successful flushAll() leave the bucket of 2^27+1 in slot 1
(its byte offset wraps around to that of slot 1 and it is flushed later), and
read(1) on a fresh cache over that file returns status 0 and `x`, not `r`. -/
theorem C3_counterexample :
    recordOf 7 ≠ recordOf 1 ∧
    (MYC_writeEntry (stateAfter (MYC_initCache [])
        [Op.write 1 (recordOf 9) 0, Op.write 134217729 (recordOf 7) 0]) 1 (recordOf 1) 0).1 = 0 ∧
    (MYC_flushAll (MYC_writeEntry (stateAfter (MYC_initCache [])
        [Op.write 1 (recordOf 9) 0, Op.write 134217729 (recordOf 7) 0]) 1 (recordOf 1) 0).2).1
      = 0 ∧
    (MYC_flushAll (MYC_writeEntry (stateAfter (MYC_initCache [])
        [Op.write 1 (recordOf 9) 0, Op.write 134217729 (recordOf 7) 0]) 1 (recordOf 1) 0).2).2.dbFile[1]?
      = some ⟨recordOf 7, 134217729⟩ ∧
    readResult (MYC_initCache (MYC_flushAll (MYC_writeEntry (stateAfter (MYC_initCache [])
        [Op.write 1 (recordOf 9) 0, Op.write 134217729 (recordOf 7) 0]) 1 (recordOf 1)
          0).2).2.dbFile) 1 0
      = some (0, recordOf 7) := by
  decide

/-- C3, amended. In every state in which the ids of the table are valid indices
or 0, no non-zero id occurs twice, and every slot of the file holds zeros or a
bucket with the number of the slot (every state reached from a fresh cache by
calls with valid indices): for every valid index `i` and record `r`,
write(i, r) returns 0, the flushAll() that follows returns 0 and leaves the
bucket {r, id i} in slot `i` of the file, and read(i) on a freshly initialised
cache over that file returns status 0 and `r`. -/
theorem C3_persist_across_restart (c : Cache) (hinv : Inv c) (i : Int) (hi : ValidIndex i)
    (r record : MYRECORD_RECORD_t) (rnd rnd2 : Nat) :
    (MYC_writeEntry c i r rnd).1 = 0 ∧
    (MYC_flushAll (MYC_writeEntry c i r rnd).2).1 = 0 ∧
    (MYC_flushAll (MYC_writeEntry c i r rnd).2).2.dbFile[toU32 i]? = some ⟨r, toU32 i⟩ ∧
    ∃ c3, MYC_readEntry (MYC_initCache (MYC_flushAll (MYC_writeEntry c i r rnd).2).2.dbFile) i
      record rnd2 = some (0, r, c3) := by
  obtain ⟨a1, a2, _, a4⟩ := MYC_writeEntry_inv c i r rnd hinv hi
  obtain ⟨b1, b2, b3, b4, b5⟩ := MYC_flushAll_inv _ a2
  have hh := b4 _ r a4
  have hF : (MYC_flushAll (MYC_writeEntry c i r rnd).2).2.dbFile[toU32 i]?
      = some ⟨r, toU32 i⟩ := by
    rcases hh.2 with h | ⟨m, hm, _, hmd⟩
    · exact h
    · rw [b3] at hm
      rw [b5 m hm] at hmd
      cases hmd
  have hinv3 := inv_init _ b2.2.2.2.2
  have hh3 := holds_init _ (toU32 i) r (toU32_of_valid i hi).1 hF
  obtain ⟨rec1, c3, he, _, _, hr⟩ := MYC_readEntry_inv _ i record rnd2 hinv3 hi
  refine ⟨a1, b1, hF, c3, ?_⟩
  rw [he, hr r hh3]

/-- C3, witness: index 3 on a fresh cache over an empty file. -/
theorem C3_persist_across_restart_witness :
    Inv (MYC_initCache []) ∧ ValidIndex 3 ∧
    (MYC_flushAll (MYC_writeEntry (MYC_initCache []) 3 (recordOf 3) 0).2).2.dbFile[toU32 3]?
      = some ⟨recordOf 3, toU32 3⟩ :=
  ⟨inv_init [] fileOK_nil, by decide,
    (C3_persist_across_restart (MYC_initCache []) (inv_init [] fileOK_nil) 3 (by decide)
      (recordOf 3) zeroRecord 0 0).2.2.1⟩

theorem holds_dirty_entry (c : Cache) (v : Nat) (hinv : Inv c) (hv : v < c.CacheEntries.length)
    (hne : (entryAt c v).id ≠ 0) (hd : dirtyAt c v = true) :
    Holds c (entryAt c v).id (entryAt c v).record := by
  refine ⟨?_, Or.inr ⟨v, hv, rfl, hd⟩⟩
  intro k hk hkv
  have := hinv.2.2.2.1 k hk v hv hkv (by rw [hkv]; exact hne)
  rw [this]

theorem validIndex_of_id (n : Nat) (h1 : n ≠ 0) (h2 : n < 67108864) :
    ValidIndex (n : Int) ∧ toU32 (n : Int) = n := by
  constructor
  · unfold ValidIndex sizeofBucket
    omega
  · unfold toU32
    omega

theorem searchRecord_none_of (c : Cache) (j : Int)
    (hnr : ∀ k, k < c.CacheEntries.length → (entryAt c k).id ≠ toU32 j) :
    searchRecord c j = none := (searchRecord_none_iff c j).2 hnr

theorem prod_eta3 {α β γ : Type} (x : α × β × γ) (a : α) (h : x.1 = a) :
    x = (a, x.2.1, x.2.2) := by
  obtain ⟨x1, x2, x3⟩ := x
  simp only at h
  subst h
  rfl

/-- Log, file and other positions after a load of a valid index. -/
theorem loadInto_fields (c : Cache) (k : Nat) (j : Int) (record : MYRECORD_RECORD_t)
    (hk : k < c.CacheEntries.length) (hj : ValidIndex j) :
    ∃ nbytes, (loadInto c k j record).2.2.log = c.log ++
        [SysCall.lseek (32 * ((toU32 j : Nat) : Int)), SysCall.read (toU32 j) nbytes] ∧
      (loadInto c k j record).2.2.dbFile = c.dbFile ∧
      ∀ m, m ≠ k → entryAt (loadInto c k j record).2.2 m = entryAt c m := by
  by_cases hin : toU32 j < c.dbFile.length
  · rw [loadInto_valid_in c k j record hk hj hin]
    exact ⟨sizeofBucket, rfl, rfl, fun m hm => getD_set_other _ _ _ _ _ hm⟩
  · rw [loadInto_valid_eof c k j record hk hj (by omega)]
    exact ⟨0, rfl, rfl, fun m hm => getD_set_other _ _ _ _ _ hm⟩

/-- A later read of an index that the store holds returns its record. -/
theorem read_of_holds (c : Cache) (n : Nat) (r record : MYRECORD_RECORD_t) (rnd : Nat)
    (hinv : Inv c) (h1 : n ≠ 0) (h2 : n < 67108864) (hh : Holds c n r) :
    ∃ c3, MYC_readEntry c (n : Int) record rnd = some (0, r, c3) := by
  obtain ⟨hv, hu⟩ := validIndex_of_id n h1 h2
  obtain ⟨rec1, c3, he, _, _, hr⟩ := MYC_readEntry_inv c (n : Int) record rnd hinv hv
  refine ⟨c3, ?_⟩
  rw [he, hr r (by rw [hu]; exact hh)]

/-- C4, counterexample. In the state reached by write(2^27+1, x), write(1, y)
and writes of 2..63 every entry is dirty and none has id 0. A write of the
index 64, not in the cache, with the entry of index 1 as victim returns 0, but
the read(1) that follows (victim: the entry of 2^27+1, whose byte offset wraps
around to slot 1) returns status 0 and `x`: the record `y` of the victim is
lost. -/
theorem C4_counterexample :
    runOk (MYC_initCache []) ([Op.write 134217729 (recordOf 7) 0] ++ writeRange 1 63)
      = some aliasState ∧
    recordOf 7 ≠ recordOf 1 ∧
    searchUnusedOrClean aliasState = none ∧
    searchRecord aliasState 64 = none ∧
    entryAt aliasState (searchAny aliasState 1) = ⟨recordOf 1, 1⟩ ∧
    (MYC_writeEntry aliasState 64 (recordOf 64) 1).1 = 0 ∧
    readResult (MYC_writeEntry aliasState 64 (recordOf 64) 1).2 1 0 = some (0, recordOf 7) :=
  ⟨aliasState_reached, by decide, by decide, by decide, by decide, by decide, by decide⟩

/-- C4, amended. Let the ids of the table be valid indices, each held by one
entry only, and every slot of the file hold zeros or a bucket with the number
of the slot. If all entries are dirty, none has id 0, and a write or a read
asks for a valid index `j` that no entry holds, then the call returns 0, the
only write to the file is that of the victim's bucket, still carrying its old
id, at the slot of that id, and a read of the victim's old index right after
the call returns status 0 and the victim's record. -/
theorem C4_forced_eviction (c : Cache) (hinv : Inv c)
    (hall : ∀ k, k < c.CacheEntries.length → (entryAt c k).id ≠ 0 ∧ dirtyAt c k = true)
    (j : Int) (hj : ValidIndex j)
    (hnr : ∀ k, k < c.CacheEntries.length → (entryAt c k).id ≠ toU32 j)
    (r record : MYRECORD_RECORD_t) (rnd : Nat) :
    ((MYC_writeEntry c j r rnd).1 = 0 ∧
      (MYC_writeEntry c j r rnd).2.log = c.log ++
        [SysCall.lseek (32 * ((entryAt c (searchAny c rnd)).id : Int)),
          SysCall.write (entryAt c (searchAny c rnd)).id (entryAt c (searchAny c rnd))] ∧
      (MYC_writeEntry c j r rnd).2.dbFile =
        fileWrite c.dbFile (entryAt c (searchAny c rnd)).id (entryAt c (searchAny c rnd)) ∧
      (MYC_writeEntry c j r rnd).2.CacheEntries =
        c.CacheEntries.set (searchAny c rnd) ⟨r, toU32 j⟩ ∧
      ∀ record2 rnd2, ∃ c3,
        MYC_readEntry (MYC_writeEntry c j r rnd).2 ((entryAt c (searchAny c rnd)).id : Int)
          record2 rnd2 = some (0, (entryAt c (searchAny c rnd)).record, c3)) ∧
    (∃ rec1 c1 nbytes, MYC_readEntry c j record rnd = some (0, rec1, c1) ∧
      c1.log = c.log ++
        [SysCall.lseek (32 * ((entryAt c (searchAny c rnd)).id : Int)),
          SysCall.write (entryAt c (searchAny c rnd)).id (entryAt c (searchAny c rnd)),
          SysCall.lseek (32 * ((toU32 j : Nat) : Int)), SysCall.read (toU32 j) nbytes] ∧
      c1.dbFile =
        fileWrite c.dbFile (entryAt c (searchAny c rnd)).id (entryAt c (searchAny c rnd)) ∧
      (∀ m, m ≠ searchAny c rnd → entryAt c1 m = entryAt c m) ∧
      ∀ record2 rnd2, ∃ c3,
        MYC_readEntry c1 ((entryAt c (searchAny c rnd)).id : Int) record2 rnd2
          = some (0, (entryAt c (searchAny c rnd)).record, c3)) := by
  have hv := searchAny_lt c rnd hinv.2.1
  have hvall := hall _ hv
  have hid := hinv.2.2.1 _ hv
  have hs := searchRecord_none_of c j hnr
  have hu := (searchUnusedOrClean_none_iff c).2 hall
  have hhold := holds_dirty_entry c _ hinv hv hvall.1 hvall.2
  have hw := writeEntry_valid c (searchAny c rnd) hid
  have hne : (entryAt c (searchAny c rnd)).id ≠ toU32 j := hnr _ hv
  constructor
  · obtain ⟨a1, a2, a3, _⟩ := MYC_writeEntry_inv c j r rnd hinv hj
    have he : MYC_writeEntry c j r rnd =
        (0, storeInto (writeEntry c (searchAny c rnd)).2 (searchAny c rnd) j r) := by
      unfold MYC_writeEntry
      rw [hs]
      simp only []
      rw [hu]
      simp only [storeInto_setId]
      rw [if_neg (by rw [(inv_writeEntry c _ hinv hv).2.1]; decide)]
    have hh2 := a3 _ _ hhold hne (by omega)
    refine ⟨a1, ?_, ?_, ?_, ?_⟩
    · rw [he, hw]; rfl
    · rw [he, hw]; rfl
    · rw [he, hw]; rfl
    · intro record2 rnd2
      exact read_of_holds _ _ _ record2 rnd2 a2 hvall.1 hid hh2
  · obtain ⟨hi0, _, he0, hd0, _, hf0⟩ := inv_writeEntry c (searchAny c rnd) hinv hv
    have hfl := MYC_flushEntry_victim c (searchAny c rnd) hinv hv hvall.1 hvall.2
    have he2 : MYC_readEntry c j record rnd =
        some (loadInto (writeEntry c (searchAny c rnd)).2 (searchAny c rnd) j record) := by
      unfold MYC_readEntry
      rw [hs]
      simp only []
      rw [hu]
      simp only []
      rw [hfl]
      simp only []
      rw [if_neg (by decide)]
    have hk1 : searchAny c rnd < (writeEntry c (searchAny c rnd)).2.CacheEntries.length := by
      rw [he0]; exact hv
    have hnr0 : ∀ m, m < (writeEntry c (searchAny c rnd)).2.CacheEntries.length →
        (entryAt (writeEntry c (searchAny c rnd)).2 m).id ≠ toU32 j := by
      intro m hm
      rw [entryAt_writeEntry]
      rw [he0] at hm
      exact hnr m hm
    obtain ⟨a1, a2, a3, _⟩ := loadInto_inv_holds _ _ j record hi0 hk1 hj hnr0 (Or.inr hd0)
    obtain ⟨nbytes, f1, f2, f3⟩ := loadInto_fields (writeEntry c (searchAny c rnd)).2
      (searchAny c rnd) j record hk1 hj
    have hh2 := a3 _ _ (holds_writeEntry c _ _ _ hinv hv hhold) hne (by omega)
    refine ⟨_, _, nbytes, he2.trans (congrArg some (prod_eta3 _ 0 a1)), ?_, ?_, ?_,
      fun record2 rnd2 => read_of_holds _ _ _ record2 rnd2 a2 hvall.1 hid hh2⟩
    · rw [f1, hw]; simp
    · rw [f2, hf0]
    · intro m hm
      rw [f3 m hm, entryAt_writeEntry]

/-- The state `allDirtyState` is reached from a fresh cache over an empty file
by the successful calls write(1, .), ..., write(64, .). -/
theorem allDirtyState_reached :
    runOk (MYC_initCache []) (writeRange 1 64) = some allDirtyState := by
  decide!

theorem inv_allDirtyState : Inv allDirtyState :=
  runAll_inv (writeRange 1 64) (MYC_initCache []) allDirtyState (inv_init [] fileOK_nil)
    (by decide) (runOk_runAll _ _ _ allDirtyState_reached)

theorem allDirtyState_all : ∀ k, k < allDirtyState.CacheEntries.length →
    (entryAt allDirtyState k).id ≠ 0 ∧ dirtyAt allDirtyState k = true := by
  decide

theorem allDirtyState_not_100 : ∀ k, k < allDirtyState.CacheEntries.length →
    (entryAt allDirtyState k).id ≠ toU32 100 := by
  decide

/-- C4, witness: a write and a read of index 100 after writes of 1..64 on a
fresh cache, with the entry at position 3 as victim. -/
theorem C4_forced_eviction_witness :
    Inv allDirtyState ∧
    (∀ k, k < allDirtyState.CacheEntries.length →
      (entryAt allDirtyState k).id ≠ 0 ∧ dirtyAt allDirtyState k = true) ∧
    ValidIndex 100 ∧
    (∀ k, k < allDirtyState.CacheEntries.length → (entryAt allDirtyState k).id ≠ toU32 100) ∧
    (MYC_writeEntry allDirtyState 100 (recordOf 100) 3).1 = 0 :=
  ⟨inv_allDirtyState, allDirtyState_all, by decide, allDirtyState_not_100,
    (C4_forced_eviction allDirtyState inv_allDirtyState allDirtyState_all 100 (by decide)
      allDirtyState_not_100 (recordOf 100) zeroRecord 3).1.1⟩

theorem entryAt_readEntry_other (c : Cache) (k m : Nat) (hm : m ≠ k) :
    entryAt (readEntry c k).2 m = entryAt c m := by
  by_cases h : byteOffset (entryAt c k).id < 0
  · rw [readEntry_fail c k h]; rfl
  · by_cases hin : slotAt (byteOffset (entryAt c k).id) < c.dbFile.length
    · rw [readEntry_in c k (by omega) hin]
      exact getD_set_other _ _ _ _ _ hm
    · rw [readEntry_eof c k (by omega) (by omega)]; rfl

theorem some_triple {α β γ : Type} (x : α × β × γ) : some x = some (x.1, x.2.1, x.2.2) := by
  obtain ⟨a, b, c⟩ := x
  rfl

/-- A load that returns 0 yields the record of the chosen position and changes
no other position of the table. -/
theorem loadInto_uses (c : Cache) (k : Nat) (i : Int) (record : MYRECORD_RECORD_t)
    (h : (loadInto c k i record).1 = 0) :
    (loadInto c k i record).2.1 = (entryAt (loadInto c k i record).2.2 k).record ∧
      ∀ m, m ≠ k → entryAt (loadInto c k i record).2.2 m = entryAt c m := by
  have hoth : ∀ m, m ≠ k → entryAt (readEntry (setId c k i) k).2 m = entryAt c m := by
    intro m hm
    rw [entryAt_readEntry_other _ k m hm, entryAt_setId_other c k m i hm]
  unfold loadInto at h ⊢
  generalize readEntry (setId c k i) k = x at h hoth ⊢
  obtain ⟨st, c1⟩ := x
  by_cases hs : st = -1
  · subst hs
    simp at h
  · simp only [hs, if_false]
    exact ⟨trivial, hoth⟩

/-- The flush of the id of a position of the table is defined and keeps the table. -/
theorem MYC_flushEntry_defined (c : Cache) (v : Nat) (hwf : WF c)
    (hv : v < c.CacheEntries.length) :
    ∃ st c1, MYC_flushEntry c (toI32 (entryAt c v).id) = some (st, c1) ∧
      c1.CacheEntries = c.CacheEntries := by
  have hu : toU32 (toI32 (entryAt c v).id) = (entryAt c v).id :=
    toU32_toI32 _ (hwf.2.2 v hv)
  cases hs : searchRecord c (toI32 (entryAt c v).id) with
  | none =>
    have := (searchRecord_none_iff c _).1 hs v hv
    rw [hu] at this
    exact absurd rfl this
  | some k =>
    unfold MYC_flushEntry
    rw [hs]
    simp only []
    by_cases hd : dirtyAt c k = true
    · rw [if_pos hd]
      by_cases hst : (writeEntry c k).1 = -1
      · rw [if_pos hst]
        exact ⟨_, _, rfl, writeEntry_entries c k⟩
      · rw [if_neg hst]
        exact ⟨_, _, rfl, writeEntry_entries c k⟩
    · rw [if_neg hd]
      exact ⟨_, _, rfl, rfl⟩

/-- A store changes the chosen position only. -/
theorem storeInto_uses (c0 c : Cache) (k : Nat) (i : Int) (r : MYRECORD_RECORD_t)
    (he : c0.CacheEntries = c.CacheEntries) (hk : k < c.CacheEntries.length)
    (hd : k < c0.CacheDirty.length) :
    entryAt (storeInto c0 k i r) k = ⟨r, toU32 i⟩ ∧ dirtyAt (storeInto c0 k i r) k = true ∧
      ∀ m, m ≠ k → entryAt (storeInto c0 k i r) m = entryAt c m := by
  refine ⟨entryAt_storeInto_self c0 k i r (by rw [he]; exact hk),
    dirtyAt_storeInto_self c0 k i r hd, fun m hm => ?_⟩
  rw [entryAt_storeInto_other c0 k m i r hm]
  simp only [entryAt, he]

theorem writeEntry_dirty_length (c : Cache) (k : Nat) :
    (writeEntry c k).2.CacheDirty.length = c.CacheDirty.length := by
  by_cases h : byteOffset (entryAt c k).id < 0
  · rw [writeEntry_fail c k h]
  · rw [writeEntry_ok c k (by omega)]; simp

/-- C6, counterexample. From a fresh cache over an empty file the successful
calls write(2^27+1, x), flushAll(), read(1) leave two entries with the id
2^27+1: the flush stores the bucket at slot 1 (the byte offset wraps around)
and the load of slot 1 adopts the id stored there. -/
theorem C6_counterexample :
    (runOk (MYC_initCache []) [Op.write 134217729 (recordOf 7) 0, Op.flushAll, Op.read 1 0]).map
      (fun c => ((entryAt c 0).id, (entryAt c 1).id)) = some (134217729, 134217729) := by
  decide

/-- C6, amended. Uniqueness invariant: in every state reached from
`MYC_initCache`, over a file in which every slot holds zeros or a bucket with
the number of the slot, through any sequence of `MYC_readEntry`,
`MYC_writeEntry`, `MYC_flushEntry` and `MYC_flushAll` calls that pass valid
indices, at most one entry of the table holds any given non-zero id. -/
theorem C6_unique_ids (file : List MYBUCKET_BUCKET_t) (hf : FileOK file) (ops : List Op)
    (hops : ∀ op, op ∈ ops → ValidOp op) (c : Cache)
    (h : runAll (MYC_initCache file) ops = some c) : UniqueIds c :=
  (runAll_inv ops _ c (inv_init file hf) hops h).2.2.2.1

/-- C6, witness: a write, a flush, a read and a flush of everything on a fresh
cache over an empty file. -/
theorem C6_unique_ids_witness :
    FileOK [] ∧
    (∀ op, op ∈ [Op.write 3 (recordOf 3) 0, Op.flush 3, Op.read 4 0, Op.flushAll] →
      ValidOp op) ∧
    runAll (MYC_initCache []) [Op.write 3 (recordOf 3) 0, Op.flush 3, Op.read 4 0, Op.flushAll]
      = some (stateAfter (MYC_initCache [])
          [Op.write 3 (recordOf 3) 0, Op.flush 3, Op.read 4 0, Op.flushAll]) ∧
    UniqueIds (stateAfter (MYC_initCache [])
      [Op.write 3 (recordOf 3) 0, Op.flush 3, Op.read 4 0, Op.flushAll]) :=
  ⟨fileOK_nil, by decide, by decide,
    C6_unique_ids [] fileOK_nil [Op.write 3 (recordOf 3) 0, Op.flush 3, Op.read 4 0, Op.flushAll]
      (by decide) _ (by decide)⟩

/-- C7, failing input. From a fresh cache over an empty file the successful
calls write(1, .), ..., write(64, .), flushAll(), read(100) leave position 0
with id 100 and a false dirty flag, holding the record of index 1, while the
file has 65 slots and stores nothing at slot 100: the read past the end of the
file moved no byte and `readEntry` took it for a successful load. -/
theorem C7_clean_entry_not_in_file :
    recordOf 1 ≠ zeroRecord ∧
    (runOk (MYC_initCache []) (writeRange 1 64 ++ [Op.flushAll, Op.read 100 0])).map
      (fun c => (entryAt c 0, dirtyAt c 0, c.dbFile[100]?, c.dbFile.length))
      = some (⟨recordOf 1, 100⟩, false, none, 65) := by
  rw [runOk_append, allDirtyState_reached]
  decide!

theorem searchRecord_of_resident (c : Cache) (i : Int)
    (h : ∃ m, m < c.CacheEntries.length ∧ (entryAt c m).id = toU32 i) :
    ∃ k, searchRecord c i = some k := by
  cases hs : searchRecord c i with
  | some k => exact ⟨k, rfl⟩
  | none =>
    obtain ⟨m, hm, hmi⟩ := h
    exact absurd hmi ((searchRecord_none_iff c i).1 hs m hm)

/-- C8. Exact-match priority: when some entry holds the index `i` (a non-zero
one in particular), whatever the dirty flags, `MYC_readEntry(i)` returns 0
with the record of the first entry holding `i` and leaves the whole state,
log of system calls included, as it is; `MYC_writeEntry(i, r)` returns 0,
issues no system call, leaves the file as it is, stores `r` in that entry,
and changes no other entry and no other dirty flag. -/
theorem C8_exact_match_no_io (c : Cache) (i : Int) (r record : MYRECORD_RECORD_t) (rnd : Nat)
    (hres : ∃ m, m < c.CacheEntries.length ∧ (entryAt c m).id = toU32 i) :
    ∃ k, k < c.CacheEntries.length ∧ (entryAt c k).id = toU32 i ∧
      MYC_readEntry c i record rnd = some (0, (entryAt c k).record, c) ∧
      (MYC_writeEntry c i r rnd).1 = 0 ∧
      (MYC_writeEntry c i r rnd).2.log = c.log ∧
      (MYC_writeEntry c i r rnd).2.dbFile = c.dbFile ∧
      entryAt (MYC_writeEntry c i r rnd).2 k = ⟨r, toU32 i⟩ ∧
      ∀ m, m ≠ k → entryAt (MYC_writeEntry c i r rnd).2 m = entryAt c m ∧
        dirtyAt (MYC_writeEntry c i r rnd).2 m = dirtyAt c m := by
  obtain ⟨k, hs⟩ := searchRecord_of_resident c i hres
  have h := (searchRecord_some_iff c i k).1 hs
  have hw : MYC_writeEntry c i r rnd = (0, storeInto c k i r) := by
    simp only [MYC_writeEntry, hs]
  have hr : MYC_readEntry c i record rnd = some (0, (entryAt c k).record, c) := by
    simp only [MYC_readEntry, hs]
  refine ⟨k, h.1, h.2.1, hr, by rw [hw], by rw [hw]; rfl, by rw [hw]; rfl, ?_, ?_⟩
  · rw [hw]; exact entryAt_storeInto_self c k i r h.1
  · intro m hm
    rw [hw]
    exact ⟨entryAt_storeInto_other c k m i r hm, dirtyAt_storeInto_other c k m i r hm⟩

/-- C8, witness: index 3 in the cache after a write of 3 on a fresh cache. -/
theorem C8_exact_match_no_io_witness :
    (∃ m, m < (stateAfter (MYC_initCache []) [Op.write 3 (recordOf 3) 0]).CacheEntries.length ∧
      (entryAt (stateAfter (MYC_initCache []) [Op.write 3 (recordOf 3) 0]) m).id = toU32 3) ∧
    ∃ k, MYC_readEntry (stateAfter (MYC_initCache []) [Op.write 3 (recordOf 3) 0]) 3 zeroRecord 0
      = some (0, (entryAt (stateAfter (MYC_initCache []) [Op.write 3 (recordOf 3) 0]) k).record,
          stateAfter (MYC_initCache []) [Op.write 3 (recordOf 3) 0]) :=
  ⟨⟨0, by decide, by decide⟩,
    match C8_exact_match_no_io (stateAfter (MYC_initCache []) [Op.write 3 (recordOf 3) 0]) 3
      (recordOf 4) zeroRecord 0 ⟨0, by decide, by decide⟩ with
    | ⟨k, _, _, hr, _⟩ => ⟨k, hr⟩⟩

/-- When every id of the table is a valid index or 0, no other id has the byte
offset of a given slot. -/
theorem noAlias_of_idsValid (c : Cache) (n : Nat) (h : IdsValid c) : NoAlias c n := by
  intro k hk hne
  rw [byteOffset_valid _ (h k hk), slotAt_valid]
  exact hne

/-- C9, counterexample. In the state reached from a fresh cache by
write(2^27+1, x), writes of 1..63 and a write of 64 (victim: the entry of 1),
slot 1 of the file holds the bucket of index 1. The write of the valid index 1
that follows returns 0 with the entry of 2^27+1 as victim, and slot 1 then
holds the bucket of 2^27+1. -/
theorem C9_counterexample :
    runOk (MYC_initCache [])
      (([Op.write 134217729 (recordOf 7) 0] ++ writeRange 1 63) ++ [Op.write 64 (recordOf 64) 1])
      = some aliasState2 ∧
    ValidIndex 1 ∧
    (MYC_writeEntry aliasState2 1 (recordOf 9) 0).1 = 0 ∧
    aliasState2.dbFile[1]? = some ⟨recordOf 1, 1⟩ ∧
    (MYC_writeEntry aliasState2 1 (recordOf 9) 0).2.dbFile[1]?
      = some ⟨recordOf 7, 134217729⟩ := by
  refine ⟨?_, by decide, by decide, by decide, by decide⟩
  rw [runOk_append, aliasState_reached]
  decide

/-- C9, amended. Write-back: in every well-formed state in which no entry
holding another id has the 32-bit byte offset of slot `i` (as is the case when
all ids of the table are valid indices or 0), for every index `i`, a valid one
in particular, and record `r`: after `MYC_writeEntry(i, r)` returns 0 the
first entry holding `i` contains `r` and is marked dirty, and slot `i` of the
file holds what it held before the call, or lay at or after the end of the
file and is now part of the zero-filled hole left by the flush of the victim. -/
theorem C9_write_back (c c1 : Cache) (hwf : WF c) (i : Int) (r : MYRECORD_RECORD_t)
    (rnd : Nat) (hna : NoAlias c (toU32 i)) (hw : MYC_writeEntry c i r rnd = (0, c1)) :
    ∃ k, searchRecord c1 i = some k ∧ entryAt c1 k = ⟨r, toU32 i⟩ ∧ dirtyAt c1 k = true ∧
      (c1.dbFile[toU32 i]? = c.dbFile[toU32 i]? ∨
        (c.dbFile.length ≤ toU32 i ∧ c1.dbFile[toU32 i]? = some zeroBucket)) := by
  cases hs : searchRecord c i with
  | some k =>
    have h := (searchRecord_some_iff c i k).1 hs
    simp only [MYC_writeEntry, hs, Prod.mk.injEq, true_and] at hw
    subst hw
    obtain ⟨u1, u2, _⟩ := storeInto_uses c c k i r rfl h.1 (by rw [hwf.1]; exact h.1)
    exact ⟨k, searchRecord_storeInto c k i r h.1 h.2.2, u1, u2, Or.inl rfl⟩
  | none =>
    have hnone := (searchRecord_none_iff c i).1 hs
    cases hu : searchUnusedOrClean c with
    | some k =>
      have hk := searchUnusedOrClean_lt c k hu
      simp only [MYC_writeEntry, hs, hu, storeInto_setId, Prod.mk.injEq, true_and] at hw
      subst hw
      obtain ⟨u1, u2, _⟩ := storeInto_uses c c k i r rfl hk (by rw [hwf.1]; exact hk)
      exact ⟨k, searchRecord_storeInto c k i r hk (fun m hm => hnone m (by omega)), u1, u2,
        Or.inl rfl⟩
    | none =>
      have hv := searchAny_lt c rnd hwf.2.1
      have hoff : ¬ byteOffset (entryAt c (searchAny c rnd)).id < 0 := by
        intro hneg
        have hst := writeEntry_status c (searchAny c rnd)
        rw [if_pos hneg] at hst
        simp only [MYC_writeEntry, hs, hu, hst, if_true, Prod.mk.injEq] at hw
        exact absurd hw.1 (by decide)
      have hst := writeEntry_status c (searchAny c rnd)
      rw [if_neg hoff] at hst
      have hne : (writeEntry c (searchAny c rnd)).1 ≠ -1 := by rw [hst]; decide
      simp only [MYC_writeEntry, hs, hu, storeInto_setId] at hw
      rw [if_neg hne] at hw
      simp only [Prod.mk.injEq, true_and] at hw
      subst hw
      have hok := writeEntry_ok c (searchAny c rnd) (by omega)
      obtain ⟨u1, u2, _⟩ := storeInto_uses (writeEntry c (searchAny c rnd)).2 c
        (searchAny c rnd) i r (writeEntry_entries c _) hv
        (by rw [writeEntry_dirty_length, hwf.1]; exact hv)
      refine ⟨searchAny c rnd, ?_, u1, u2, ?_⟩
      · refine searchRecord_storeInto _ _ i r (by rw [writeEntry_entries]; exact hv) ?_
        intro m hm
        rw [entryAt_writeEntry]
        exact hnone m (by omega)
      · have hfile : (storeInto (writeEntry c (searchAny c rnd)).2 (searchAny c rnd) i r).dbFile
            = fileWrite c.dbFile (slotAt (byteOffset (entryAt c (searchAny c rnd)).id))
                (entryAt c (searchAny c rnd)) := by
          rw [hok]; rfl
        rw [hfile]
        have hsl := hna _ hv (hnone _ hv)
        rcases fileWrite_get_other c.dbFile _ (toU32 i) (entryAt c (searchAny c rnd))
          (fun e => hsl e.symm) with h | ⟨h1, _, h3⟩
        · exact Or.inl h
        · exact Or.inr ⟨h1, h3⟩

/-- C9, witness: a write of index 100 in the state where all entries are
dirty, with the entry at position 3 as victim. -/
theorem C9_write_back_witness :
    WF allDirtyState ∧ NoAlias allDirtyState (toU32 100) ∧
    MYC_writeEntry allDirtyState 100 (recordOf 100) 3
      = (0, (MYC_writeEntry allDirtyState 100 (recordOf 100) 3).2) ∧
    ∃ k, searchRecord (MYC_writeEntry allDirtyState 100 (recordOf 100) 3).2 100 = some k ∧
      entryAt (MYC_writeEntry allDirtyState 100 (recordOf 100) 3).2 k
        = ⟨recordOf 100, toU32 100⟩ :=
  ⟨by decide, noAlias_of_idsValid _ _ inv_allDirtyState.2.2.1, by decide,
    match C9_write_back allDirtyState _ (by decide) 100 (recordOf 100) 3
      (noAlias_of_idsValid _ _ inv_allDirtyState.2.2.1) (by decide) with
    | ⟨k, h1, h2, _⟩ => ⟨k, h1, h2⟩⟩

/-- C10, counterexample. After the successful write(2^26, r) on a fresh cache
over an empty file the entry at position 0 holds the non-zero index 2^26 and
is dirty; `MYC_flushEntry(2^26)` returns -1, the entry stays dirty and the
file stays empty: the byte offset 2^26 * 32 does not fit `int`. -/
theorem C10_counterexample :
    (MYC_writeEntry (MYC_initCache []) 67108864 (recordOf 5) 0).1 = 0 ∧
    entryAt (MYC_writeEntry (MYC_initCache []) 67108864 (recordOf 5) 0).2 0
      = ⟨recordOf 5, 67108864⟩ ∧
    dirtyAt (MYC_writeEntry (MYC_initCache []) 67108864 (recordOf 5) 0).2 0 = true ∧
    (MYC_flushEntry (MYC_writeEntry (MYC_initCache []) 67108864 (recordOf 5) 0).2 67108864).map
      (fun x => (x.1, dirtyAt x.2 0, x.2.dbFile)) = some (-1, true, []) := by
  decide

/-- C10, amended. Flush of a dirty entry: when the first entry holding the
valid index `i` is dirty, `MYC_flushEntry(i)` returns 0; afterwards the file
stores that entry's bucket at slot `i` and the entry's dirty flag is false;
the table and every other dirty flag are unchanged; every other slot of the
file holds what it held before, or lay at or after the end of the file, below
slot `i`, and is now zero-filled; the only system calls are one `lseek` and
one `write`. -/
theorem C10_flush_dirty_entry (c : Cache) (i : Int) (hi : ValidIndex i) (k : Nat)
    (hk : k < c.CacheEntries.length) (hid : (entryAt c k).id = toU32 i)
    (hfirst : ∀ m, m < k → (entryAt c m).id ≠ toU32 i) (hd : dirtyAt c k = true) :
    ∃ c1, MYC_flushEntry c i = some (0, c1) ∧
      c1.dbFile[toU32 i]? = some (entryAt c k) ∧ dirtyAt c1 k = false ∧
      c1.CacheEntries = c.CacheEntries ∧
      (∀ m, m ≠ k → dirtyAt c1 m = dirtyAt c m) ∧
      (∀ s, s ≠ toU32 i → c1.dbFile[s]? = c.dbFile[s]? ∨
        (c.dbFile.length ≤ s ∧ s < toU32 i ∧ c1.dbFile[s]? = some zeroBucket)) ∧
      c1.log = c.log ++ [SysCall.lseek (32 * ((toU32 i : Nat) : Int)),
        SysCall.write (toU32 i) (entryAt c k)] := by
  have hv := toU32_of_valid i hi
  have hs : searchRecord c i = some k := (searchRecord_some_iff c i k).2 ⟨hk, hid, hfirst⟩
  have hw := writeEntry_valid c k (by rw [hid]; exact hv.2.1)
  rw [hid] at hw
  have hfl : MYC_flushEntry c i = some (0, (writeEntry c k).2) := by
    unfold MYC_flushEntry
    rw [hs]
    simp only []
    have hst : (writeEntry c k).1 = 0 := by rw [hw]
    rw [if_pos hd, if_neg (by rw [hst]; decide)]
  refine ⟨_, hfl, ?_, ?_, ?_, ?_, ?_, ?_⟩
  · rw [hw]; exact fileWrite_get_self _ _ _
  · rw [hw]
    simp only [dirtyAt]
    exact getD_set_self _ _ _ _ (dirtyAt_lt c k hd)
  · rw [hw]
  · intro m hm
    rw [hw]
    simp only [dirtyAt]
    exact getD_set_other _ _ _ _ _ hm
  · intro s hs2
    rw [hw]
    exact fileWrite_get_other _ _ _ _ hs2
  · rw [hw]

/-- C10, witness: flush of index 3 after a write of 3 on a fresh cache over an
empty file. -/
theorem C10_flush_dirty_entry_witness :
    ValidIndex 3 ∧
    entryAt (stateAfter (MYC_initCache []) [Op.write 3 (recordOf 3) 0]) 0
      = ⟨recordOf 3, toU32 3⟩ ∧
    dirtyAt (stateAfter (MYC_initCache []) [Op.write 3 (recordOf 3) 0]) 0 = true ∧
    ∃ c1, MYC_flushEntry (stateAfter (MYC_initCache []) [Op.write 3 (recordOf 3) 0]) 3
        = some (0, c1) ∧
      c1.dbFile[toU32 3]? = some ⟨recordOf 3, toU32 3⟩ :=
  ⟨by decide, by decide, by decide,
    match C10_flush_dirty_entry (stateAfter (MYC_initCache []) [Op.write 3 (recordOf 3) 0]) 3
      (by decide) 0 (by decide) (by decide) (by intro m hm; omega) (by decide) with
    | ⟨c1, h1, h2, _⟩ => ⟨c1, h1, by rw [h2]; decide⟩⟩

/-- When the first entry holding the index is clean, `MYC_flushEntry` returns 0
and changes nothing. -/
theorem MYC_flushEntry_clean (c : Cache) (i : Int) (k : Nat) (hs : searchRecord c i = some k)
    (hd : dirtyAt c k = false) : MYC_flushEntry c i = some (0, c) := by
  unfold MYC_flushEntry
  rw [hs]
  simp only [hd, Bool.false_eq_true, if_false]

/-- When no entry holds the index, `MYC_flushEntry` is undefined. -/
theorem MYC_flushEntry_not_resident (c : Cache) (i : Int) (hs : searchRecord c i = none) :
    MYC_flushEntry c i = none := by
  unfold MYC_flushEntry
  rw [hs]

/-- C11, failing input. On a fresh cache over an empty file no entry holds the
index 5, dirty or not: `searchRecord` returns -1 and `MYC_flushEntry(5)` reads
`CacheDirty[-1]`, outside the table, so the call has no defined result. -/
theorem C11_flush_not_resident_undefined :
    searchRecord (MYC_initCache []) 5 = none ∧ MYC_flushEntry (MYC_initCache []) 5 = none := by
  decide

/-- Effect of `writeEntry` on a position whose id is a valid index or 0. -/
theorem writeEntry_facts (c : Cache) (k : Nat) (hid : (entryAt c k).id < 67108864) :
    (writeEntry c k).1 = 0 ∧
      (writeEntry c k).2.CacheEntries = c.CacheEntries ∧
      (writeEntry c k).2.CacheDirty.length = c.CacheDirty.length ∧
      (k < c.CacheDirty.length → dirtyAt (writeEntry c k).2 k = false) ∧
      (∀ j, j ≠ k → dirtyAt (writeEntry c k).2 j = dirtyAt c j) ∧
      (writeEntry c k).2.dbFile = fileWrite c.dbFile (entryAt c k).id (entryAt c k) := by
  rw [writeEntry_valid c k hid]
  refine ⟨rfl, rfl, by simp, ?_, ?_, rfl⟩
  · intro hk
    simp only [dirtyAt]
    exact getD_set_self _ _ _ _ hk
  · intro j hjk
    simp only [dirtyAt]
    exact getD_set_other _ _ _ _ _ hjk

theorem idsValid_congr (c c1 : Cache) (h : c1.CacheEntries = c.CacheEntries) (hv : IdsValid c) :
    IdsValid c1 := by
  intro k hk
  simp only [entryAt, h] at hk ⊢
  exact hv k hk

theorem uniqueIds_congr (c c1 : Cache) (h : c1.CacheEntries = c.CacheEntries)
    (hu : UniqueIds c) : UniqueIds c1 := by
  intro j hj k hk
  simp only [entryAt, h]
  rw [h] at hj hk
  exact hu j hj k hk

/-- The loop of `MYC_flushAll` on a table of distinct valid ids: it returns 0,
keeps the table, clears the flags it visits, stores every dirty bucket it
visits at the slot of its id, and leaves every other slot as it was or in the
zero-filled hole of a grown file. -/
theorem flushAllLoop_file (n : Nat) : ∀ (p : Nat) (c : Cache),
    c.CacheDirty.length = c.CacheEntries.length → IdsValid c → UniqueIds c →
    (flushAllLoop n p c).1 = 0 ∧
      (flushAllLoop n p c).2.CacheEntries = c.CacheEntries ∧
      (∀ m, p ≤ m → m < p + n → dirtyAt (flushAllLoop n p c).2 m = false) ∧
      (∀ m, m < p → dirtyAt (flushAllLoop n p c).2 m = dirtyAt c m) ∧
      (∀ k, p ≤ k → k < p + n → dirtyAt c k = true → (entryAt c k).id ≠ 0 →
        (flushAllLoop n p c).2.dbFile[(entryAt c k).id]? = some (entryAt c k)) ∧
      (∀ s, (∀ k, p ≤ k → k < p + n → dirtyAt c k = true → (entryAt c k).id ≠ s) →
        (flushAllLoop n p c).2.dbFile[s]? = c.dbFile[s]? ∨
          (c.dbFile.length ≤ s ∧ (flushAllLoop n p c).2.dbFile[s]? = some zeroBucket)) := by
  induction n with
  | zero =>
    intro p c _ _ _
    exact ⟨rfl, rfl, fun m h1 h2 => by omega, fun _ _ => rfl, fun k h1 h2 => by omega,
      fun _ _ => Or.inl rfl⟩
  | succ n ih =>
    intro p c hlen hids huniq
    unfold flushAllLoop
    by_cases hd : dirtyAt c p = true
    · have hpd := dirtyAt_lt c p hd
      have hp : p < c.CacheEntries.length := by rw [← hlen]; exact hpd
      obtain ⟨hst, he, hdl, hdp, hdo, hf⟩ := writeEntry_facts c p (hids p hp)
      have hea : ∀ m, entryAt (writeEntry c p).2 m = entryAt c m := entryAt_writeEntry c p
      simp only [hd, if_true, hst]
      rw [if_neg (by decide)]
      obtain ⟨b1, b2, b3, b4, b5, b6⟩ := ih (p + 1) (writeEntry c p).2 (by rw [hdl, he, hlen])
        (idsValid_congr c _ he hids) (uniqueIds_congr c _ he huniq)
      refine ⟨b1, by rw [b2, he], ?_, ?_, ?_, ?_⟩
      · intro m h1 h2
        by_cases hmp : m = p
        · subst hmp
          rw [b4 m (by omega)]; exact hdp hpd
        · exact b3 m (by omega) (by omega)
      · intro m hm
        rw [b4 m (by omega)]
        exact hdo m (by omega)
      · intro k h1 h2 hkd hk0
        by_cases hkp : k = p
        · subst hkp
          have hnot : ∀ m, k + 1 ≤ m → m < k + 1 + n → dirtyAt (writeEntry c k).2 m = true →
              (entryAt (writeEntry c k).2 m).id ≠ (entryAt c k).id := by
            intro m hm1 hm2 _ e
            rw [hea] at e
            by_cases hmN : m < c.CacheEntries.length
            · have := huniq m hmN k hp e (by rw [e]; exact hk0)
              omega
            · have hz : entryAt c m = zeroBucket := by
                simp [entryAt, List.getD_eq_getElem?_getD,
                  List.getElem?_eq_none (Nat.le_of_not_lt hmN)]
              rw [hz] at e
              exact hk0 e.symm
          have hself : (writeEntry c k).2.dbFile[(entryAt c k).id]? = some (entryAt c k) := by
            rw [hf]; exact fileWrite_get_self _ _ _
          rcases b6 _ hnot with h | ⟨h, _⟩
          · rw [h, hself]
          · rw [List.getElem?_eq_none h] at hself
            cases hself
        · have := b5 k (by omega) (by omega) (by rw [hdo k hkp]; exact hkd)
            (by rw [hea]; exact hk0)
          rw [hea] at this
          exact this
      · intro s hs
        have hsp : s ≠ (entryAt c p).id := fun e => hs p (le_refl _) (by omega) hd e.symm
        have hrest : ∀ k, p + 1 ≤ k → k < p + 1 + n → dirtyAt (writeEntry c p).2 k = true →
            (entryAt (writeEntry c p).2 k).id ≠ s := by
          intro k hk1 hk2 hkd
          rw [hea]
          rw [hdo k (by omega)] at hkd
          exact hs k (by omega) (by omega) hkd
        have hlen1 : c.dbFile.length ≤ (writeEntry c p).2.dbFile.length := by
          rw [hf, length_fileWrite]; omega
        have h0 := fileWrite_get_other c.dbFile (entryAt c p).id s (entryAt c p) hsp
        rw [← hf] at h0
        rcases b6 s hrest with h | ⟨h1, h2⟩
        · rcases h0 with g | ⟨g1, _, g3⟩
          · exact Or.inl (by rw [h, g])
          · exact Or.inr ⟨g1, by rw [h, g3]⟩
        · rcases h0 with g | ⟨g1, _, _⟩
          · exact Or.inr ⟨by omega, h2⟩
          · exact Or.inr ⟨g1, h2⟩
    · have hd0 : dirtyAt c p = false := by simpa using hd
      simp only [hd0, Bool.false_eq_true, if_false]
      obtain ⟨b1, b2, b3, b4, b5, b6⟩ := ih (p + 1) c hlen hids huniq
      refine ⟨b1, b2, ?_, fun m hm => b4 m (by omega), ?_, ?_⟩
      · intro m h1 h2
        by_cases hmp : m = p
        · subst hmp
          rw [b4 m (by omega)]; exact hd0
        · exact b3 m (by omega) (by omega)
      · intro k h1 h2 hkd hk0
        have hkp : k ≠ p := by
          rintro rfl
          rw [hd0] at hkd; cases hkd
        exact b5 k (by omega) (by omega) hkd hk0
      · intro s hs
        exact b6 s (fun k hk1 hk2 hkd => hs k (by omega) (by omega) hkd)

/-- C12, counterexample. In the state reached from a fresh cache by write(1, r)
and write(2^27+1, x) both entries are dirty; `MYC_flushAll` returns 0 and
clears the flags, but slot 1 of the file, the slot given by the id of the
first entry, then holds the bucket of 2^27+1, written after it at the same
byte offset, and not the first entry. -/
theorem C12_counterexample :
    runOk (MYC_initCache []) [Op.write 1 (recordOf 1) 0, Op.write 134217729 (recordOf 7) 0]
      = some (stateAfter (MYC_initCache [])
          [Op.write 1 (recordOf 1) 0, Op.write 134217729 (recordOf 7) 0]) ∧
    dirtyAt (stateAfter (MYC_initCache [])
      [Op.write 1 (recordOf 1) 0, Op.write 134217729 (recordOf 7) 0]) 0 = true ∧
    entryAt (stateAfter (MYC_initCache [])
      [Op.write 1 (recordOf 1) 0, Op.write 134217729 (recordOf 7) 0]) 0 = ⟨recordOf 1, 1⟩ ∧
    (MYC_flushAll (stateAfter (MYC_initCache [])
      [Op.write 1 (recordOf 1) 0, Op.write 134217729 (recordOf 7) 0])).1 = 0 ∧
    (MYC_flushAll (stateAfter (MYC_initCache [])
      [Op.write 1 (recordOf 1) 0, Op.write 134217729 (recordOf 7) 0])).2.dbFile[1]?
      = some ⟨recordOf 7, 134217729⟩ := by
  decide

/-- C12, amended. When the ids of the table are valid indices or 0 and no
non-zero id occurs twice, `MYC_flushAll` returns 0; afterwards every dirty flag
is false, the ids and payloads of the table are unchanged, every entry with a
non-zero id that was dirty is stored in the file at the slot given by its id,
and every slot that is not the id of an entry that was dirty (the slots of the
clean entries among them) holds what it held before, or lay at or after the
end of the file and is now zero-filled. -/
theorem C12_flushAll_synchronises (c : Cache)
    (hlen : c.CacheDirty.length = c.CacheEntries.length) (hids : IdsValid c)
    (huniq : UniqueIds c) :
    (MYC_flushAll c).1 = 0 ∧
      (∀ m, m < c.CacheEntries.length → dirtyAt (MYC_flushAll c).2 m = false) ∧
      (MYC_flushAll c).2.CacheEntries = c.CacheEntries ∧
      (∀ k, k < c.CacheEntries.length → dirtyAt c k = true → (entryAt c k).id ≠ 0 →
        (MYC_flushAll c).2.dbFile[(entryAt c k).id]? = some (entryAt c k)) ∧
      (∀ s, (∀ k, k < c.CacheEntries.length → dirtyAt c k = true → (entryAt c k).id ≠ s) →
        (MYC_flushAll c).2.dbFile[s]? = c.dbFile[s]? ∨
          (c.dbFile.length ≤ s ∧ (MYC_flushAll c).2.dbFile[s]? = some zeroBucket)) := by
  obtain ⟨b1, b2, b3, _, b5, b6⟩ := flushAllLoop_file c.CacheEntries.length 0 c hlen hids huniq
  refine ⟨b1, fun m hm => b3 m (Nat.zero_le _) (by omega), b2,
    fun k hk => b5 k (Nat.zero_le _) (by omega), fun s hs => b6 s (fun k _ hk => hs k (by omega))⟩

/-- C12, witness: the state where all 64 entries are dirty, over an empty file. -/
theorem C12_flushAll_synchronises_witness :
    allDirtyState.CacheDirty.length = allDirtyState.CacheEntries.length ∧
    IdsValid allDirtyState ∧ UniqueIds allDirtyState ∧
    (MYC_flushAll allDirtyState).1 = 0 ∧
    (MYC_flushAll allDirtyState).2.CacheEntries = allDirtyState.CacheEntries :=
  ⟨inv_allDirtyState.1, inv_allDirtyState.2.2.1, inv_allDirtyState.2.2.2.1,
    (C12_flushAll_synchronises allDirtyState inv_allDirtyState.1 inv_allDirtyState.2.2.1
      inv_allDirtyState.2.2.2.1).1,
    (C12_flushAll_synchronises allDirtyState inv_allDirtyState.1 inv_allDirtyState.2.2.1
      inv_allDirtyState.2.2.2.1).2.2.1⟩

/-- C13, failing input. After the successful write(2^26, r) on a fresh cache
over an empty file, the `MYC_flushAll` made by `MYC_closeCache` fails on the
dirty entry (status -1: the byte offset 2^26 * 32 does not fit `int`), yet
`MYC_closeCache`, with `close` succeeding, returns 0 and the file is still
empty. -/
theorem C13_close_drops_flush_failure :
    (MYC_writeEntry (MYC_initCache []) 67108864 (recordOf 5) 0).1 = 0 ∧
    (MYC_flushAll (MYC_writeEntry (MYC_initCache []) 67108864 (recordOf 5) 0).2).1 = -1 ∧
    (MYC_closeCache (MYC_writeEntry (MYC_initCache []) 67108864 (recordOf 5) 0).2 0).1 = 0 ∧
    (MYC_closeCache (MYC_writeEntry (MYC_initCache []) 67108864 (recordOf 5) 0).2 0).2.dbFile
      = [] := by
  decide

/-- C14, failing input. In the state reached from a fresh cache by writes of
1..64, `MYC_readEntry(2^26)` with the entry at position 3 (index 4) as victim
returns -1 (the seek fails) and leaves the caller's record as it was, but the
entry at position 3 now has the id 2^26 over the payload of index 4; the
`MYC_readEntry(2^26)` that follows finds the index in the cache and returns
status 0 with the record of index 4. -/
theorem C14_failed_read_commits_id :
    runOk (MYC_initCache []) (writeRange 1 64) = some allDirtyState ∧
    entryAt allDirtyState 3 = ⟨recordOf 4, 4⟩ ∧
    searchRecord allDirtyState 67108864 = none ∧
    (MYC_readEntry allDirtyState 67108864 zeroRecord 3).map
      (fun x => (x.1, x.2.1, entryAt x.2.2 3)) = some (-1, zeroRecord, ⟨recordOf 4, 67108864⟩) ∧
    (MYC_readEntry allDirtyState 67108864 zeroRecord 3).bind
      (fun x => readResult x.2.2 67108864 0) = some (0, recordOf 4) :=
  ⟨allDirtyState_reached, by decide, by decide, by decide, by decide⟩

/-- C15, failing input. The status computed from the value returned by `read`
or `write` is 0 for every value, an error (-1) or a short count included.  So,
after write(0, r) on a fresh cache over an empty file, `MYC_readEntry(5)` picks
the dirty entry at position 0, its `read` past the end of the file moves 0
bytes, and the call nevertheless returns status 0 with the record `r` and a
cleared dirty flag. -/
theorem C15_transfer_failure_not_reported :
    (∀ ret : Int, transferStatus ret = 0) ∧
    dirtyAt (MYC_writeEntry (MYC_initCache []) 0 (recordOf 9) 0).2 0 = true ∧
    (MYC_readEntry (MYC_writeEntry (MYC_initCache []) 0 (recordOf 9) 0).2 5 zeroRecord 0).map
      (fun x => (x.1, x.2.1, dirtyAt x.2.2 0, x.2.2.log))
      = some (0, recordOf 9, false, [SysCall.lseek 160, SysCall.read 5 0]) := by
  refine ⟨?_, by decide, by decide⟩
  intro ret
  unfold transferStatus
  by_cases h : ret ≠ (sizeofBucket : Int)
  · simp [h]
  · simp [h]

theorem toU32_of_in_range (i : Int) (h0 : 0 ≤ i) (h1 : i * sizeofBucket ≤ 2147483647) :
    toU32 i < 67108864 ∧ (toU32 i : Int) = i := by
  unfold sizeofBucket at h1
  have h := toU32_valid i h0 (by omega)
  exact ⟨by omega, h⟩

/-- C16, failing input. The indices 1 and 2^27+1 are stored as the ids 1 and
2^27+1, and `writeEntry` seeks to byte offset 32 for both, and writes slot 1
for both, although (2^27+1) * 32 is 4294967328 and the entry is to be
"written on the position number id of the file"; for the index 2^26 the offset
computed is -2147483648. -/
theorem C16_offset_wraps :
    toU32 1 = 1 ∧ toU32 134217729 = 134217729 ∧
    (134217729 : Int) * sizeofBucket = 4294967328 ∧
    byteOffset (toU32 1) = 32 ∧ byteOffset (toU32 134217729) = 32 ∧
    byteOffset (toU32 67108864) = -2147483648 ∧
    (writeEntry (MYC_writeEntry (MYC_initCache []) 134217729 (recordOf 7) 0).2 0).2.log
      = [SysCall.lseek 32, SysCall.write 1 ⟨recordOf 7, 134217729⟩] ∧
    (writeEntry (MYC_writeEntry (MYC_initCache []) 1 (recordOf 1) 0).2 0).2.log
      = [SysCall.lseek 32, SysCall.write 1 ⟨recordOf 1, 1⟩] := by
  decide

/-- Where the slot addressing is exact: for every index `i` with `0 <= i` and
`i * sizeof(MYBUCKET_BUCKET_t)` inside the range of `int`, the byte offset at
which `readEntry` and `writeEntry` seek for an entry whose id is `i` equals
`i * sizeof(MYBUCKET_BUCKET_t)`, and two distinct indices of that range never
have the same byte offset. -/
theorem slot_addressing_in_range (c : Cache) (k : Nat) (i : Int) (h0 : 0 ≤ i)
    (h1 : i * sizeofBucket ≤ 2147483647) (hid : (entryAt c k).id = toU32 i) :
    byteOffset (toU32 i) = i * sizeofBucket ∧
    (∃ rest, (readEntry c k).2.log = c.log ++ SysCall.lseek (i * sizeofBucket) :: rest) ∧
    (∃ rest, (writeEntry c k).2.log = c.log ++ SysCall.lseek (i * sizeofBucket) :: rest) ∧
    ∀ j : Int, 0 ≤ j → j * sizeofBucket ≤ 2147483647 → j ≠ i →
      byteOffset (toU32 j) ≠ byteOffset (toU32 i) := by
  obtain ⟨hv, hu⟩ := toU32_of_in_range i h0 h1
  have hb : byteOffset (toU32 i) = i * sizeofBucket := by
    rw [byteOffset_valid _ hv, hu]
    unfold sizeofBucket
    push_cast
    omega
  have hidv : (entryAt c k).id < 67108864 := by rw [hid]; exact hv
  have hoff : (32 : Int) * ((entryAt c k).id : Int) = i * sizeofBucket := by
    rw [hid, ← byteOffset_valid _ hv, hb]
  refine ⟨hb, ?_, ?_, ?_⟩
  · by_cases hin : (entryAt c k).id < c.dbFile.length
    · rw [readEntry_valid_in c k hidv hin, hoff]
      exact ⟨_, rfl⟩
    · rw [readEntry_valid_eof c k hidv (by omega), hoff]
      exact ⟨_, rfl⟩
  · rw [writeEntry_valid c k hidv, hoff]
    exact ⟨_, rfl⟩
  · intro j hj0 hj1 hji e
    obtain ⟨hvj, huj⟩ := toU32_of_in_range j hj0 hj1
    rw [byteOffset_valid _ hvj, byteOffset_valid _ hv] at e
    omega

/-- In a well-formed state `MYC_readEntry` has a defined result. -/
theorem MYC_readEntry_defined (c : Cache) (hwf : WF c) (i : Int) (record : MYRECORD_RECORD_t)
    (rnd : Nat) : ∃ st rec1 c1, MYC_readEntry c i record rnd = some (st, rec1, c1) := by
  cases hs : searchRecord c i with
  | some k =>
    exact ⟨0, (entryAt c k).record, c, by simp only [MYC_readEntry, hs]⟩
  | none =>
    cases hu : searchUnusedOrClean c with
    | some k =>
      have hr : MYC_readEntry c i record rnd = some (loadInto c k i record) := by
        simp only [MYC_readEntry, hs, hu]
      exact ⟨(loadInto c k i record).1, (loadInto c k i record).2.1, (loadInto c k i record).2.2,
        hr.trans (some_triple _)⟩
    | none =>
      have hv := searchAny_lt c rnd hwf.2.1
      obtain ⟨st, c1, hfl, _⟩ := MYC_flushEntry_defined c (searchAny c rnd) hwf hv
      by_cases hst : st = -1
      · refine ⟨-1, record, c1, ?_⟩
        unfold MYC_readEntry
        rw [hs]
        simp only []
        rw [hu]
        simp only []
        rw [hfl]
        simp only []
        rw [if_pos hst]
      · have hr : MYC_readEntry c i record rnd =
            some (loadInto c1 (searchAny c rnd) i record) := by
          unfold MYC_readEntry
          rw [hs]
          simp only []
          rw [hu]
          simp only []
          rw [hfl]
          simp only []
          rw [if_neg hst]
        exact ⟨(loadInto c1 (searchAny c rnd) i record).1,
          (loadInto c1 (searchAny c rnd) i record).2.1,
          (loadInto c1 (searchAny c rnd) i record).2.2, hr.trans (some_triple _)⟩

/-- In a well-formed state the dispatch of a request has a defined result, and
the answer is addressed to the client of the request. -/
theorem dispatch_defined (c : Cache) (hwf : WF c) (req : request_message_t)
    (answer0 : answer_message_t) (rnd : Nat) :
    ∃ a c1, dispatch c req answer0 rnd = some (a, c1) ∧ a.mtype = req.return_to := by
  unfold dispatch
  by_cases hr : req.requested_op = MYSCOP_READ
  · rw [if_pos hr]
    obtain ⟨st, rec1, c1, he⟩ := MYC_readEntry_defined c hwf req.index answer0.data rnd
    rw [he]
    exact ⟨_, _, rfl, rfl⟩
  · rw [if_neg hr]
    by_cases hw : req.requested_op = MYSCOP_WRITE
    · rw [if_pos hw]
      exact ⟨_, _, rfl, rfl⟩
    · rw [if_neg hw]
      exact ⟨_, _, rfl, rfl⟩

/-- C17. Server dispatch, in a well-formed state of the cache: for a READ
request the cache read of the request's index has a result, the status of the
answer equals its status and, when that is 0, the payload of the answer equals
the record the cache returned; for a WRITE request the cache write is applied
to the index and the payload of the request and the status of the answer
equals its result. -/
theorem C17_server_dispatch (c : Cache) (hwf : WF c) (req : request_message_t)
    (answer0 : answer_message_t) (rnd : Nat) :
    (req.requested_op = MYSCOP_READ →
      ∃ st rec1 c1 a, MYC_readEntry c req.index answer0.data rnd = some (st, rec1, c1) ∧
        dispatch c req answer0 rnd = some (a, c1) ∧ a.status = st ∧
        (st = 0 → a.data = rec1)) ∧
    (req.requested_op = MYSCOP_WRITE →
      ∃ a, dispatch c req answer0 rnd
          = some (a, (MYC_writeEntry c req.index req.data rnd).2) ∧
        a.status = (MYC_writeEntry c req.index req.data rnd).1) := by
  constructor
  · intro hr
    obtain ⟨st, rec1, c1, he⟩ := MYC_readEntry_defined c hwf req.index answer0.data rnd
    refine ⟨st, rec1, c1, ⟨req.return_to, st, rec1⟩, he, ?_, rfl, fun _ => rfl⟩
    unfold dispatch
    rw [if_pos hr, he]
  · intro hw
    have hr : ¬ req.requested_op = MYSCOP_READ := by
      rw [hw]; decide
    refine ⟨⟨req.return_to, (MYC_writeEntry c req.index req.data rnd).1, answer0.data⟩, ?_, rfl⟩
    unfold dispatch
    rw [if_neg hr, if_pos hw]

/-- C17, witness: a WRITE request for index 3 on a fresh cache over an empty file. -/
theorem C17_server_dispatch_witness :
    WF (MYC_initCache []) ∧
    ∃ a, (dispatch (MYC_initCache []) ⟨MYSAPMT_REQUEST, MYSCOP_WRITE, 42, recordOf 3, 3⟩
        ⟨0, 0, zeroRecord⟩ 0).map (fun x => x.1) = some a ∧
      a.status = (MYC_writeEntry (MYC_initCache []) 3 (recordOf 3) 0).1 :=
  ⟨by decide,
    match (C17_server_dispatch (MYC_initCache []) (by decide)
      ⟨MYSAPMT_REQUEST, MYSCOP_WRITE, 42, recordOf 3, 3⟩ ⟨0, 0, zeroRecord⟩ 0).2 rfl with
    | ⟨a, h1, h2⟩ => ⟨a, by rw [h1]; rfl, h2⟩⟩

/-- C18, failing input. On a fresh cache over an empty file the answer to a
request with the unknown operation code 7 has status -1; the answer to the
READ of index 2^26, whose seek fails in the cache, has status -1 and
`STORC_read` returns that -1; and `STORC_read` returns -1 as well when
`msgsnd` or `msgrcv` fails. -/
theorem C18_failure_statuses_coincide :
    (dispatch (MYC_initCache []) ⟨MYSAPMT_REQUEST, 7, 42, zeroRecord, 3⟩
      ⟨0, 0, zeroRecord⟩ 0).map (fun x => x.1.status) = some (-1) ∧
    (dispatch (MYC_initCache []) ⟨MYSAPMT_REQUEST, MYSCOP_READ, 42, zeroRecord, 67108864⟩
      ⟨0, 0, zeroRecord⟩ 0).map (fun x => x.1.status) = some (-1) ∧
    (STORC_read 67108864 zeroRecord 42 ⟨0, 0, 0, zeroRecord, 0⟩ 0 40
      ⟨42, -1, zeroRecord⟩).1 = -1 ∧
    (STORC_read 3 zeroRecord 42 ⟨0, 0, 0, zeroRecord, 0⟩ (-1) 40 ⟨42, 0, recordOf 3⟩).1 = -1 ∧
    (STORC_read 3 zeroRecord 42 ⟨0, 0, 0, zeroRecord, 0⟩ 0 (-1) ⟨42, 0, recordOf 3⟩).1 = -1 := by
  decide

/-- C19, counterexample. A READ request for index 3 is received on a fresh
cache and served, but `msgsnd` fails for its answer: the iteration sends no
answer and leaves the loop. -/
theorem C19_counterexample :
    (serverIteration ⟨MYC_initCache [], [], true⟩ 40 false
        ⟨MYSAPMT_REQUEST, MYSCOP_READ, 42, zeroRecord, 3⟩ ⟨0, 0, zeroRecord⟩ 0 (-1)).map
      (fun s => (s.sent, s.running)) = some ([], false) := by
  decide

/-- C19, amended. One addressed answer per request: in a well-formed state of
the cache, for every request that `STORS_readrequest` receives successfully,
whatever its operation code and the outcome of the cache operation, the
iteration of the loop builds one answer, the one of `dispatch`, whose tag
`mtype` equals `return_to` of the request; when `msgsnd` accepts it, exactly
that answer is added to the answers sent and the loop goes on; when `msgsnd`
fails, no answer is sent and the loop is left. -/
theorem C19_one_answer_per_request (s : Server) (hwf : WF s.cache) (rcvRet : Int)
    (hrcv : rcvRet ≠ -1) (eintr : Bool) (req : request_message_t)
    (answer0 : answer_message_t) (rnd : Nat) (sndRet : Int) :
    ∃ s1 a c1, dispatch s.cache req answer0 rnd = some (a, c1) ∧ a.mtype = req.return_to ∧
      serverIteration s rcvRet eintr req answer0 rnd sndRet = some s1 ∧ s1.cache = c1 ∧
      (sndRet ≠ -1 → s1.sent = s.sent ++ [a] ∧ s1.running = true) ∧
      (sndRet = -1 → s1.sent = s.sent ∧ s1.running = false) := by
  obtain ⟨a, c1, hd, hm⟩ := dispatch_defined s.cache hwf req answer0 rnd
  have h0 : STORS_readrequest rcvRet eintr = 0 := by
    unfold STORS_readrequest
    rw [if_neg hrcv]
  by_cases hsnd : sndRet = -1
  · refine ⟨⟨c1, s.sent, false⟩, a, c1, hd, hm, ?_, rfl, fun h => absurd hsnd h,
      fun _ => ⟨rfl, rfl⟩⟩
    unfold serverIteration
    rw [h0, if_neg (by decide), if_neg (by decide), hd]
    simp [STORS_sendanswer, hsnd]
  · refine ⟨⟨c1, s.sent ++ [a], true⟩, a, c1, hd, hm, ?_, rfl, fun _ => ⟨rfl, rfl⟩,
      fun h => absurd h hsnd⟩
    unfold serverIteration
    rw [h0, if_neg (by decide), if_neg (by decide), hd]
    simp [STORS_sendanswer, hsnd]

/-- C19, witness: a request with an unknown operation code on a fresh cache,
whose answer `msgsnd` accepts. -/
theorem C19_one_answer_per_request_witness :
    WF (MYC_initCache []) ∧ (40 : Int) ≠ -1 ∧
    ∃ s1 a, serverIteration ⟨MYC_initCache [], [], true⟩ 40 false
        ⟨MYSAPMT_REQUEST, 7, 42, zeroRecord, 3⟩ ⟨0, 0, zeroRecord⟩ 0 0 = some s1 ∧
      s1.sent = [] ++ [a] ∧ a.mtype = 42 :=
  ⟨by decide, by decide,
    match C19_one_answer_per_request ⟨MYC_initCache [], [], true⟩ (by decide) 40 (by decide)
      false ⟨MYSAPMT_REQUEST, 7, 42, zeroRecord, 3⟩ ⟨0, 0, zeroRecord⟩ 0 0 with
    | ⟨s1, a, _, _, hm, hi, _, hs, _⟩ => ⟨s1, a, hi, (hs (by decide)).1, hm⟩⟩

/-- C20. Client status handling: when `msgsnd` and `msgrcv` succeed,
`STORC_read` and `STORC_write` return exactly the status carried by the
answer; `STORC_read` gives the caller the payload of the answer when that
status is 0 and leaves the caller's record as it was for every other status. -/
theorem C20_client_status (fileIndex : Int) (record : MYRECORD_RECORD_t) (pid : Int)
    (request0 : request_message_t) (sndRet rcvRet : Int) (answer : answer_message_t)
    (hsnd : sndRet ≠ -1) (hrcv : rcvRet ≠ -1) :
    (STORC_read fileIndex record pid request0 sndRet rcvRet answer).1 = answer.status ∧
    (answer.status = 0 →
      (STORC_read fileIndex record pid request0 sndRet rcvRet answer).2.1 = answer.data) ∧
    (answer.status ≠ 0 →
      (STORC_read fileIndex record pid request0 sndRet rcvRet answer).2.1 = record) ∧
    (STORC_write fileIndex record pid sndRet rcvRet answer).1 = answer.status := by
  unfold STORC_read STORC_write
  simp only [hsnd, hrcv, if_false]
  by_cases h : answer.status = 0
  · simp [h]
  · simp [h]

/-- C20, witness: an answer with status 0 and one with status -1. -/
theorem C20_client_status_witness :
    (0 : Int) ≠ -1 ∧ (40 : Int) ≠ -1 ∧
    (STORC_read 3 zeroRecord 42 ⟨0, 0, 0, zeroRecord, 0⟩ 0 40 ⟨42, 0, recordOf 3⟩).1 = 0 ∧
    (STORC_read 3 zeroRecord 42 ⟨0, 0, 0, zeroRecord, 0⟩ 0 40 ⟨42, 0, recordOf 3⟩).2.1
      = recordOf 3 :=
  ⟨by decide, by decide,
    (C20_client_status 3 zeroRecord 42 ⟨0, 0, 0, zeroRecord, 0⟩ 0 40 ⟨42, 0, recordOf 3⟩
      (by decide) (by decide)).1,
    (C20_client_status 3 zeroRecord 42 ⟨0, 0, 0, zeroRecord, 0⟩ 0 40 ⟨42, 0, recordOf 3⟩
      (by decide) (by decide)).2.1 rfl⟩

/-- C21, counterexample. A READ request for index 3 is received and served on
a fresh cache, but `msgsnd` fails for the answer: the iteration leaves the
loop. -/
theorem C21_counterexample :
    (serverIteration ⟨MYC_initCache [], [], true⟩ 40 false
        ⟨MYSAPMT_REQUEST, MYSCOP_READ, 42, zeroRecord, 3⟩ ⟨0, 0, zeroRecord⟩ 0 (-1)).map
      (fun s => s.running) = some false := by
  decide

/-- C21, amended. In a well-formed state of the cache an iteration of the
running loop always has a result, and it leaves the loop exactly when the
receive fails without being interrupted or when a request was received and the
sending of its answer fails; so the loop goes on after a failed cache
operation and after an unknown operation whose answers are sent.  The shutdown
that follows the loop closes the cache over the file as `MYC_flushAll` leaves
it. -/
theorem C21_loop_exit (s : Server) (hwf : WF s.cache) (hrun : s.running = true)
    (rcvRet : Int) (eintr : Bool) (req : request_message_t) (answer0 : answer_message_t)
    (rnd : Nat) (sndRet closeRet : Int) :
    ∃ s1, serverIteration s rcvRet eintr req answer0 rnd sndRet = some s1 ∧
      (s1.running = false ↔
        (rcvRet = -1 ∧ eintr = false) ∨ (rcvRet ≠ -1 ∧ sndRet = -1)) ∧
      (serverShutdown s1 closeRet).2.dbFile = (MYC_flushAll s1.cache).2.dbFile := by
  have hshut : ∀ s1 : Server,
      (serverShutdown s1 closeRet).2.dbFile = (MYC_flushAll s1.cache).2.dbFile := by
    intro s1
    unfold serverShutdown MYC_closeCache
    by_cases hc : closeRet = -1
    · simp [hc]
    · simp [hc]
  by_cases hr : rcvRet = -1
  · cases eintr with
    | true =>
      refine ⟨s, ?_, ?_, hshut s⟩
      · simp [serverIteration, STORS_readrequest, hr]
      · simp [hrun, hr]
    | false =>
      refine ⟨{ s with running := false }, ?_, ?_, hshut _⟩
      · simp [serverIteration, STORS_readrequest, hr]
      · simp [hr]
  · obtain ⟨a, c1, hd, _⟩ := dispatch_defined s.cache hwf req answer0 rnd
    have h0 : STORS_readrequest rcvRet eintr = 0 := by
      unfold STORS_readrequest
      rw [if_neg hr]
    by_cases hsnd : sndRet = -1
    · refine ⟨⟨c1, s.sent, false⟩, ?_, ?_, hshut _⟩
      · unfold serverIteration
        rw [h0, if_neg (by decide), if_neg (by decide), hd]
        simp [STORS_sendanswer, hsnd]
      · simp [hr, hsnd]
    · refine ⟨⟨c1, s.sent ++ [a], true⟩, ?_, ?_, hshut _⟩
      · unfold serverIteration
        rw [h0, if_neg (by decide), if_neg (by decide), hd]
        simp [STORS_sendanswer, hsnd]
      · simp [hr, hsnd]

/-- C21, witness: a request with an unknown operation code is answered on a
fresh cache and the loop goes on. -/
theorem C21_loop_exit_witness :
    WF (MYC_initCache []) ∧
    ∃ s1, serverIteration ⟨MYC_initCache [], [], true⟩ 40 false
        ⟨MYSAPMT_REQUEST, 7, 42, zeroRecord, 3⟩ ⟨0, 0, zeroRecord⟩ 0 0 = some s1 ∧
      (s1.running = false ↔
        ((40 : Int) = -1 ∧ false = false) ∨ ((40 : Int) ≠ -1 ∧ (0 : Int) = -1)) :=
  ⟨by decide,
    match C21_loop_exit ⟨MYC_initCache [], [], true⟩ (by decide) rfl 40 false
      ⟨MYSAPMT_REQUEST, 7, 42, zeroRecord, 3⟩ ⟨0, 0, zeroRecord⟩ 0 0 0 with
    | ⟨s1, h1, h2, _⟩ => ⟨s1, h1, h2⟩⟩

/-- C22, counterexample. The loop runs on a fresh cache with no flag set; the
wait of `msgrcv` is interrupted by `SIGINT`, whose handler sets
`prog_end_requested`; `STORS_readrequest` returns -2 and the pass ends with
`continue`.  In the next pass the test of the loop fails: although `msgrcv`
would deliver a request, the loop is left and no answer is sent. -/
theorem C22_counterexample :
    ((loopPass ⟨⟨MYC_initCache [], [], true⟩, ⟨false, false, false, false⟩⟩
        (Wait.interrupted Signal.SIGINT ⟨0, 0, 0, zeroRecord, 0⟩) ⟨0, 0, zeroRecord⟩ 0 0).bind
      (fun l1 => (loopPass l1 (Wait.returned 40 ⟨MYSAPMT_REQUEST, MYSCOP_READ, 42, zeroRecord, 3⟩)
        ⟨0, 0, zeroRecord⟩ 0 0).map
        (fun l2 => (reachesWait l1, l2.server.running, l2.server.sent, l2.server.cache.log))))
      = some (false, false, [], []) := by
  decide

/-- C22, amended. Interrupted receive: when `msgrcv` fails with `EINTR`,
`STORS_readrequest` returns -2, a value different from 0 and from -1, and the
iteration returns the state of the server as it found it.  In a pass of the
running loop whose wait is interrupted by a signal, no answer is sent, the
cache is the one the pass had when it called `STORS_readrequest` (it is flushed
before the wait when `alarm_requested` was set, and otherwise untouched: no
read and no write of a record), the loop is not left by the pass, and the flags
are those the handler leaves.  The next pass arrives at the wait again exactly
when the signal is neither `SIGINT` nor `SIGTERM`; after one of these two the
next pass leaves the loop without receiving anything. -/
theorem C22_interrupted_receive (l : ServerLoop) (hrun : l.server.running = true)
    (hend : l.flags.prog_end_requested = false) (sig : Signal)
    (req0 : request_message_t) (answer0 : answer_message_t) (rnd : Nat) (sndRet : Int) :
    STORS_readrequest (-1) true = -2 ∧ (-2 : Int) ≠ 0 ∧ (-2 : Int) ≠ -1 ∧
    serverIteration l.server (-1) true req0 answer0 rnd sndRet = some l.server ∧
    ∃ l1, loopPass l (Wait.interrupted sig req0) answer0 rnd sndRet = some l1 ∧
      l1.server.sent = l.server.sent ∧ l1.server.running = true ∧
      l1.server.cache =
        (if l.flags.alarm_requested = true then (MYC_flushAll l.server.cache).2
          else l.server.cache) ∧
      l1.flags = s_handler ⟨false, false, false, false⟩ sig ∧
      (reachesWait l1 = true ↔ sig ≠ Signal.SIGINT ∧ sig ≠ Signal.SIGTERM) ∧
      (sig = Signal.SIGINT ∨ sig = Signal.SIGTERM →
        ∀ (w : Wait) (answer1 : answer_message_t) (rnd1 : Nat) (sndRet1 : Int),
          loopPass l1 w answer1 rnd1 sndRet1 =
            some { l1 with server := { l1.server with running := false } }) := by
  have hit : ∀ s : Server, serverIteration s (-1) true req0 answer0 rnd sndRet = some s := by
    intro s
    simp [serverIteration, STORS_readrequest]
  refine ⟨by decide, by decide, by decide, hit _, ?_⟩
  have hp : loopPass l (Wait.interrupted sig req0) answer0 rnd sndRet =
      some ⟨{ l.server with cache :=
          (if l.flags.alarm_requested = true then (MYC_flushAll l.server.cache).2
            else l.server.cache) },
        s_handler ⟨false, false, false, false⟩ sig⟩ := by
    unfold loopPass
    rw [if_neg (by rw [hrun]; decide), if_neg (by rw [hend]; decide)]
    simp only [hit, hend, Option.map_some']
  refine ⟨_, hp, rfl, hrun, rfl, rfl, ?_, ?_⟩
  · cases sig <;> simp [reachesWait, s_handler, hrun]
  · intro hsig w answer1 rnd1 sndRet1
    have hflag : (s_handler ⟨false, false, false, false⟩ sig).prog_end_requested = true := by
      rcases hsig with h | h <;> rw [h] <;> rfl
    unfold loopPass
    rw [if_neg (by simp [hrun]), if_pos hflag]

/-- C22, witness: the wait is interrupted by `SIGUSR1` in a loop running on a
fresh cache; the next pass arrives at the wait again. -/
theorem C22_interrupted_receive_witness :
    ∃ l1, loopPass ⟨⟨MYC_initCache [], [], true⟩, ⟨false, false, false, false⟩⟩
        (Wait.interrupted Signal.SIGUSR1 ⟨0, 0, 0, zeroRecord, 0⟩) ⟨0, 0, zeroRecord⟩ 0 0
        = some l1 ∧
      l1.server.sent = [] ∧ reachesWait l1 = true :=
  match C22_interrupted_receive ⟨⟨MYC_initCache [], [], true⟩, ⟨false, false, false, false⟩⟩
    rfl rfl Signal.SIGUSR1 ⟨0, 0, 0, zeroRecord, 0⟩ ⟨0, 0, zeroRecord⟩ 0 0 with
  | ⟨_, _, _, _, l1, h1, h2, _, _, _, h6, _⟩ => ⟨l1, h1, h2, h6.2 ⟨by decide, by decide⟩⟩

theorem entryAt_init (file : List MYBUCKET_BUCKET_t) (k : Nat) :
    entryAt (MYC_initCache file) k = zeroBucket := by
  simp only [entryAt, MYC_initCache, List.getD_eq_getElem?_getD, List.getElem?_replicate]
  split <;> rfl

theorem length_init (file : List MYBUCKET_BUCKET_t) :
    (MYC_initCache file).CacheEntries.length = MYC_NUMENTRIES := by
  simp [MYC_initCache]

/-- C23. Cold read: on a freshly initialised cache over an empty file,
`MYC_readEntry(i)` for a valid index `i` returns status 0 and the all-zero
record; afterwards the first entry of the table holds id `i` with a false dirty
flag, and it is the only entry of the table with id `i`. -/
theorem C23_cold_read (i : Int) (hi : ValidIndex i) (record : MYRECORD_RECORD_t) (rnd : Nat) :
    ∃ c1, MYC_readEntry (MYC_initCache []) i record rnd = some (0, zeroRecord, c1) ∧
      c1.CacheEntries.length = MYC_NUMENTRIES ∧
      entryAt c1 0 = ⟨zeroRecord, toU32 i⟩ ∧ dirtyAt c1 0 = false ∧
      ∀ k, k < c1.CacheEntries.length → ((entryAt c1 k).id = toU32 i ↔ k = 0) := by
  have hv := toU32_of_valid i hi
  have hlen := length_init []
  have hN : (0 : Nat) < (MYC_initCache []).CacheEntries.length := by
    rw [hlen]; decide
  have hs : searchRecord (MYC_initCache []) i = none := by
    rw [searchRecord_none_iff]
    intro j _
    rw [entryAt_init]
    simp only [zeroBucket]
    omega
  have hu : searchUnusedOrClean (MYC_initCache []) = some 0 := by
    rw [searchUnusedOrClean_some_iff]
    refine Or.inl ⟨hN, ?_, fun j hj => absurd hj (Nat.not_lt_zero j)⟩
    rw [entryAt_init]; rfl
  have hl := loadInto_valid_eof (MYC_initCache []) 0 i record hN hi (Nat.zero_le _)
  have hr : MYC_readEntry (MYC_initCache []) i record rnd =
      some (loadInto (MYC_initCache []) 0 i record) := by
    simp only [MYC_readEntry, hs, hu]
  rw [hr, hl, entryAt_init]
  refine ⟨_, rfl, ?_, ?_, ?_, ?_⟩
  · simp [MYC_initCache]
  · simp only [entryAt]
    rw [getD_set_self _ _ _ _ hN]
    rfl
  · simp [dirtyAt, MYC_initCache, MYC_NUMENTRIES]
  · intro k _
    by_cases hk : k = 0
    · subst hk
      simp only [entryAt]
      rw [getD_set_self _ _ _ _ hN]
      simp [zeroBucket]
    · simp only [entryAt]
      rw [getD_set_other _ _ _ _ _ hk]
      have := entryAt_init [] k
      simp only [entryAt] at this
      rw [this]
      simp only [zeroBucket, hk, iff_false]
      omega

/-- C23, witness: the cold read of index 5. -/
theorem C23_cold_read_witness :
    ValidIndex 5 ∧
    ∃ c1, MYC_readEntry (MYC_initCache []) 5 (recordOf 9) 0 = some (0, zeroRecord, c1) ∧
      c1.CacheEntries.length = MYC_NUMENTRIES ∧
      entryAt c1 0 = ⟨zeroRecord, toU32 5⟩ ∧ dirtyAt c1 0 = false ∧
      ∀ k, k < c1.CacheEntries.length → ((entryAt c1 k).id = toU32 5 ↔ k = 0) :=
  ⟨by decide, C23_cold_read 5 (by decide) (recordOf 9) 0⟩

/-- The three outcomes of a load into position `k`: the positioning fails; a
whole bucket is transferred from a slot inside the file; or the slot lies at or
after the end of the file and nothing is transferred. -/
theorem loadInto_cases (c : Cache) (k : Nat) (i : Int) (record : MYRECORD_RECORD_t)
    (hk : k < c.CacheEntries.length) :
    (byteOffset (toU32 i) < 0 ∧
      loadInto c k i record =
        (-1, record,
          ⟨c.CacheEntries.set k ⟨(entryAt c k).record, toU32 i⟩, c.CacheDirty, c.dbFile,
            c.log ++ [SysCall.lseek (byteOffset (toU32 i))]⟩)) ∨
    (0 ≤ byteOffset (toU32 i) ∧ slotAt (byteOffset (toU32 i)) < c.dbFile.length ∧
      loadInto c k i record =
        (0, (c.dbFile.getD (slotAt (byteOffset (toU32 i))) zeroBucket).record,
          ⟨c.CacheEntries.set k (c.dbFile.getD (slotAt (byteOffset (toU32 i))) zeroBucket),
            c.CacheDirty.set k false, c.dbFile,
            c.log ++ [SysCall.lseek (byteOffset (toU32 i)),
              SysCall.read (slotAt (byteOffset (toU32 i))) sizeofBucket]⟩)) ∨
    (0 ≤ byteOffset (toU32 i) ∧ c.dbFile.length ≤ slotAt (byteOffset (toU32 i)) ∧
      loadInto c k i record =
        (0, (entryAt c k).record,
          ⟨c.CacheEntries.set k ⟨(entryAt c k).record, toU32 i⟩,
            c.CacheDirty.set k false, c.dbFile,
            c.log ++ [SysCall.lseek (byteOffset (toU32 i)),
              SysCall.read (slotAt (byteOffset (toU32 i))) 0]⟩)) := by
  have hid : (entryAt (setId c k i) k).id = toU32 i := by
    rw [entryAt_setId_self c k i hk]
  by_cases hneg : byteOffset (toU32 i) < 0
  · left
    refine ⟨hneg, ?_⟩
    have hr := readEntry_fail (setId c k i) k (by rw [hid]; exact hneg)
    unfold loadInto
    rw [hr, hid]
    simp [setId]
  · right
    have hpos : 0 ≤ byteOffset (toU32 i) := by omega
    by_cases hin : slotAt (byteOffset (toU32 i)) < c.dbFile.length
    · left
      refine ⟨hpos, hin, ?_⟩
      have hr := readEntry_in (setId c k i) k (by rw [hid]; exact hpos)
        (by rw [hid]; exact hin)
      unfold loadInto
      rw [hr, hid]
      simp [setId, entryAt, getD_set_self, hk]
    · right
      refine ⟨hpos, by omega, ?_⟩
      have hr := readEntry_eof (setId c k i) k (by rw [hid]; exact hpos)
        (by rw [hid]; exact Nat.le_of_not_lt hin)
      unfold loadInto
      rw [hr, hid]
      simp [setId, entryAt, getD_set_self, hk]

/-- What a defined flush of one index leaves: the table, the length of the
flags, and, when it fails, a log that ends with the failed positioning. -/
theorem MYC_flushEntry_facts (c c1 : Cache) (j st : Int)
    (h : MYC_flushEntry c j = some (st, c1)) :
    c1.CacheEntries = c.CacheEntries ∧ c1.CacheDirty.length = c.CacheDirty.length ∧
      (st = -1 → ∃ off, c1.log = c.log ++ [SysCall.lseek off]) := by
  unfold MYC_flushEntry at h
  cases hs : searchRecord c j with
  | none => rw [hs] at h; cases h
  | some k =>
    rw [hs] at h
    simp only [] at h
    by_cases hd : dirtyAt c k = true
    · rw [if_pos hd] at h
      by_cases hw : byteOffset (entryAt c k).id < 0
      · rw [writeEntry_fail c k hw] at h
        simp only [if_true, Option.some.injEq, Prod.mk.injEq] at h
        obtain ⟨h1, h2⟩ := h
        subst h2
        exact ⟨rfl, rfl, fun _ => ⟨_, rfl⟩⟩
      · have hst : (writeEntry c k).1 = 0 := by rw [writeEntry_ok c k (by omega)]
        rw [if_neg (by rw [hst]; decide)] at h
        rw [writeEntry_ok c k (by omega)] at h
        simp only [Option.some.injEq, Prod.mk.injEq] at h
        obtain ⟨h1, h2⟩ := h
        subst h2
        subst h1
        exact ⟨rfl, by simp, fun e => absurd e (by decide)⟩
    · rw [if_neg hd] at h
      simp only [Option.some.injEq, Prod.mk.injEq] at h
      obtain ⟨h1, h2⟩ := h
      subst h2
      subst h1
      exact ⟨rfl, rfl, fun e => absurd e (by decide)⟩

/-- How `MYC_readEntry` serves an index that no entry holds, in a well-formed
state: it loads the index into the position found by `searchUnusedOrClean`, or,
when there is none, into the random position after the flush of its id; when
that flush fails it returns -1 and the log ends with the failed positioning. -/
theorem MYC_readEntry_load (c : Cache) (hwf : WF c) (i : Int) (record : MYRECORD_RECORD_t)
    (rnd : Nat) (hs : searchRecord c i = none) :
    ∃ k c0, k < c.CacheEntries.length ∧
      (searchUnusedOrClean c = some k ∨
        (searchUnusedOrClean c = none ∧ k = searchAny c rnd)) ∧
      c0.CacheEntries = c.CacheEntries ∧ c0.CacheDirty.length = c.CacheDirty.length ∧
      (searchUnusedOrClean c ≠ none → c0 = c) ∧ (Inv c → Inv c0) ∧
      (MYC_readEntry c i record rnd = some (loadInto c0 k i record) ∨
        (searchUnusedOrClean c = none ∧ ∃ off, c0.log = c.log ++ [SysCall.lseek off] ∧
          MYC_readEntry c i record rnd = some (-1, record, c0))) := by
  cases hu : searchUnusedOrClean c with
  | some k =>
    have hk := searchUnusedOrClean_lt c k hu
    refine ⟨k, c, hk, Or.inl rfl, rfl, rfl, fun _ => rfl, fun h => h, Or.inl ?_⟩
    simp only [MYC_readEntry, hs, hu]
  | none =>
    have hv := searchAny_lt c rnd hwf.2.1
    obtain ⟨st, c1, hfl, _⟩ := MYC_flushEntry_defined c (searchAny c rnd) hwf hv
    obtain ⟨he, hd, hlog⟩ := MYC_flushEntry_facts c c1 _ st hfl
    refine ⟨searchAny c rnd, c1, hv, Or.inr ⟨rfl, rfl⟩, he, hd, fun h => absurd rfl h,
      fun hinv => (MYC_flushEntry_inv c c1 _ st hinv hfl).2.1, ?_⟩
    by_cases hst : st = -1
    · right
      obtain ⟨off, hoff⟩ := hlog hst
      refine ⟨rfl, off, hoff, ?_⟩
      unfold MYC_readEntry
      rw [hs]
      simp only []
      rw [hu]
      simp only []
      rw [hfl]
      simp only []
      rw [if_pos hst]
    · left
      unfold MYC_readEntry
      rw [hs]
      simp only []
      rw [hu]
      simp only []
      rw [hfl]
      simp only []
      rw [if_neg hst]

/-- A successful `MYC_writeEntry(0, r)` stores the record at a position below
which no entry has id 0, in a state that differs from the initial one by at
most the flush of the victim. -/
theorem MYC_writeEntry_zero (c : Cache) (r : MYRECORD_RECORD_t) (rnd : Nat)
    (hwf : WF c) (h0 : (MYC_writeEntry c 0 r rnd).1 = 0) :
    ∃ k c0, MYC_writeEntry c 0 r rnd = (0, storeInto c0 k 0 r) ∧
      c0.CacheEntries = c.CacheEntries ∧ c0.CacheDirty.length = c.CacheDirty.length ∧
      k < c.CacheEntries.length ∧ ∀ m, m < k → (entryAt c m).id ≠ 0 := by
  have hz : toU32 0 = 0 := rfl
  cases hs : searchRecord c 0 with
  | some k =>
    have h := (searchRecord_some_iff c 0 k).1 hs
    rw [hz] at h
    refine ⟨k, c, ?_, rfl, rfl, h.1, h.2.2⟩
    simp only [MYC_writeEntry, hs]
  | none =>
    have hnone := (searchRecord_none_iff c 0).1 hs
    rw [hz] at hnone
    cases hu : searchUnusedOrClean c with
    | some k =>
      have hk := searchUnusedOrClean_lt c k hu
      refine ⟨k, c, ?_, rfl, rfl, hk, fun m hm => hnone m (by omega)⟩
      simp only [MYC_writeEntry, hs, hu, storeInto_setId]
    | none =>
      have hv := searchAny_lt c rnd hwf.2.1
      have hne : ¬ (writeEntry c (searchAny c rnd)).1 = -1 := by
        intro hbad
        unfold MYC_writeEntry at h0
        rw [hs] at h0
        simp only [] at h0
        rw [hu] at h0
        simp only [] at h0
        rw [if_pos hbad] at h0
        simp at h0
      refine ⟨searchAny c rnd, (writeEntry c (searchAny c rnd)).2, ?_, writeEntry_entries _ _,
        writeEntry_dirty_length _ _, hv, fun m hm => hnone m (by omega)⟩
      unfold MYC_writeEntry
      rw [hs]
      simp only []
      rw [hu]
      simp only []
      rw [if_neg hne, storeInto_setId]

/-- C25. A record written at index 0 is dropped: when `MYC_writeEntry(0, r)`
returns 0 in a well-formed state, the entry `k` that received `r` has id 0 and
no entry below it has id 0, so `searchUnusedOrClean` finds it; for every index
`j` that no entry holds, the next `MYC_writeEntry(j, r2)` returns 0 and puts
its record into that entry, and the next `MYC_readEntry(j)` loads into that
entry; neither changes the file, and neither logs a write. -/
theorem C25_write_at_zero_dropped (c : Cache) (hwf : WF c) (r : MYRECORD_RECORD_t) (rnd : Nat)
    (h0 : (MYC_writeEntry c 0 r rnd).1 = 0) :
    ∃ k c1, MYC_writeEntry c 0 r rnd = (0, c1) ∧ k < c1.CacheEntries.length ∧
      entryAt c1 k = ⟨r, 0⟩ ∧ dirtyAt c1 k = true ∧
      (∀ m, m < k → (entryAt c1 m).id ≠ 0) ∧
      searchUnusedOrClean c1 = some k ∧
      ∀ j : Int, (∀ m, m < c1.CacheEntries.length → (entryAt c1 m).id ≠ toU32 j) →
        (∀ (r2 : MYRECORD_RECORD_t) (rnd2 : Nat),
          ∃ c2, MYC_writeEntry c1 j r2 rnd2 = (0, c2) ∧ entryAt c2 k = ⟨r2, toU32 j⟩ ∧
            (∀ m, m ≠ k → entryAt c2 m = entryAt c1 m) ∧
            c2.dbFile = c1.dbFile ∧ c2.log = c1.log) ∧
        (∀ (record : MYRECORD_RECORD_t) (rnd2 : Nat),
          ∃ st rec1 c2, MYC_readEntry c1 j record rnd2 = some (st, rec1, c2) ∧
            (st, rec1, c2) = loadInto c1 k j record ∧
            (∀ m, m ≠ k → entryAt c2 m = entryAt c1 m) ∧
            c2.dbFile = c1.dbFile ∧
            (c2.log = c1.log ++ [SysCall.lseek (byteOffset (toU32 j))] ∨
              ∃ nbytes, c2.log = c1.log ++ [SysCall.lseek (byteOffset (toU32 j)),
                SysCall.read (slotAt (byteOffset (toU32 j))) nbytes])) := by
  obtain ⟨k, c0, hw, he, hd, hk, hlow⟩ := MYC_writeEntry_zero c r rnd hwf h0
  have hk0 : k < c0.CacheEntries.length := by rw [he]; exact hk
  have hk1 : k < (storeInto c0 k 0 r).CacheEntries.length := by
    rw [length_storeInto]; exact hk0
  have hself : entryAt (storeInto c0 k 0 r) k = ⟨r, 0⟩ := entryAt_storeInto_self c0 k 0 r hk0
  have hoth : ∀ m, m ≠ k → entryAt (storeInto c0 k 0 r) m = entryAt c m := by
    intro m hm
    rw [entryAt_storeInto_other c0 k m 0 r hm]
    simp only [entryAt, he]
  have hfirst : ∀ m, m < k → (entryAt (storeInto c0 k 0 r) m).id ≠ 0 := by
    intro m hm
    rw [hoth m (by omega)]
    exact hlow m hm
  have hu : searchUnusedOrClean (storeInto c0 k 0 r) = some k := by
    rw [searchUnusedOrClean_some_iff]
    exact Or.inl ⟨hk1, by rw [hself], hfirst⟩
  refine ⟨k, storeInto c0 k 0 r, hw, hk1, hself,
    dirtyAt_storeInto_self c0 k 0 r (by rw [hd, hwf.1]; exact hk), hfirst, hu, ?_⟩
  intro j hnr
  have hs : searchRecord (storeInto c0 k 0 r) j = none :=
    (searchRecord_none_iff _ j).2 hnr
  constructor
  · intro r2 rnd2
    refine ⟨storeInto (storeInto c0 k 0 r) k j r2, ?_,
      entryAt_storeInto_self _ k j r2 hk1,
      fun m hm => entryAt_storeInto_other _ k m j r2 hm, rfl, rfl⟩
    simp only [MYC_writeEntry, hs, hu, storeInto_setId]
  · intro record rnd2
    have hr : MYC_readEntry (storeInto c0 k 0 r) j record rnd2 =
        some (loadInto (storeInto c0 k 0 r) k j record) := by
      simp only [MYC_readEntry, hs, hu]
    refine ⟨(loadInto (storeInto c0 k 0 r) k j record).1,
      (loadInto (storeInto c0 k 0 r) k j record).2.1,
      (loadInto (storeInto c0 k 0 r) k j record).2.2, hr.trans (some_triple _),
      (prod_eta3 (loadInto (storeInto c0 k 0 r) k j record) _ rfl).symm, ?_⟩
    rcases loadInto_cases (storeInto c0 k 0 r) k j record hk1 with
      ⟨_, hl⟩ | ⟨_, _, hl⟩ | ⟨_, _, hl⟩
    · rw [hl]
      refine ⟨fun m hm => ?_, rfl, Or.inl rfl⟩
      simp only [entryAt]
      exact getD_set_other _ _ _ _ _ hm
    · rw [hl]
      refine ⟨fun m hm => ?_, rfl, Or.inr ⟨_, rfl⟩⟩
      simp only [entryAt]
      exact getD_set_other _ _ _ _ _ hm
    · rw [hl]
      refine ⟨fun m hm => ?_, rfl, Or.inr ⟨_, rfl⟩⟩
      simp only [entryAt]
      exact getD_set_other _ _ _ _ _ hm

/-- C25, witness: the write of `recordOf 9` at index 0 on a fresh cache over an
empty file. -/
theorem C25_write_at_zero_dropped_witness :
    WF (MYC_initCache []) ∧ (MYC_writeEntry (MYC_initCache []) 0 (recordOf 9) 0).1 = 0 ∧
    ∃ k c1, MYC_writeEntry (MYC_initCache []) 0 (recordOf 9) 0 = (0, c1) ∧
      k < c1.CacheEntries.length ∧ entryAt c1 k = ⟨recordOf 9, 0⟩ ∧
      searchUnusedOrClean c1 = some k :=
  ⟨by decide, by decide,
    match C25_write_at_zero_dropped (MYC_initCache []) (by decide) (recordOf 9) 0 (by decide) with
    | ⟨k, c1, h1, h2, h3, _, _, h6, _⟩ => ⟨k, c1, h1, h2, h3, h6⟩⟩

/-- What the last event of the log tells about a load into position `k`: after
a transfer of 0 bytes the status is 0, the record yielded is the one the
position held and the position has the new id; after the transfer of a whole
bucket the position holds the bucket of the file; the flag is false in both
cases, and the file and the other positions are never changed. -/
theorem loadInto_log (c0 : Cache) (k : Nat) (i : Int) (record : MYRECORD_RECORD_t)
    (hk : k < c0.CacheEntries.length) (hkd : k < c0.CacheDirty.length) :
    (loadInto c0 k i record).2.2.dbFile = c0.dbFile ∧
    (∀ m, m ≠ k → entryAt (loadInto c0 k i record).2.2 m = entryAt c0 m) ∧
    (∀ slot, (loadInto c0 k i record).2.2.log.getLast? = some (SysCall.read slot 0) →
      (loadInto c0 k i record).1 = 0 ∧
      (loadInto c0 k i record).2.1 = (entryAt c0 k).record ∧
      entryAt (loadInto c0 k i record).2.2 k = ⟨(entryAt c0 k).record, toU32 i⟩ ∧
      dirtyAt (loadInto c0 k i record).2.2 k = false ∧
      slot = slotAt (byteOffset (toU32 i)) ∧ c0.dbFile.length ≤ slot) ∧
    (∀ slot,
      (loadInto c0 k i record).2.2.log.getLast? = some (SysCall.read slot sizeofBucket) →
      (loadInto c0 k i record).1 = 0 ∧
      (loadInto c0 k i record).2.1 = (c0.dbFile.getD slot zeroBucket).record ∧
      entryAt (loadInto c0 k i record).2.2 k = c0.dbFile.getD slot zeroBucket ∧
      dirtyAt (loadInto c0 k i record).2.2 k = false ∧
      slot = slotAt (byteOffset (toU32 i)) ∧ slot < c0.dbFile.length) ∧
    ((loadInto c0 k i record).1 = 0 → c0.dbFile.length ≤ slotAt (byteOffset (toU32 i)) →
      (loadInto c0 k i record).2.2.log.getLast? =
        some (SysCall.read (slotAt (byteOffset (toU32 i))) 0)) ∧
    ((loadInto c0 k i record).1 = 0 → slotAt (byteOffset (toU32 i)) < c0.dbFile.length →
      (loadInto c0 k i record).2.2.log.getLast? =
        some (SysCall.read (slotAt (byteOffset (toU32 i))) sizeofBucket)) ∧
    (0 ≤ byteOffset (toU32 i) → (loadInto c0 k i record).1 = 0) := by
  rcases loadInto_cases c0 k i record hk with ⟨hneg, hl⟩ | ⟨hpos, hin, hl⟩ | ⟨hpos, hout, hl⟩
  · rw [hl]
    refine ⟨rfl, fun m hm => ?_, fun slot h => ?_, fun slot h => ?_, fun h => ?_, fun h => ?_,
      fun h => ?_⟩
    · simp only [entryAt]
      exact getD_set_other _ _ _ _ _ hm
    · simp at h
    · simp at h
    · simp at h
    · simp at h
    · omega
  · rw [hl]
    refine ⟨rfl, fun m hm => ?_, fun slot h => ?_, fun slot h => ?_, fun _ h => ?_, fun _ _ => ?_,
      fun _ => rfl⟩
    · simp only [entryAt]
      exact getD_set_other _ _ _ _ _ hm
    · simp [sizeofBucket] at h
    · simp at h
      subst h
      refine ⟨rfl, rfl, ?_, ?_, rfl, hin⟩
      · simp only [entryAt]
        exact getD_set_self _ _ _ _ hk
      · simp only [dirtyAt]
        exact getD_set_self _ _ _ _ hkd
    · omega
    · simp
  · rw [hl]
    refine ⟨rfl, fun m hm => ?_, fun slot h => ?_, fun slot h => ?_, fun _ _ => ?_, fun _ h => ?_,
      fun _ => rfl⟩
    · simp only [entryAt]
      exact getD_set_other _ _ _ _ _ hm
    · simp at h
      subst h
      refine ⟨rfl, rfl, ?_, ?_, rfl, hout⟩
      · simp only [entryAt]
        exact getD_set_self _ _ _ _ hk
      · simp only [dirtyAt]
        exact getD_set_self _ _ _ _ hkd
    · simp [sizeofBucket] at h
    · simp
    · omega

/-- C26. Read past the end of the file: in a well-formed state `MYC_readEntry(i)`
for an index `i` that no entry holds has a result, and the entry `k` it selects
is the one found by `searchUnusedOrClean`, or the random one when there is
none. When the transfer of the call moves 0 bytes (the log ends with a `read`
of 0 bytes), the status is 0, the record yielded is the payload that entry
held before the call, and the entry is left with id `i` and a false dirty
flag; the slot read is the one of `i` and lies at or after the end of the
file. That is the case whenever the status is 0 and the slot of `i` lies at or
after the end of the file, in particular when an entry with id 0 or a clean
one exists, the byte offset of `i` is not negative and the slot lies at or
after the end of the file at the time of the call. -/
theorem C26_read_past_end (c : Cache) (hwf : WF c) (i : Int) (record : MYRECORD_RECORD_t)
    (rnd : Nat) (hnr : ∀ m, m < c.CacheEntries.length → (entryAt c m).id ≠ toU32 i) :
    ∃ st rec1 c1 k, MYC_readEntry c i record rnd = some (st, rec1, c1) ∧
      k < c.CacheEntries.length ∧
      (searchUnusedOrClean c = some k ∨
        (searchUnusedOrClean c = none ∧ k = searchAny c rnd)) ∧
      (∀ slot, c1.log.getLast? = some (SysCall.read slot 0) →
        st = 0 ∧ rec1 = (entryAt c k).record ∧
        entryAt c1 k = ⟨(entryAt c k).record, toU32 i⟩ ∧ dirtyAt c1 k = false ∧
        slot = slotAt (byteOffset (toU32 i)) ∧ c1.dbFile.length ≤ slot) ∧
      (st = 0 → c1.dbFile.length ≤ slotAt (byteOffset (toU32 i)) →
        c1.log.getLast? = some (SysCall.read (slotAt (byteOffset (toU32 i))) 0)) ∧
      (searchUnusedOrClean c ≠ none → 0 ≤ byteOffset (toU32 i) →
        c.dbFile.length ≤ slotAt (byteOffset (toU32 i)) →
        c1.log.getLast? = some (SysCall.read (slotAt (byteOffset (toU32 i))) 0)) := by
  have hs : searchRecord c i = none := (searchRecord_none_iff c i).2 hnr
  obtain ⟨k, c0, hk, hsel, he, hd, hsame, _, hr⟩ := MYC_readEntry_load c hwf i record rnd hs
  have hk0 : k < c0.CacheEntries.length := by rw [he]; exact hk
  have hkd : k < c0.CacheDirty.length := by rw [hd, hwf.1]; exact hk
  have hek : entryAt c0 k = entryAt c k := by simp only [entryAt, he]
  rcases hr with hr | ⟨hu, off, hlog, hr⟩
  · obtain ⟨hf, _, h0, _, hfw, _, hst⟩ := loadInto_log c0 k i record hk0 hkd
    refine ⟨(loadInto c0 k i record).1, (loadInto c0 k i record).2.1,
      (loadInto c0 k i record).2.2, k, hr.trans (some_triple _), hk, hsel, ?_, ?_, ?_⟩
    · intro slot h
      have := h0 slot h
      rw [hek] at this
      rw [hf]
      exact this
    · intro h1 h2
      rw [hf] at h2
      exact hfw h1 h2
    · intro hne hoff hout
      have hc := hsame hne
      rw [← hc] at hout
      exact hfw (hst hoff) hout
  · refine ⟨-1, record, c0, k, hr, hk, hsel, ?_, ?_, ?_⟩
    · intro slot h
      rw [hlog] at h
      simp at h
    · intro h
      exact absurd h (by decide)
    · intro hne
      exact absurd hu hne

/-- C26, witness: after `MYC_writeEntry(0, recordOf 9)` on a fresh cache over an
empty file, the read of index 5 moves 0 bytes and returns status 0 with the
record `recordOf 9` that was written at index 0. -/
theorem C26_read_past_end_witness :
    WF (MYC_writeEntry (MYC_initCache []) 0 (recordOf 9) 0).2 ∧
    (MYC_readEntry (MYC_writeEntry (MYC_initCache []) 0 (recordOf 9) 0).2 5 zeroRecord 0).map
      (fun x => (x.1, x.2.1, x.2.2.log.getLast?, (entryAt x.2.2 0).id, dirtyAt x.2.2 0)) =
      some (0, recordOf 9, some (SysCall.read 5 0), 5, false) ∧
    ∃ st rec1 c1 k,
      MYC_readEntry (MYC_writeEntry (MYC_initCache []) 0 (recordOf 9) 0).2 5 zeroRecord 0 =
        some (st, rec1, c1) ∧
      k < (MYC_writeEntry (MYC_initCache []) 0 (recordOf 9) 0).2.CacheEntries.length :=
  ⟨by decide, by decide,
    match C26_read_past_end (MYC_writeEntry (MYC_initCache []) 0 (recordOf 9) 0).2 (by decide) 5
      zeroRecord 0 (by decide) with
    | ⟨st, rec1, c1, k, h1, h2, _⟩ => ⟨st, rec1, c1, k, h1, h2⟩⟩

/-- C27, counterexample. After the successful calls write(2^27+1, x) and
`MYC_flushAll` on a fresh cache over an empty file, slot 1 of the file has been
written through this cache only; `MYC_readEntry(1)` then loads a whole bucket
from slot 1 into the second entry and returns 0, and the id of that entry
after the call is 2^27+1, not 1 (and not 0).  And in the state `allDirtyState`,
where no entry holds the index 0, `MYC_readEntry(0)` with the first entry as
victim loads a whole bucket from the zero-filled slot 0 and returns 0, after
which the first entry has id 0, so that the index 0 is held by an entry. -/
theorem C27_counterexample :
    ((runOk (MYC_initCache []) [Op.write 134217729 (recordOf 7) 0, Op.flushAll]).bind
      (fun c => (MYC_readEntry c 1 zeroRecord 0).map
        (fun x => (c.dbFile, x.1, x.2.2.log.getLast?, (entryAt x.2.2 1).id)))) =
      some ([zeroBucket, ⟨recordOf 7, 134217729⟩], 0, some (SysCall.read 1 sizeofBucket),
        134217729) ∧
    searchRecord allDirtyState 0 = none ∧
    (MYC_readEntry allDirtyState 0 zeroRecord 0).map
      (fun x => (x.1, x.2.2.dbFile, x.2.2.log.getLast?, (entryAt x.2.2 0).id,
        searchRecord x.2.2 0)) =
      some (0, [zeroBucket, ⟨recordOf 1, 1⟩], some (SysCall.read 0 sizeofBucket), 0, some 0) := by
  refine ⟨?_, ?_, ?_⟩
  · decide
  · decide
  · decide

/-- C27, amended. A load adopts the id stored in the file: in a well-formed
state `MYC_readEntry(i)` for an index `i` that no entry holds has a result, and
when its transfer moves a whole bucket (the log ends with a `read` of a whole
bucket) the status is 0, the slot read is the one of `i`, inside the file, and
the selected entry `k` is left clean and equal to the bucket of the file at
that slot, id included, no other entry being changed.  When that id is 0, as
in a zero-filled hole, and `i` is not 0, no entry holds `i` after the call.
In a state of a cache used only with valid indices over a file written through
it, and for a valid `i`, the slot is slot `i` and the id adopted is `i` or
0. -/
theorem C27_load_adopts_file_id (c : Cache) (hwf : WF c) (i : Int)
    (record : MYRECORD_RECORD_t) (rnd : Nat)
    (hnr : ∀ m, m < c.CacheEntries.length → (entryAt c m).id ≠ toU32 i) :
    ∃ st rec1 c1 k, MYC_readEntry c i record rnd = some (st, rec1, c1) ∧
      k < c.CacheEntries.length ∧
      (searchUnusedOrClean c = some k ∨
        (searchUnusedOrClean c = none ∧ k = searchAny c rnd)) ∧
      (∀ slot, c1.log.getLast? = some (SysCall.read slot sizeofBucket) →
        st = 0 ∧ slot = slotAt (byteOffset (toU32 i)) ∧ slot < c1.dbFile.length ∧
        entryAt c1 k = c1.dbFile.getD slot zeroBucket ∧
        rec1 = (c1.dbFile.getD slot zeroBucket).record ∧ dirtyAt c1 k = false ∧
        (∀ m, m ≠ k → entryAt c1 m = entryAt c m) ∧
        ((c1.dbFile.getD slot zeroBucket).id = 0 → toU32 i ≠ 0 →
          ∀ m, m < c.CacheEntries.length → (entryAt c1 m).id ≠ toU32 i) ∧
        (Inv c → ValidIndex i →
          slot = toU32 i ∧ ((entryAt c1 k).id = toU32 i ∨ (entryAt c1 k).id = 0))) ∧
      (st = 0 → slotAt (byteOffset (toU32 i)) < c1.dbFile.length →
        c1.log.getLast? = some (SysCall.read (slotAt (byteOffset (toU32 i))) sizeofBucket)) := by
  have hs : searchRecord c i = none := (searchRecord_none_iff c i).2 hnr
  obtain ⟨k, c0, hk, hsel, he, hd, _, hinv0, hr⟩ := MYC_readEntry_load c hwf i record rnd hs
  have hk0 : k < c0.CacheEntries.length := by rw [he]; exact hk
  have hkd : k < c0.CacheDirty.length := by rw [hd, hwf.1]; exact hk
  have heq : ∀ m, entryAt c0 m = entryAt c m := by
    intro m
    simp only [entryAt, he]
  rcases hr with hr | ⟨hu, off, hlog, hr⟩
  · obtain ⟨hf, hoth, _, h32, _, hfw, _⟩ := loadInto_log c0 k i record hk0 hkd
    refine ⟨(loadInto c0 k i record).1, (loadInto c0 k i record).2.1,
      (loadInto c0 k i record).2.2, k, hr.trans (some_triple _), hk, hsel, ?_, ?_⟩
    · intro slot h
      obtain ⟨p1, p2, p3, p4, p5, p6⟩ := h32 slot h
      rw [hf]
      refine ⟨p1, p5, p6, p3, p2, p4, fun m hm => (hoth m hm).trans (heq m), ?_, ?_⟩
      · intro hid hne m hm
        by_cases hmk : m = k
        · rw [hmk, p3, hid]
          exact fun e => hne e.symm
        · rw [hoth m hmk, heq m]
          exact hnr m hm
      · intro hinv hi
        have hv := toU32_of_valid i hi
        have hslot : slot = toU32 i := by
          rw [p5, byteOffset_valid _ hv.2.1, slotAt_valid]
        refine ⟨hslot, ?_⟩
        rw [p3, hslot]
        exact fileOK_getD c0.dbFile (hinv0 hinv).2.2.2.2 (toU32 i)
    · intro h1 h2
      rw [hf] at h2
      exact hfw h1 h2
  · refine ⟨-1, record, c0, k, hr, hk, hsel, ?_, ?_⟩
    · intro slot h
      rw [hlog] at h
      simp at h
    · intro h
      exact absurd h (by decide)

/-- C27, witness: over a file whose slot 1 is a zero-filled hole below the
bucket of index 2, the read of index 1 on a fresh cache moves a whole bucket
and returns 0; the entry it used has id 0 afterwards. -/
theorem C27_load_adopts_file_id_witness :
    WF (MYC_initCache [zeroBucket, zeroBucket, ⟨recordOf 2, 2⟩]) ∧
    (MYC_readEntry (MYC_initCache [zeroBucket, zeroBucket, ⟨recordOf 2, 2⟩]) 1 (recordOf 9)
        0).map
      (fun x => (x.1, x.2.1, x.2.2.log.getLast?, (entryAt x.2.2 0).id, dirtyAt x.2.2 0)) =
      some (0, zeroRecord, some (SysCall.read 1 sizeofBucket), 0, false) ∧
    ∃ st rec1 c1 k,
      MYC_readEntry (MYC_initCache [zeroBucket, zeroBucket, ⟨recordOf 2, 2⟩]) 1 (recordOf 9) 0 =
        some (st, rec1, c1) ∧
      k < (MYC_initCache [zeroBucket, zeroBucket, ⟨recordOf 2, 2⟩]).CacheEntries.length :=
  ⟨by decide, by decide,
    match C27_load_adopts_file_id (MYC_initCache [zeroBucket, zeroBucket, ⟨recordOf 2, 2⟩])
      (by decide) 1 (recordOf 9) 0 (by decide) with
    | ⟨st, rec1, c1, k, h1, h2, _⟩ => ⟨st, rec1, c1, k, h1, h2⟩⟩

/-- The status of a load is -1 exactly when the byte offset of the index is
negative, and 0 otherwise. -/
theorem loadInto_status (c : Cache) (k : Nat) (i : Int) (record : MYRECORD_RECORD_t)
    (hk : k < c.CacheEntries.length) :
    ((loadInto c k i record).1 = 0 ∨ (loadInto c k i record).1 = -1) ∧
      ((loadInto c k i record).1 = -1 ↔ byteOffset (toU32 i) < 0) := by
  rcases loadInto_cases c k i record hk with ⟨hneg, hl⟩ | ⟨hpos, _, hl⟩ | ⟨hpos, _, hl⟩
  · rw [hl]
    exact ⟨Or.inr rfl, fun _ => hneg, fun _ => rfl⟩
  · rw [hl]
    refine ⟨Or.inl rfl, fun h => ?_, fun h => ?_⟩
    · simp at h
    · omega
  · rw [hl]
    refine ⟨Or.inl rfl, fun h => ?_, fun h => ?_⟩
    · simp at h
    · omega

/-- A load that returns 0 leaves the position clean. -/
theorem loadInto_clean (c : Cache) (k : Nat) (i : Int) (record : MYRECORD_RECORD_t)
    (hk : k < c.CacheEntries.length) (hkd : k < c.CacheDirty.length)
    (h : (loadInto c k i record).1 = 0) : dirtyAt (loadInto c k i record).2.2 k = false := by
  rcases loadInto_cases c k i record hk with ⟨_, hl⟩ | ⟨_, _, hl⟩ | ⟨_, _, hl⟩
  · rw [hl] at h
    simp at h
  · rw [hl]
    simp only [dirtyAt]
    exact getD_set_self _ _ _ _ hkd
  · rw [hl]
    simp only [dirtyAt]
    exact getD_set_self _ _ _ _ hkd

/-- The flush of the id of a dirty position, all entries being dirty, returns
-1 exactly when the byte offset of that id is negative, and 0 otherwise. -/
theorem MYC_flushEntry_status (c c1 : Cache) (v : Nat) (st : Int) (hwf : WF c)
    (hv : v < c.CacheEntries.length)
    (hall : ∀ j, j < c.CacheEntries.length → dirtyAt c j = true)
    (h : MYC_flushEntry c (toI32 (entryAt c v).id) = some (st, c1)) :
    (st = 0 ∨ st = -1) ∧ (st = -1 ↔ byteOffset (entryAt c v).id < 0) := by
  have hu : toU32 (toI32 (entryAt c v).id) = (entryAt c v).id :=
    toU32_toI32 _ (hwf.2.2 v hv)
  unfold MYC_flushEntry at h
  cases hs : searchRecord c (toI32 (entryAt c v).id) with
  | none => rw [hs] at h; cases h
  | some k =>
    rw [hs] at h
    simp only [] at h
    have hk := (searchRecord_some_iff c _ k).1 hs
    rw [hu] at hk
    rw [if_pos (hall k hk.1)] at h
    rw [← hk.2.1]
    by_cases hw : byteOffset (entryAt c k).id < 0
    · have hst : (writeEntry c k).1 = -1 := by rw [writeEntry_status, if_pos hw]
      rw [if_pos hst] at h
      simp only [Option.some.injEq, Prod.mk.injEq] at h
      obtain ⟨h1, _⟩ := h
      subst h1
      exact ⟨Or.inr rfl, fun _ => hw, fun _ => rfl⟩
    · have hst : (writeEntry c k).1 = 0 := by rw [writeEntry_status, if_neg hw]
      rw [if_neg (by rw [hst]; decide)] at h
      simp only [Option.some.injEq, Prod.mk.injEq] at h
      obtain ⟨h1, _⟩ := h
      subst h1
      refine ⟨Or.inl rfl, fun e => ?_, fun e => absurd e hw⟩
      simp at e

/-- The read of an index that no entry holds, in a well-formed state: the
position used, the result, and the status, which is -1 exactly when the byte
offset of the index is negative or the flush of the random victim fails. -/
theorem MYC_readEntry_select (c : Cache) (hwf : WF c) (i : Int) (record : MYRECORD_RECORD_t)
    (rnd : Nat) (hs : searchRecord c i = none) :
    ∃ k st rec1 c1, k < c.CacheEntries.length ∧
      (searchUnusedOrClean c = some k ∨
        (searchUnusedOrClean c = none ∧ k = searchAny c rnd)) ∧
      MYC_readEntry c i record rnd = some (st, rec1, c1) ∧
      (st = 0 → rec1 = (entryAt c1 k).record ∧ ∀ m, m ≠ k → entryAt c1 m = entryAt c m) ∧
      (st = 0 → dirtyAt c1 k = false) ∧
      (st = 0 ∨ st = -1) ∧
      (st = -1 ↔ byteOffset (toU32 i) < 0 ∨
        (searchUnusedOrClean c = none ∧ byteOffset (entryAt c k).id < 0)) := by
  cases hu : searchUnusedOrClean c with
  | some k =>
    have hk := searchUnusedOrClean_lt c k hu
    have hr : MYC_readEntry c i record rnd = some (loadInto c k i record) := by
      simp only [MYC_readEntry, hs, hu]
    obtain ⟨h1, h2⟩ := loadInto_status c k i record hk
    refine ⟨k, (loadInto c k i record).1, (loadInto c k i record).2.1,
      (loadInto c k i record).2.2, hk, Or.inl rfl, hr.trans (some_triple _),
      loadInto_uses c k i record,
      loadInto_clean c k i record hk (by rw [hwf.1]; exact hk), h1, ?_⟩
    rw [h2]
    constructor
    · exact fun h => Or.inl h
    · rintro (h | ⟨h, _⟩)
      · exact h
      · cases h
  | none =>
    have hall := (searchUnusedOrClean_none_iff c).1 hu
    have hv := searchAny_lt c rnd hwf.2.1
    obtain ⟨st, c1, hfl, he1⟩ := MYC_flushEntry_defined c (searchAny c rnd) hwf hv
    obtain ⟨f1, f2⟩ := MYC_flushEntry_status c c1 (searchAny c rnd) st hwf hv
      (fun j hj => (hall j hj).2) hfl
    by_cases hst : st = -1
    · refine ⟨searchAny c rnd, -1, record, c1, hv, Or.inr ⟨rfl, rfl⟩, ?_,
        fun h => absurd h (by decide), fun h => absurd h (by decide), Or.inr rfl,
        ⟨fun _ => Or.inr ⟨rfl, f2.1 hst⟩, fun _ => rfl⟩⟩
      unfold MYC_readEntry
      rw [hs]
      simp only []
      rw [hu]
      simp only []
      rw [hfl]
      simp only []
      rw [if_pos hst]
    · have hr : MYC_readEntry c i record rnd =
          some (loadInto c1 (searchAny c rnd) i record) := by
        unfold MYC_readEntry
        rw [hs]
        simp only []
        rw [hu]
        simp only []
        rw [hfl]
        simp only []
        rw [if_neg hst]
      have hv1 : searchAny c rnd < c1.CacheEntries.length := by rw [he1]; exact hv
      obtain ⟨h1, h2⟩ := loadInto_status c1 (searchAny c rnd) i record hv1
      refine ⟨searchAny c rnd, (loadInto c1 (searchAny c rnd) i record).1,
        (loadInto c1 (searchAny c rnd) i record).2.1,
        (loadInto c1 (searchAny c rnd) i record).2.2, hv, Or.inr ⟨rfl, rfl⟩,
        hr.trans (some_triple _), fun h0 => ?_,
        loadInto_clean c1 (searchAny c rnd) i record hv1
          (by rw [(MYC_flushEntry_facts c c1 _ st hfl).2.1, hwf.1]; exact hv), h1, ?_⟩
      · obtain ⟨l1, l2⟩ := loadInto_uses c1 (searchAny c rnd) i record h0
        refine ⟨l1, fun m hm => ?_⟩
        rw [l2 m hm]
        simp only [entryAt, he1]
      · rw [h2]
        constructor
        · exact fun h => Or.inl h
        · rintro (h | ⟨_, h⟩)
          · exact h
          · exact absurd (f2.2 h) hst

/-- C5. Slot selection of `MYC_writeEntry` and `MYC_readEntry` in a well-formed
state: the position `k` that receives the record written, and that a read
uses, is the lowest position holding the index; otherwise the lowest position
with id 0, whatever the dirty flags below it; otherwise the lowest position
whose dirty flag is false; and it is the random position `rnd % N` only when
every entry has a non-zero id and is dirty.  A write returns 0 or -1, and -1
exactly when the position is the random one and the byte offset of its id is
negative (its flush fails); a successful write puts the record and the index
into position `k`, marks it dirty and changes no other position.  A read has a
result with status 0 or -1; the status is -1 exactly when no entry holds the
index and either the byte offset of the index is negative (the load fails) or
the position is the random one and the byte offset of its id is negative; a
successful read returns the record that position `k` holds after the call and
changes no other position, and when no entry held the index it leaves position
`k` clean. -/
theorem C5_slot_priority (c : Cache) (hwf : WF c) (i : Int) (r record : MYRECORD_RECORD_t)
    (rnd : Nat) :
    ∃ k, k < c.CacheEntries.length ∧
      (((entryAt c k).id = toU32 i ∧ ∀ m, m < k → (entryAt c m).id ≠ toU32 i) ∨
       ((∀ m, m < c.CacheEntries.length → (entryAt c m).id ≠ toU32 i) ∧
          (entryAt c k).id = 0 ∧ ∀ m, m < k → (entryAt c m).id ≠ 0) ∨
       ((∀ m, m < c.CacheEntries.length → (entryAt c m).id ≠ toU32 i ∧ (entryAt c m).id ≠ 0) ∧
          dirtyAt c k = false ∧ ∀ m, m < k → dirtyAt c m = true) ∨
       ((∀ m, m < c.CacheEntries.length →
            (entryAt c m).id ≠ toU32 i ∧ (entryAt c m).id ≠ 0 ∧ dirtyAt c m = true) ∧
          k = rnd % c.CacheEntries.length)) ∧
      ((MYC_writeEntry c i r rnd).1 = 0 ∨
        ∀ m, m < c.CacheEntries.length →
          (entryAt c m).id ≠ toU32 i ∧ (entryAt c m).id ≠ 0 ∧ dirtyAt c m = true) ∧
      ((MYC_writeEntry c i r rnd).1 = 0 →
        entryAt (MYC_writeEntry c i r rnd).2 k = ⟨r, toU32 i⟩ ∧
        dirtyAt (MYC_writeEntry c i r rnd).2 k = true ∧
        ∀ m, m ≠ k → entryAt (MYC_writeEntry c i r rnd).2 m = entryAt c m) ∧
      ((MYC_writeEntry c i r rnd).1 = 0 ∨ (MYC_writeEntry c i r rnd).1 = -1) ∧
      ((MYC_writeEntry c i r rnd).1 = -1 ↔
        (∀ m, m < c.CacheEntries.length →
          (entryAt c m).id ≠ toU32 i ∧ (entryAt c m).id ≠ 0 ∧ dirtyAt c m = true) ∧
        byteOffset (entryAt c k).id < 0) ∧
      ∃ st rec1 c1, MYC_readEntry c i record rnd = some (st, rec1, c1) ∧
        (st = 0 → rec1 = (entryAt c1 k).record ∧ ∀ m, m ≠ k → entryAt c1 m = entryAt c m) ∧
        (st = 0 → (∀ m, m < c.CacheEntries.length → (entryAt c m).id ≠ toU32 i) →
          dirtyAt c1 k = false) ∧
        (st = 0 ∨ st = -1) ∧
        (st = -1 ↔
          ((∀ m, m < c.CacheEntries.length → (entryAt c m).id ≠ toU32 i) ∧
            byteOffset (toU32 i) < 0) ∨
          ((∀ m, m < c.CacheEntries.length →
              (entryAt c m).id ≠ toU32 i ∧ (entryAt c m).id ≠ 0 ∧ dirtyAt c m = true) ∧
            byteOffset (entryAt c k).id < 0)) := by
  cases hs : searchRecord c i with
  | some k =>
    have h := (searchRecord_some_iff c i k).1 hs
    have hw : MYC_writeEntry c i r rnd = (0, storeInto c k i r) := by
      simp only [MYC_writeEntry, hs]
    have hr : MYC_readEntry c i record rnd = some (0, (entryAt c k).record, c) := by
      simp only [MYC_readEntry, hs]
    refine ⟨k, h.1, Or.inl ⟨h.2.1, h.2.2⟩, Or.inl (by rw [hw]), ?_, Or.inl (by rw [hw]), ?_,
      _, _, _, hr, ?_, fun _ hall => absurd h.2.1 (hall k h.1), Or.inl rfl, ?_⟩
    · intro _
      rw [hw]
      exact storeInto_uses c c k i r rfl h.1 (by rw [hwf.1]; exact h.1)
    · rw [hw]
      constructor
      · intro e
        simp at e
      · rintro ⟨hall, _⟩
        exact absurd h.2.1 (hall k h.1).1
    · intro _
      exact ⟨rfl, fun _ _ => rfl⟩
    · constructor
      · intro e
        simp at e
      · rintro (⟨hall, _⟩ | ⟨hall, _⟩)
        · exact absurd h.2.1 (hall k h.1)
        · exact absurd h.2.1 (hall k h.1).1
  | none =>
    have hnone := (searchRecord_none_iff c i).1 hs
    obtain ⟨k1, st, rec1, c1, _, hsel, hread, huse, hclean, h01, hiff⟩ :=
      MYC_readEntry_select c hwf i record rnd hs
    cases hu : searchUnusedOrClean c with
    | some k =>
      have hk := searchUnusedOrClean_lt c k hu
      have hk1 : k1 = k := by
        rcases hsel with h | ⟨h, _⟩
        · rw [hu] at h
          exact (Option.some.inj h).symm
        · rw [hu] at h
          cases h
      subst hk1
      have hnot : ¬ ∀ m, m < c.CacheEntries.length →
          (entryAt c m).id ≠ toU32 i ∧ (entryAt c m).id ≠ 0 ∧ dirtyAt c m = true := by
        intro hall
        have := (searchUnusedOrClean_none_iff c).2 (fun m hm => (hall m hm).2)
        rw [hu] at this
        cases this
      have hw : MYC_writeEntry c i r rnd = (0, storeInto c k1 i r) := by
        simp only [MYC_writeEntry, hs, hu, storeInto_setId]
      refine ⟨k1, hk, ?_, Or.inl (by rw [hw]), ?_, Or.inl (by rw [hw]), ?_,
        st, rec1, c1, hread, huse, fun h0 _ => hclean h0, h01, ?_⟩
      · rcases (searchUnusedOrClean_some_iff c k1).1 hu with h | h
        · exact Or.inr (Or.inl ⟨hnone, h.2.1, h.2.2⟩)
        · exact Or.inr (Or.inr (Or.inl ⟨fun m hm => ⟨hnone m hm, h.1 m hm⟩, h.2.2.1, h.2.2.2⟩))
      · intro _
        rw [hw]
        exact storeInto_uses c c k1 i r rfl hk (by rw [hwf.1]; exact hk)
      · rw [hw]
        constructor
        · intro e
          simp at e
        · rintro ⟨hall, _⟩
          exact absurd hall hnot
      · rw [hiff]
        constructor
        · rintro (h | ⟨h, _⟩)
          · exact Or.inl ⟨hnone, h⟩
          · rw [hu] at h
            cases h
        · rintro (⟨_, h⟩ | ⟨hall, _⟩)
          · exact Or.inl h
          · exact absurd hall hnot
    | none =>
      have hall := (searchUnusedOrClean_none_iff c).1 hu
      have hall3 : ∀ m, m < c.CacheEntries.length →
          (entryAt c m).id ≠ toU32 i ∧ (entryAt c m).id ≠ 0 ∧ dirtyAt c m = true :=
        fun m hm => ⟨hnone m hm, (hall m hm).1, (hall m hm).2⟩
      have hv := searchAny_lt c rnd hwf.2.1
      have hk1 : k1 = searchAny c rnd := by
        rcases hsel with h | ⟨_, h⟩
        · rw [hu] at h
          cases h
        · exact h
      subst hk1
      have hws := writeEntry_status c (searchAny c rnd)
      have hwcases : (byteOffset (entryAt c (searchAny c rnd)).id < 0 ∧
            MYC_writeEntry c i r rnd = (-1, (writeEntry c (searchAny c rnd)).2)) ∨
          (¬ byteOffset (entryAt c (searchAny c rnd)).id < 0 ∧
            MYC_writeEntry c i r rnd =
              (0, storeInto (writeEntry c (searchAny c rnd)).2 (searchAny c rnd) i r)) := by
        by_cases hneg : byteOffset (entryAt c (searchAny c rnd)).id < 0
        · left
          refine ⟨hneg, ?_⟩
          have hst : (writeEntry c (searchAny c rnd)).1 = -1 := by rw [hws, if_pos hneg]
          unfold MYC_writeEntry
          rw [hs]
          simp only []
          rw [hu]
          simp only []
          rw [if_pos hst]
        · right
          refine ⟨hneg, ?_⟩
          have hst : (writeEntry c (searchAny c rnd)).1 = 0 := by rw [hws, if_neg hneg]
          unfold MYC_writeEntry
          rw [hs]
          simp only []
          rw [hu]
          simp only []
          rw [if_neg (by rw [hst]; decide), storeInto_setId]
      refine ⟨searchAny c rnd, hv, Or.inr (Or.inr (Or.inr ⟨hall3, rfl⟩)), Or.inr hall3, ?_, ?_, ?_,
        st, rec1, c1, hread, huse, fun h0 _ => hclean h0, h01, ?_⟩
      · intro h0
        rcases hwcases with ⟨_, hw⟩ | ⟨_, hw⟩
        · rw [hw] at h0
          simp at h0
        · rw [hw]
          exact storeInto_uses _ c _ i r (writeEntry_entries c _) hv
            (by rw [writeEntry_dirty_length, hwf.1]; exact hv)
      · rcases hwcases with ⟨_, hw⟩ | ⟨_, hw⟩
        · rw [hw]; exact Or.inr rfl
        · rw [hw]; exact Or.inl rfl
      · rcases hwcases with ⟨hneg, hw⟩ | ⟨hneg, hw⟩
        · rw [hw]
          exact ⟨fun _ => ⟨hall3, hneg⟩, fun _ => rfl⟩
        · rw [hw]
          constructor
          · intro e
            simp at e
          · rintro ⟨_, h⟩
            exact absurd h hneg
      · rw [hiff]
        constructor
        · rintro (h | ⟨_, h⟩)
          · exact Or.inl ⟨hnone, h⟩
          · exact Or.inr ⟨hall3, h⟩
        · rintro (⟨_, h⟩ | ⟨_, h⟩)
          · exact Or.inl h
          · exact Or.inr ⟨hu, h⟩

/-- C5, witness: on a fresh cache over an empty file the write of index 3 puts
its record into a position `k`, and the read of index 3 succeeds. -/
theorem C5_slot_priority_witness :
    WF (MYC_initCache []) ∧
    ∃ k, k < (MYC_initCache []).CacheEntries.length ∧
      entryAt (MYC_writeEntry (MYC_initCache []) 3 (recordOf 3) 0).2 k
        = ⟨recordOf 3, toU32 3⟩ ∧
      ∃ rec1 c1, MYC_readEntry (MYC_initCache []) 3 zeroRecord 0 = some (0, rec1, c1) ∧
        rec1 = (entryAt c1 k).record :=
  ⟨by decide,
    match C5_slot_priority (MYC_initCache []) (by decide) 3 (recordOf 3) zeroRecord 0 with
    | ⟨k, hk, _, _, hw, _, _, st, rec1, c1, hr, huse, _, h01, hiff⟩ =>
      have hst : st = 0 := by
        rcases h01 with h | h
        · exact h
        · rcases hiff.1 h with ⟨_, hb⟩ | ⟨hall, _⟩
          · exact absurd hb (by decide)
          · exact absurd rfl (hall 0 (by decide)).2.1
      ⟨k, hk, (hw (by decide)).1, rec1, c1, by rw [hr, hst], (huse hst).1⟩⟩

/-- A message that `msgrcv` delivers was in the queue, has the type asked for
and fits the buffer, and the rest of the queue is kept. -/
theorem msgrcv_message (q : List Message) (msgsz : Nat) (msgtyp : Int) (m : Message)
    (rest : List Message) (h : msgrcv q msgsz msgtyp = Received.message m rest) :
    m ∈ q ∧ tagOf m = msgtyp ∧ textLength m ≤ msgsz ∧ ∀ x, x ∈ rest → x ∈ q := by
  induction q generalizing rest with
  | nil => simp [msgrcv] at h
  | cons m0 q ih =>
    unfold msgrcv at h
    by_cases ht : tagOf m0 = msgtyp
    · rw [if_pos ht] at h
      by_cases hsz : msgsz < textLength m0
      · rw [if_pos hsz] at h
        cases h
      · rw [if_neg hsz] at h
        cases h
        exact ⟨List.mem_cons_self _ _, ht, Nat.le_of_not_lt hsz,
          fun x hx => List.mem_cons_of_mem _ hx⟩
    · rw [if_neg ht] at h
      cases hq : msgrcv q msgsz msgtyp with
      | blocked => rw [hq] at h; cases h
      | tooBig => rw [hq] at h; cases h
      | message m1 rest1 =>
        rw [hq] at h
        cases h
        obtain ⟨h1, h2, h3, h4⟩ := ih rest1 hq
        refine ⟨List.mem_cons_of_mem _ h1, h2, h3, fun x hx => ?_⟩
        rcases List.mem_cons.1 hx with e | e
        · rw [e]; exact List.mem_cons_self _ _
        · exact List.mem_cons_of_mem _ (h4 x e)

/-- When the queue holds a message of the type asked for, and every message of
that type fits the buffer, `msgrcv` delivers a message. -/
theorem msgrcv_delivers (q : List Message) (msgsz : Nat) (msgtyp : Int)
    (hex : ∃ m, m ∈ q ∧ tagOf m = msgtyp)
    (hfit : ∀ m, m ∈ q → tagOf m = msgtyp → textLength m ≤ msgsz) :
    ∃ m rest, msgrcv q msgsz msgtyp = Received.message m rest := by
  induction q with
  | nil =>
    obtain ⟨m, hm, _⟩ := hex
    cases hm
  | cons m0 q ih =>
    unfold msgrcv
    by_cases ht : tagOf m0 = msgtyp
    · rw [if_pos ht]
      have := hfit m0 (List.mem_cons_self _ _) ht
      rw [if_neg (by omega)]
      exact ⟨_, _, rfl⟩
    · rw [if_neg ht]
      have hex1 : ∃ m, m ∈ q ∧ tagOf m = msgtyp := by
        obtain ⟨m, hm, hmt⟩ := hex
        rcases List.mem_cons.1 hm with e | e
        · rw [e] at hmt
          exact absurd hmt ht
        · exact ⟨m, e, hmt⟩
      obtain ⟨m1, rest1, h1⟩ := ih hex1 (fun m hm => hfit m (List.mem_cons_of_mem _ hm))
      rw [h1]
      exact ⟨_, _, rfl⟩

/-- The answer that a dispatch builds is addressed to `return_to` of the request. -/
theorem dispatch_mtype (c c1 : Cache) (req : request_message_t) (answer0 a : answer_message_t)
    (rnd : Nat) (h : dispatch c req answer0 rnd = some (a, c1)) : a.mtype = req.return_to := by
  unfold dispatch at h
  by_cases hr : req.requested_op = MYSCOP_READ
  · rw [if_pos hr] at h
    cases he : MYC_readEntry c req.index answer0.data rnd with
    | none => rw [he] at h; cases h
    | some x =>
      obtain ⟨st, rec1, c2⟩ := x
      rw [he] at h
      simp only [Option.some.injEq, Prod.mk.injEq] at h
      rw [← h.1]
  · rw [if_neg hr] at h
    by_cases hw : req.requested_op = MYSCOP_WRITE
    · rw [if_pos hw] at h
      simp only [Option.some.injEq, Prod.mk.injEq] at h
      rw [← h.1]
    · rw [if_neg hw] at h
      simp only [Option.some.injEq, Prod.mk.injEq] at h
      rw [← h.1]

/-- An iteration of the server sends at most one answer, addressed to
`return_to` of the request. -/
theorem serverIteration_sent (s s1 : Server) (rcvRet : Int) (eintr : Bool)
    (req : request_message_t) (answer0 : answer_message_t) (rnd : Nat) (sndRet : Int)
    (h : serverIteration s rcvRet eintr req answer0 rnd sndRet = some s1) :
    s1.sent.drop s.sent.length = [] ∨
      ∃ a, s1.sent.drop s.sent.length = [a] ∧ a.mtype = req.return_to := by
  unfold serverIteration at h
  by_cases h2 : STORS_readrequest rcvRet eintr = -2
  · rw [if_pos h2] at h
    cases h
    left
    simp
  · rw [if_neg h2] at h
    by_cases h1 : STORS_readrequest rcvRet eintr = -1
    · rw [if_pos h1] at h
      cases h
      left
      simp
    · rw [if_neg h1] at h
      cases hd : dispatch s.cache req answer0 rnd with
      | none => rw [hd] at h; cases h
      | some x =>
        obtain ⟨a, c1⟩ := x
        rw [hd] at h
        simp only [] at h
        by_cases hsnd : STORS_sendanswer sndRet ≠ 0
        · rw [if_pos hsnd] at h
          cases h
          left
          simp
        · rw [if_neg hsnd] at h
          cases h
          right
          exact ⟨a, by simp, dispatch_mtype _ _ _ _ _ _ hd⟩

/-- The request of a call has the type of the requests and names the client. -/
theorem requestOf_fields (pid : Int) (call : Call) :
    (requestOf pid call).mtype = MYSAPMT_REQUEST ∧ (requestOf pid call).return_to = pid := by
  cases call with
  | read fileIndex request0 => exact ⟨rfl, rfl⟩
  | write fileIndex record => exact ⟨rfl, rfl⟩

theorem toU32_lt (x : Int) : toU32 x < 4294967296 := by
  unfold toU32
  omega

/-- A state with tables of the same lengths whose ids, in the table and in the
file, are values of `unsigned int` is well formed. -/
theorem wfAll_of (c c1 : Cache) (h : WFAll c)
    (hlenE : c1.CacheEntries.length = c.CacheEntries.length)
    (hlenD : c1.CacheDirty.length = c.CacheDirty.length)
    (hent : ∀ j, j < c.CacheEntries.length → (entryAt c1 j).id < 4294967296)
    (hfile : ∀ j, (c1.dbFile.getD j zeroBucket).id < 4294967296) : WFAll c1 :=
  ⟨⟨by rw [hlenD, hlenE]; exact h.1.1, by rw [hlenE]; exact h.1.2.1,
    fun j hj => hent j (by rw [← hlenE]; exact hj)⟩, hfile⟩

theorem wfAll_set (c c1 : Cache) (k : Nat) (b : MYBUCKET_BUCKET_t) (h : WFAll c)
    (he : c1.CacheEntries = c.CacheEntries.set k b)
    (hlenD : c1.CacheDirty.length = c.CacheDirty.length)
    (hb : b.id < 4294967296) (hf : c1.dbFile = c.dbFile) : WFAll c1 := by
  refine wfAll_of c c1 h (by rw [he]; simp) hlenD (fun j hj => ?_) (by rw [hf]; exact h.2)
  simp only [entryAt, he]
  by_cases hjk : j = k
  · subst hjk
    rw [getD_set_self _ _ _ _ hj]
    exact hb
  · rw [getD_set_other _ _ _ _ _ hjk]
    exact h.1.2.2 j hj

theorem wfAll_writeEntry (c : Cache) (k : Nat) (h : WFAll c) (hk : k < c.CacheEntries.length) :
    WFAll (writeEntry c k).2 := by
  refine wfAll_of c _ h (by rw [writeEntry_entries]) (writeEntry_dirty_length c k)
    (fun j hj => ?_) ?_
  · simp only [entryAt, writeEntry_entries]
    exact h.1.2.2 j hj
  · by_cases hneg : byteOffset (entryAt c k).id < 0
    · rw [writeEntry_fail c k hneg]
      exact h.2
    · rw [writeEntry_ok c k (by omega)]
      intro j
      simp only []
      rw [fileWrite_getD]
      by_cases hj : j = slotAt (byteOffset (entryAt c k).id)
      · rw [if_pos hj]
        exact h.1.2.2 k hk
      · rw [if_neg hj]
        exact h.2 j

theorem wfAll_loadInto (c : Cache) (k : Nat) (i : Int) (record : MYRECORD_RECORD_t)
    (h : WFAll c) (hk : k < c.CacheEntries.length) : WFAll (loadInto c k i record).2.2 := by
  rcases loadInto_cases c k i record hk with ⟨_, hl⟩ | ⟨_, _, hl⟩ | ⟨_, _, hl⟩
  · rw [hl]
    exact wfAll_set c _ k _ h rfl rfl (toU32_lt i) rfl
  · rw [hl]
    exact wfAll_set c _ k _ h rfl (by simp) (h.2 _) rfl
  · rw [hl]
    exact wfAll_set c _ k _ h rfl (by simp) (toU32_lt i) rfl

theorem wfAll_storeInto (c : Cache) (k : Nat) (i : Int) (r : MYRECORD_RECORD_t)
    (h : WFAll c) : WFAll (storeInto c k i r) :=
  wfAll_set c _ k _ h rfl (by simp [storeInto]) (toU32_lt i) rfl

theorem wfAll_flushEntry (c c1 : Cache) (j st : Int) (h : WFAll c)
    (hfl : MYC_flushEntry c j = some (st, c1)) : WFAll c1 := by
  unfold MYC_flushEntry at hfl
  cases hs : searchRecord c j with
  | none => rw [hs] at hfl; cases hfl
  | some k =>
    rw [hs] at hfl
    simp only [] at hfl
    have hk := ((searchRecord_some_iff c j k).1 hs).1
    have hw := wfAll_writeEntry c k h hk
    by_cases hd : dirtyAt c k = true
    · rw [if_pos hd] at hfl
      by_cases hst : (writeEntry c k).1 = -1
      · rw [if_pos hst] at hfl
        simp only [Option.some.injEq, Prod.mk.injEq] at hfl
        rw [← hfl.2]
        exact hw
      · rw [if_neg hst] at hfl
        simp only [Option.some.injEq, Prod.mk.injEq] at hfl
        rw [← hfl.2]
        exact hw
    · rw [if_neg hd] at hfl
      simp only [Option.some.injEq, Prod.mk.injEq] at hfl
      rw [← hfl.2]
      exact h

/-- In a well-formed state over a file with ids of `unsigned int`,
`MYC_readEntry` has a result and leaves such a state. -/
theorem wfAll_readEntry (c : Cache) (h : WFAll c) (i : Int) (record : MYRECORD_RECORD_t)
    (rnd : Nat) :
    ∃ st rec1 c1, MYC_readEntry c i record rnd = some (st, rec1, c1) ∧ WFAll c1 := by
  cases hs : searchRecord c i with
  | some k =>
    exact ⟨0, (entryAt c k).record, c, by simp only [MYC_readEntry, hs], h⟩
  | none =>
    cases hu : searchUnusedOrClean c with
    | some k =>
      have hk := searchUnusedOrClean_lt c k hu
      have hr : MYC_readEntry c i record rnd = some (loadInto c k i record) := by
        simp only [MYC_readEntry, hs, hu]
      exact ⟨(loadInto c k i record).1, (loadInto c k i record).2.1, (loadInto c k i record).2.2,
        hr.trans (some_triple _), wfAll_loadInto c k i record h hk⟩
    | none =>
      have hv := searchAny_lt c rnd h.1.2.1
      obtain ⟨st, c1, hfl, he⟩ := MYC_flushEntry_defined c (searchAny c rnd) h.1 hv
      have h1 := wfAll_flushEntry c c1 _ st h hfl
      by_cases hst : st = -1
      · refine ⟨-1, record, c1, ?_, h1⟩
        unfold MYC_readEntry
        rw [hs]
        simp only []
        rw [hu]
        simp only []
        rw [hfl]
        simp only []
        rw [if_pos hst]
      · have hr : MYC_readEntry c i record rnd =
            some (loadInto c1 (searchAny c rnd) i record) := by
          unfold MYC_readEntry
          rw [hs]
          simp only []
          rw [hu]
          simp only []
          rw [hfl]
          simp only []
          rw [if_neg hst]
        exact ⟨(loadInto c1 (searchAny c rnd) i record).1,
          (loadInto c1 (searchAny c rnd) i record).2.1,
          (loadInto c1 (searchAny c rnd) i record).2.2, hr.trans (some_triple _),
          wfAll_loadInto c1 _ i record h1 (by rw [he]; exact hv)⟩

/-- `MYC_writeEntry` leaves a well-formed state over a file with ids of
`unsigned int` as such. -/
theorem wfAll_MYC_writeEntry (c : Cache) (h : WFAll c) (i : Int) (r : MYRECORD_RECORD_t)
    (rnd : Nat) : WFAll (MYC_writeEntry c i r rnd).2 := by
  cases hs : searchRecord c i with
  | some k =>
    have hw : MYC_writeEntry c i r rnd = (0, storeInto c k i r) := by
      simp only [MYC_writeEntry, hs]
    rw [hw]
    exact wfAll_storeInto c k i r h
  | none =>
    cases hu : searchUnusedOrClean c with
    | some k =>
      have hw : MYC_writeEntry c i r rnd = (0, storeInto c k i r) := by
        simp only [MYC_writeEntry, hs, hu, storeInto_setId]
      rw [hw]
      exact wfAll_storeInto c k i r h
    | none =>
      have hv := searchAny_lt c rnd h.1.2.1
      have h1 := wfAll_writeEntry c (searchAny c rnd) h hv
      have hw : MYC_writeEntry c i r rnd =
          if (writeEntry c (searchAny c rnd)).1 = -1 then
            (-1, (writeEntry c (searchAny c rnd)).2)
          else (0, storeInto (writeEntry c (searchAny c rnd)).2 (searchAny c rnd) i r) := by
        unfold MYC_writeEntry
        rw [hs]
        simp only []
        rw [hu]
        simp only [storeInto_setId]
      rw [hw]
      generalize writeEntry c (searchAny c rnd) = w at h1 ⊢
      obtain ⟨st, c1⟩ := w
      by_cases hst : st = -1
      · simp only [hst, if_true]
        exact h1
      · simp only [hst, if_false]
        exact wfAll_storeInto c1 _ i r h1

theorem wfAll_dispatch (c : Cache) (h : WFAll c) (req : request_message_t)
    (answer0 : answer_message_t) (rnd : Nat) :
    ∃ a c1, dispatch c req answer0 rnd = some (a, c1) ∧ WFAll c1 := by
  unfold dispatch
  by_cases hr : req.requested_op = MYSCOP_READ
  · rw [if_pos hr]
    obtain ⟨st, rec1, c1, he, h1⟩ := wfAll_readEntry c h req.index answer0.data rnd
    rw [he]
    exact ⟨_, _, rfl, h1⟩
  · rw [if_neg hr]
    by_cases hw : req.requested_op = MYSCOP_WRITE
    · rw [if_pos hw]
      exact ⟨_, _, rfl, wfAll_MYC_writeEntry c h req.index req.data rnd⟩
    · rw [if_neg hw]
      exact ⟨_, _, rfl, h⟩

theorem wfAll_serverIteration (s : Server) (h : WFAll s.cache) (rcvRet : Int) (eintr : Bool)
    (req : request_message_t) (answer0 : answer_message_t) (rnd : Nat) (sndRet : Int) :
    ∃ s1, serverIteration s rcvRet eintr req answer0 rnd sndRet = some s1 ∧ WFAll s1.cache := by
  unfold serverIteration
  by_cases h2 : STORS_readrequest rcvRet eintr = -2
  · rw [if_pos h2]
    exact ⟨_, rfl, h⟩
  · rw [if_neg h2]
    by_cases h1 : STORS_readrequest rcvRet eintr = -1
    · rw [if_pos h1]
      exact ⟨_, rfl, h⟩
    · rw [if_neg h1]
      obtain ⟨a, c1, hd, hc⟩ := wfAll_dispatch s.cache h req answer0 rnd
      rw [hd]
      simp only []
      by_cases hsnd : STORS_sendanswer sndRet ≠ 0
      · rw [if_pos hsnd]
        exact ⟨_, rfl, hc⟩
      · rw [if_neg hsnd]
        exact ⟨_, rfl, hc⟩

theorem systemStep_serve (sys : System) (req0 : request_message_t) (tail : List Nat)
    (answer0 : answer_message_t) (rnd : Nat) (sndRet : Int) :
    systemStep sys (Event.serve req0 tail answer0 rnd sndRet) =
      if sys.server.running = false then some sys
      else
        match msgrcv sys.queue sizeofRequest MYSAPMT_REQUEST with
        | Received.blocked => some sys
        | Received.tooBig =>
          (serverIteration sys.server (-1) false req0 answer0 rnd sndRet).map
            (fun s1 => { sys with server := s1 })
        | Received.message m rest =>
          (serverIteration sys.server (Int.ofNat (textLength m)) false (requestRead m tail req0)
              answer0 rnd sndRet).map
            (fun s1 =>
              { queue := rest ++ (s1.sent.drop sys.server.sent.length).map
                  (fun a => Message.answer a (senderOf m)),
                server := s1,
                consumed := sys.consumed }) := rfl

theorem systemStep_receive (sys : System) (pid : Int) :
    systemStep sys (Event.receive pid) =
      match msgrcv sys.queue sizeofAnswer pid with
      | Received.message m rest =>
        some { sys with queue := rest, consumed := sys.consumed ++ [(pid, m)] }
      | Received.blocked => some sys
      | Received.tooBig => some sys := rfl

/-- Every step of the system has a result when the cache of the server is well
formed over a file with ids of `unsigned int`, and leaves it so. -/
theorem systemStep_defined (sys : System) (e : Event) (h : WFAll sys.server.cache) :
    ∃ sys1, systemStep sys e = some sys1 ∧ WFAll sys1.server.cache := by
  cases e with
  | send pid call => exact ⟨_, rfl, h⟩
  | serve req0 tail answer0 rnd sndRet =>
    rw [systemStep_serve]
    by_cases hrun : sys.server.running = false
    · rw [if_pos hrun]
      exact ⟨_, rfl, h⟩
    · rw [if_neg hrun]
      cases hq : msgrcv sys.queue sizeofRequest MYSAPMT_REQUEST with
      | blocked => exact ⟨_, rfl, h⟩
      | tooBig =>
        obtain ⟨s1, hs1, hw1⟩ := wfAll_serverIteration sys.server h (-1) false req0 answer0 rnd
          sndRet
        simp only []
        rw [hs1]
        exact ⟨_, rfl, hw1⟩
      | message m rest =>
        obtain ⟨s1, hs1, hw1⟩ := wfAll_serverIteration sys.server h (Int.ofNat (textLength m))
          false (requestRead m tail req0) answer0 rnd sndRet
        simp only []
        rw [hs1]
        exact ⟨_, rfl, hw1⟩
  | receive pid =>
    rw [systemStep_receive]
    cases hq : msgrcv sys.queue sizeofAnswer pid with
    | blocked => exact ⟨_, rfl, h⟩
    | tooBig => exact ⟨_, rfl, h⟩
    | message m rest => exact ⟨_, rfl, h⟩

theorem runSystem_defined (events : List Event) (sys : System) (h : WFAll sys.server.cache) :
    ∃ sys1, runSystem sys events = some sys1 := by
  induction events generalizing sys with
  | nil => exact ⟨sys, rfl⟩
  | cons e es ih =>
    obtain ⟨sys1, h1, hw1⟩ := systemStep_defined sys e h
    obtain ⟨sys2, h2⟩ := ih sys1 hw1
    refine ⟨sys2, ?_⟩
    simp only [runSystem, h1]
    exact h2

/-- A step whose clients have an identity other than the type of the requests
keeps the queue and the messages taken in order. -/
theorem systemStep_inv (sys sys1 : System) (e : Event) (hq : QueueOk sys.queue)
    (hc : ConsumedOk sys.consumed) (he : ClientStep e) (h : systemStep sys e = some sys1) :
    QueueOk sys1.queue ∧ ConsumedOk sys1.consumed := by
  cases e with
  | send pid call =>
    simp only [systemStep, Option.some.injEq] at h
    subst h
    refine ⟨fun m hm => ?_, hc⟩
    rcases List.mem_append.1 hm with hm1 | hm1
    · exact hq m hm1
    · rw [List.mem_singleton] at hm1
      have hf := requestOf_fields pid call
      left
      refine ⟨_, hm1, hf.1, ?_⟩
      rw [hf.2]
      exact he
  | serve req0 tail answer0 rnd sndRet =>
    rw [systemStep_serve] at h
    by_cases hrun : sys.server.running = false
    · rw [if_pos hrun] at h
      cases h
      exact ⟨hq, hc⟩
    · rw [if_neg hrun] at h
      cases hr : msgrcv sys.queue sizeofRequest MYSAPMT_REQUEST with
      | blocked =>
        rw [hr] at h
        cases h
        exact ⟨hq, hc⟩
      | tooBig =>
        rw [hr] at h
        simp only [Option.map_eq_some'] at h
        obtain ⟨s1, _, h2⟩ := h
        subst h2
        exact ⟨hq, hc⟩
      | message m rest =>
        rw [hr] at h
        simp only [Option.map_eq_some'] at h
        obtain ⟨s1, hs1, h2⟩ := h
        subst h2
        obtain ⟨hm, htag, _, hrest⟩ := msgrcv_message _ _ _ _ _ hr
        refine ⟨fun x hx => ?_, hc⟩
        rcases List.mem_append.1 hx with hx1 | hx1
        · exact hq x (hrest x hx1)
        · rcases hq m hm with ⟨r, hmr, _, hcl⟩ | ⟨a, hma, hcl⟩
          · subst hmr
            rcases serverIteration_sent _ _ _ _ _ _ _ _ hs1 with hd | ⟨a, hd, ha⟩
            · rw [hd] at hx1
              cases hx1
            · rw [hd] at hx1
              simp only [List.map_cons, List.map_nil, List.mem_singleton, senderOf] at hx1
              simp only [requestRead] at ha
              right
              refine ⟨a, ?_, ?_⟩
              · rw [hx1, ha]
              · rw [ha]
                exact hcl
          · subst hma
            simp only [tagOf] at htag
            exact absurd htag hcl.2
  | receive pid =>
    rw [systemStep_receive] at h
    cases hr : msgrcv sys.queue sizeofAnswer pid with
    | blocked =>
      rw [hr] at h
      cases h
      exact ⟨hq, hc⟩
    | tooBig =>
      rw [hr] at h
      cases h
      exact ⟨hq, hc⟩
    | message m rest =>
      rw [hr] at h
      simp only [Option.some.injEq] at h
      subst h
      obtain ⟨hm, htag, _, hrest⟩ := msgrcv_message _ _ _ _ _ hr
      refine ⟨fun x hx => hq x (hrest x hx), fun x hx => ?_⟩
      rcases List.mem_append.1 hx with hx1 | hx1
      · exact hc x hx1
      · rw [List.mem_singleton] at hx1
        subst hx1
        rcases hq m hm with ⟨r, hmr, hrt, _⟩ | ⟨a, hma, _⟩
        · subst hmr
          simp only [tagOf] at htag
          rw [hrt] at htag
          exact absurd htag.symm he.2
        · subst hma
          simp only [tagOf] at htag
          exact ⟨a, by rw [htag], htag⟩

theorem runSystem_inv (events : List Event) (sys sys1 : System) (hq : QueueOk sys.queue)
    (hc : ConsumedOk sys.consumed) (he : ∀ e, e ∈ events → ClientStep e)
    (h : runSystem sys events = some sys1) :
    QueueOk sys1.queue ∧ ConsumedOk sys1.consumed := by
  induction events generalizing sys with
  | nil =>
    simp only [runSystem, Option.some.injEq] at h
    subst h
    exact ⟨hq, hc⟩
  | cons e es ih =>
    simp only [runSystem] at h
    cases hs : systemStep sys e with
    | none => rw [hs] at h; cases h
    | some sys2 =>
      rw [hs] at h
      obtain ⟨hq2, hc2⟩ := systemStep_inv sys sys2 e hq hc (he e (List.mem_cons_self _ _)) hs
      exact ih sys2 hq2 hc2 (fun x hx => he x (List.mem_cons_of_mem _ hx)) h

/-- C24, counterexample. The cache is fresh over a file whose record 5 has
`age` 7 and `gender` 0; client A has the identity 1, client B the identity 7.
A sends the READ of index 5 and the server answers it: the answer has type 1.
B sends the READ of index 9.  The next `msgrcv` of the server, on type 1, takes
the answer addressed to A, the first message of that type, and the server
reads it as a READ request with `return_to` 7; it sends an answer of type 7,
which the `msgrcv` of B takes: B has taken an answer that was not built for a
request of B, with status 0 and the record of index 5.  The request of B is
still in the queue, and the `msgrcv` of A then selects it and fails with
`E2BIG`. -/
theorem C24_counterexample :
    (1 : Int) ≠ 7 ∧
    (runSystem
        ⟨[], ⟨MYC_initCache (List.replicate 5 zeroBucket ++
            [⟨⟨5, 7, 0, List.replicate 16 0⟩, 5⟩]), [], true⟩, []⟩
        [Event.send 1 (Call.read 5 ⟨0, 0, 0, zeroRecord, 0⟩),
         Event.serve ⟨0, 0, 0, zeroRecord, 0⟩ (List.replicate 8 0) ⟨0, 0, zeroRecord⟩ 0 0,
         Event.send 7 (Call.read 9 ⟨0, 0, 0, zeroRecord, 0⟩),
         Event.serve ⟨MYSAPMT_REQUEST, MYSCOP_READ, 1, zeroRecord, 5⟩ (List.replicate 8 0)
           ⟨1, 0, ⟨5, 7, 0, List.replicate 16 0⟩⟩ 0 0,
         Event.receive 7]).map
      (fun sys => (sys.consumed, sys.queue, msgrcv sys.queue sizeofAnswer 1)) =
      some ([(7, Message.answer ⟨7, 0, ⟨5, 7, 0, List.replicate 16 0⟩⟩ none)],
        [Message.request ⟨MYSAPMT_REQUEST, MYSCOP_READ, 7, zeroRecord, 9⟩],
        Received.tooBig) := by
  refine ⟨by decide, ?_⟩
  decide

/-- C24, amended. Address isolation.  The server starts with a well-formed
cache over a file with ids of `unsigned int` and an empty queue; the clients
have identities other than the type of the requests.  Then every interleaving
of sends of the clients, passes of the server and receives of the clients has
a result, in which every message that a client has taken out of the queue is
an answer built for a request of that client, never one built for another
client.  Moreover, in the state reached, the receive of a client to whom a
message of the queue is addressed delivers an answer built for a request of
that client, and the receive of the server, when a message of the type of the
requests is in the queue, delivers a request of a client. -/
theorem C24_address_isolation (s0 : Server) (hwf : WFAll s0.cache) (events : List Event)
    (hcl : ∀ e, e ∈ events → ClientStep e) :
    ∃ sys, runSystem ⟨[], s0, []⟩ events = some sys ∧
      (∀ p m, (p, m) ∈ sys.consumed → ∃ a, m = Message.answer a (some p) ∧ a.mtype = p) ∧
      (∀ A B m, A ≠ B → (A, m) ∈ sys.consumed → ∀ a, m ≠ Message.answer a (some B)) ∧
      (∀ p, ClientId p → (∃ m, m ∈ sys.queue ∧ tagOf m = p) →
        ∃ a rest, msgrcv sys.queue sizeofAnswer p
          = Received.message (Message.answer a (some p)) rest) ∧
      ((∃ m, m ∈ sys.queue ∧ tagOf m = MYSAPMT_REQUEST) →
        ∃ r rest, msgrcv sys.queue sizeofRequest MYSAPMT_REQUEST
          = Received.message (Message.request r) rest ∧ ClientId r.return_to) := by
  obtain ⟨sys, hrun⟩ := runSystem_defined events ⟨[], s0, []⟩ hwf
  have hq0 : QueueOk ([] : List Message) := fun m hm => by cases hm
  have hc0 : ConsumedOk ([] : List (Int × Message)) := fun x hx => by cases hx
  obtain ⟨hq, hc⟩ := runSystem_inv events ⟨[], s0, []⟩ sys hq0 hc0 hcl hrun
  have hcons : ∀ p m, (p, m) ∈ sys.consumed → ∃ a, m = Message.answer a (some p) ∧ a.mtype = p :=
    fun p m hpm => hc (p, m) hpm
  refine ⟨sys, hrun, hcons, ?_, ?_, ?_⟩
  · intro A B m hAB hm a e
    obtain ⟨a1, h1, _⟩ := hcons A m hm
    rw [h1] at e
    simp only [Message.answer.injEq, Option.some.injEq] at e
    exact hAB e.2
  · intro p hp hex
    have hfit : ∀ m, m ∈ sys.queue → tagOf m = p → textLength m ≤ sizeofAnswer := by
      intro m hm htag
      rcases hq m hm with ⟨r, hmr, hrt, _⟩ | ⟨a, hma, _⟩
      · subst hmr
        simp only [tagOf] at htag
        rw [hrt] at htag
        exact absurd htag.symm hp.2
      · subst hma
        exact Nat.le_refl _
    obtain ⟨m, rest, hr⟩ := msgrcv_delivers sys.queue sizeofAnswer p hex hfit
    obtain ⟨hm, htag, _, _⟩ := msgrcv_message _ _ _ _ _ hr
    rcases hq m hm with ⟨r, hmr, hrt, _⟩ | ⟨a, hma, _⟩
    · subst hmr
      simp only [tagOf] at htag
      rw [hrt] at htag
      exact absurd htag.symm hp.2
    · subst hma
      simp only [tagOf] at htag
      refine ⟨a, rest, ?_⟩
      rw [hr, htag]
  · intro hex
    have hfit : ∀ m, m ∈ sys.queue → tagOf m = MYSAPMT_REQUEST →
        textLength m ≤ sizeofRequest := by
      intro m _ _
      cases m with
      | request r => exact Nat.le_refl _
      | answer a b =>
        show sizeofAnswer ≤ sizeofRequest
        decide
    obtain ⟨m, rest, hr⟩ := msgrcv_delivers sys.queue sizeofRequest MYSAPMT_REQUEST hex hfit
    obtain ⟨hm, htag, _, _⟩ := msgrcv_message _ _ _ _ _ hr
    rcases hq m hm with ⟨r, hmr, _, hcl1⟩ | ⟨a, hma, hcl1⟩
    · subst hmr
      exact ⟨r, rest, hr, hcl1⟩
    · subst hma
      simp only [tagOf] at htag
      exact absurd htag hcl1.2

/-- C24, witness: the clients 7 and 9 both have a request in flight on a fresh
cache over an empty file; both requests are served and each client takes the
answer built for its own request. -/
theorem C24_address_isolation_witness :
    WFAll (MYC_initCache []) ∧
    (runSystem ⟨[], ⟨MYC_initCache [], [], true⟩, []⟩
        [Event.send 7 (Call.write 3 (recordOf 3)),
         Event.send 9 (Call.read 3 ⟨0, 0, 0, zeroRecord, 0⟩),
         Event.serve ⟨0, 0, 0, zeroRecord, 0⟩ [] ⟨0, 0, zeroRecord⟩ 0 0,
         Event.serve ⟨0, 0, 0, zeroRecord, 0⟩ [] ⟨0, 0, zeroRecord⟩ 0 0,
         Event.receive 9, Event.receive 7]).map (fun sys => (sys.consumed, sys.queue)) =
      some ([(9, Message.answer ⟨9, 0, recordOf 3⟩ (some 9)),
             (7, Message.answer ⟨7, 0, zeroRecord⟩ (some 7))], []) ∧
    ∃ sys, runSystem ⟨[], ⟨MYC_initCache [], [], true⟩, []⟩
        [Event.send 7 (Call.write 3 (recordOf 3)),
         Event.send 9 (Call.read 3 ⟨0, 0, 0, zeroRecord, 0⟩),
         Event.serve ⟨0, 0, 0, zeroRecord, 0⟩ [] ⟨0, 0, zeroRecord⟩ 0 0,
         Event.serve ⟨0, 0, 0, zeroRecord, 0⟩ [] ⟨0, 0, zeroRecord⟩ 0 0,
         Event.receive 9, Event.receive 7] = some sys ∧
      ∀ p m, (p, m) ∈ sys.consumed → ∃ a, m = Message.answer a (some p) ∧ a.mtype = p :=
  ⟨⟨by decide, fun k => by
      simp [MYC_initCache, zeroBucket]⟩, by decide,
    match C24_address_isolation ⟨MYC_initCache [], [], true⟩
      ⟨by decide, fun k => by simp [MYC_initCache, zeroBucket]⟩
      [Event.send 7 (Call.write 3 (recordOf 3)),
       Event.send 9 (Call.read 3 ⟨0, 0, 0, zeroRecord, 0⟩),
       Event.serve ⟨0, 0, 0, zeroRecord, 0⟩ [] ⟨0, 0, zeroRecord⟩ 0 0,
       Event.serve ⟨0, 0, 0, zeroRecord, 0⟩ [] ⟨0, 0, zeroRecord⟩ 0 0,
       Event.receive 9, Event.receive 7] (by decide) with
    | ⟨sys, h1, h2, _⟩ => ⟨sys, h1, h2⟩⟩

end MyCache
